import Mathlib

/-!
Formal model of the wcPlay visual scripting engine (engine core: `wcPlay` in the
bundled build file and `wcNode` in Code/nodes/node.js), with theorems checking the
specification's claims about the connection protocol, the deferred-trigger
scheduler, property propagation and the restart semantics.

Conventions of the embedding:
* JS objects holding node references are modelled by the node's integer id; the
  node store is the list of all live nodes owned by the engine.
* JS runtime values are modelled by `JSVal`; `truthy` and `jsStrictEq` mirror the
  JS truthiness test and the strict-equality operator.
* Console logging is a no-op and is dropped. Editor-only visual fields that no
  modelled operation reads or writes (flashDelta, color) are dropped; the flash
  and paused meta flags, which the modelled operations do touch, are kept.
* The four flow/property connect functions and the four disconnect functions of
  wcNode are textually identical up to which of the two link arrays they operate
  on; they are modelled once, parameterized by a side, with one wrapper per
  source function keeping the source's name.
* The mutually recursive disconnect functions are modelled with an explicit fuel
  argument; the top-level wrappers supply a fuel that is proved sufficient on
  well-formed states.
-/

namespace WcPlay

/-- JavaScript runtime values, as far as the engine's data model needs them. -/
inductive JSVal where
  | undef
  | null
  | bool (b : Bool)
  | num (n : Int)
  | str (s : String)
deriving DecidableEq, Repr

/-- JavaScript truthiness of a value. -/
def truthy : JSVal → Bool
  | .undef => false
  | .null => false
  | .bool b => b
  | .num n => n != 0
  | .str s => s != ""

/-- JavaScript strict equality (the three-equal-signs operator): values of
different runtime types are never strictly equal. -/
def jsStrictEq : JSVal → JSVal → Bool
  | .undef, .undef => true
  | .null, .null => true
  | .bool a, .bool b => a == b
  | .num a, .num b => a == b
  | .str a, .str b => a == b
  | _, _ => false

/-- One endpoint reference stored inside a link's links array: the JS record of
a name together with a node object, the object replaced by its id. -/
structure LinkRef where
  node : Nat
  name : String
deriving DecidableEq, Repr

/-- A named flow link (an element of chain.entry or chain.exit) with its list of
connections and the meta flags the engine writes. -/
structure FlowLink where
  name : String
  links : List LinkRef
  metaFlash : Bool
  metaPaused : Bool
deriving DecidableEq, Repr

/-- A node property: live value, initial value, type tag, and the two property
link arrays with their meta flags. -/
structure NodeProp where
  name : String
  value : JSVal
  initialValue : JSVal
  ptype : String
  inputs : List LinkRef
  outputs : List LinkRef
  inputMetaFlash : Bool
  inputMetaPaused : Bool
  outputMetaFlash : Bool
  outputMetaPaused : Bool
deriving DecidableEq, Repr

/-- The static kind of a node, deciding which engine partition holds it and
which base-class behavior hooks apply. -/
inductive NodeKind where
  | entry
  | process
  | storage
  | composite
deriving DecidableEq, Repr

/-- A wcNode instance: id, kind, flow links, properties, runtime meta state,
latent thread tokens and the breakpoint flag. -/
structure Node where
  id : Nat
  kind : NodeKind
  entry : List FlowLink
  exit : List FlowLink
  properties : List NodeProp
  metaFlash : Bool
  metaPaused : Bool
  metaAwake : Bool
  threads : List JSVal
  breakFlag : Bool
deriving DecidableEq, Repr

/-- Which of the two flow link arrays an operation addresses. -/
inductive FlowSide where
  | entry
  | exit
deriving DecidableEq, Repr

/-- The opposite flow side: an entry link connects to an exit link. -/
def FlowSide.flip : FlowSide → FlowSide
  | .entry => .exit
  | .exit => .entry

/-- Which of the two property link arrays an operation addresses. -/
inductive PropSide where
  | input
  | output
deriving DecidableEq, Repr

/-- The opposite property side: an input link connects to an output link. -/
def PropSide.flip : PropSide → PropSide
  | .input => .output
  | .output => .input

/-- The flow link array of a node on a given side. -/
def Node.flowLinks (n : Node) : FlowSide → List FlowLink
  | .entry => n.entry
  | .exit => n.exit

/-- Replace the flow link array of a node on a given side. -/
def Node.setFlowLinks (n : Node) : FlowSide → List FlowLink → Node
  | .entry, ls => { n with entry := ls }
  | .exit, ls => { n with exit := ls }

/-- The property link array of a property on a given side. -/
def NodeProp.propLinks (p : NodeProp) : PropSide → List LinkRef
  | .input => p.inputs
  | .output => p.outputs

/-- Replace the property link array of a property on a given side. -/
def NodeProp.setPropLinks (p : NodeProp) : PropSide → List LinkRef → NodeProp
  | .input, ls => { p with inputs := ls }
  | .output, ls => { p with outputs := ls }

/-- Look a node up by id (first match), modelling a JS object reference. -/
def findNode : List Node → Nat → Option Node
  | [], _ => none
  | n :: rest, i => if n.id = i then some n else findNode rest i

/-- Apply a function to the node with the given id (first match). -/
def updateNode : List Node → Nat → (Node → Node) → List Node
  | [], _, _ => []
  | n :: rest, i, f => if n.id = i then f n :: rest else n :: updateNode rest i f

/-- First flow link with the given name, as the JS search loops do. -/
def findFlowLink : List FlowLink → String → Option FlowLink
  | [], _ => none
  | l :: rest, nm => if l.name = nm then some l else findFlowLink rest nm

/-- First property with the given name, as the JS search loops do. -/
def findNodeProp : List NodeProp → String → Option NodeProp
  | [], _ => none
  | p :: rest, nm => if p.name = nm then some p else findNodeProp rest nm

/-- Apply a function to the first flow link with the given name. -/
def modifyFlowLink : List FlowLink → String → (FlowLink → FlowLink) → List FlowLink
  | [], _, _ => []
  | l :: rest, nm, f => if l.name = nm then f l :: rest else l :: modifyFlowLink rest nm f

/-- Apply a function to the first property with the given name. -/
def modifyNodeProp : List NodeProp → String → (NodeProp → NodeProp) → List NodeProp
  | [], _, _ => []
  | p :: rest, nm, f => if p.name = nm then f p :: rest else p :: modifyNodeProp rest nm f

/-- The duplicate-connection test of the connect functions: does the links array
hold a reference with exactly this node and link name. -/
def hasRef (ls : List LinkRef) (nid : Nat) (nm : String) : Bool :=
  ls.any fun r => r.node == nid && r.name == nm

/-- The string constant wcNode.CONNECT_RESULT.NOT_FOUND. -/
def NOT_FOUND : String := "not_found"

/-- The string constant wcNode.CONNECT_RESULT.ALREADY_CONNECTED. -/
def ALREADY_CONNECTED : String := "already_connected"

/-- The string constant wcNode.CONNECT_RESULT.SUCCESS. -/
def SUCCESS : String := "success"

/-- wcNode.connectEntry, connectExit, connectInput and connectOutput share this
shape: resolve both named endpoints, return NOT_FOUND when either is missing,
ALREADY_CONNECTED when the exact pair exists on either side, and otherwise push
the paired reference onto both sides (onConnect is a base-class no-op). -/
def connectFlow (side : FlowSide) (st : List Node) (selfId : Nat) (name : String)
    (targetId : Nat) (targetName : String) : String × List Node :=
  match findNode st selfId, findNode st targetId with
  | some self, some target =>
    match findFlowLink (self.flowLinks side) name,
          findFlowLink (target.flowLinks side.flip) targetName with
    | some myLink, some targetLink =>
      if hasRef myLink.links targetId targetLink.name then (ALREADY_CONNECTED, st)
      else if hasRef targetLink.links selfId myLink.name then (ALREADY_CONNECTED, st)
      else
        let st1 := updateNode st selfId fun n =>
          n.setFlowLinks side (modifyFlowLink (n.flowLinks side) name
            fun l => { l with links := l.links ++ [⟨targetId, targetLink.name⟩] })
        let st2 := updateNode st1 targetId fun n =>
          n.setFlowLinks side.flip (modifyFlowLink (n.flowLinks side.flip) targetName
            fun l => { l with links := l.links ++ [⟨selfId, myLink.name⟩] })
        (SUCCESS, st2)
    | _, _ => (NOT_FOUND, st)
  | _, _ => (NOT_FOUND, st)

/-- The property-link counterpart of `connectFlow`, shared by wcNode.connectInput
and wcNode.connectOutput. -/
def connectProp (side : PropSide) (st : List Node) (selfId : Nat) (name : String)
    (targetId : Nat) (targetName : String) : String × List Node :=
  match findNode st selfId, findNode st targetId with
  | some self, some target =>
    match findNodeProp self.properties name,
          findNodeProp target.properties targetName with
    | some myProperty, some targetProperty =>
      if hasRef (myProperty.propLinks side) targetId targetProperty.name then
        (ALREADY_CONNECTED, st)
      else if hasRef (targetProperty.propLinks side.flip) selfId myProperty.name then
        (ALREADY_CONNECTED, st)
      else
        let st1 := updateNode st selfId fun n =>
          let ps := modifyNodeProp n.properties name fun p =>
            p.setPropLinks side (p.propLinks side ++ [⟨targetId, targetProperty.name⟩])
          { n with properties := ps }
        let st2 := updateNode st1 targetId fun n =>
          let ps := modifyNodeProp n.properties targetName fun p =>
            p.setPropLinks side.flip (p.propLinks side.flip ++ [⟨selfId, myProperty.name⟩])
          { n with properties := ps }
        (SUCCESS, st2)
    | _, _ => (NOT_FOUND, st)
  | _, _ => (NOT_FOUND, st)

/-- wcNode.connectEntry: connect an entry link of this node to an exit link of
the target node. -/
def connectEntry (st : List Node) (selfId : Nat) (name : String)
    (targetId : Nat) (targetName : String) : String × List Node :=
  connectFlow .entry st selfId name targetId targetName

/-- wcNode.connectExit: connect an exit link of this node to an entry link of
the target node. -/
def connectExit (st : List Node) (selfId : Nat) (name : String)
    (targetId : Nat) (targetName : String) : String × List Node :=
  connectFlow .exit st selfId name targetId targetName

/-- wcNode.connectInput: connect a property input of this node to a property
output of the target node. -/
def connectInput (st : List Node) (selfId : Nat) (name : String)
    (targetId : Nat) (targetName : String) : String × List Node :=
  connectProp .input st selfId name targetId targetName

/-- wcNode.connectOutput: connect a property output of this node to a property
input of the target node. -/
def connectOutput (st : List Node) (selfId : Nat) (name : String)
    (targetId : Nat) (targetName : String) : String × List Node :=
  connectProp .output st selfId name targetId targetName

/-- The target filter of the disconnect functions: a link matches when every
supplied filter component equals the corresponding field (an absent filter
matches everything). -/
def filterMatch (tN : Option Nat) (tL : Option String) (r : LinkRef) : Bool :=
  (match tN with
   | none => true
   | some nid => r.node == nid) &&
  (match tL with
   | none => true
   | some nm => r.name == nm)

/-- The current links array of the first flow link with the given name on the
node with the given id. -/
def flowRefs (st : List Node) (selfId : Nat) (side : FlowSide) (name : String) :
    Option (List LinkRef) :=
  match findNode st selfId with
  | none => none
  | some n =>
    match findFlowLink (n.flowLinks side) name with
    | none => none
    | some l => some l.links

/-- Remove index i from the links array of the first flow link with the given
name (the splice step of the disconnect loop). -/
def removeFlowRefAt (st : List Node) (selfId : Nat) (side : FlowSide) (name : String)
    (i : Nat) : List Node :=
  updateNode st selfId fun n =>
    n.setFlowLinks side (modifyFlowLink (n.flowLinks side) name
      fun l => { l with links := l.links.eraseIdx i })

/-- The current links array of the first property with the given name. -/
def propRefs (st : List Node) (selfId : Nat) (side : PropSide) (name : String) :
    Option (List LinkRef) :=
  match findNode st selfId with
  | none => none
  | some n =>
    match findNodeProp n.properties name with
    | none => none
    | some p => some (p.propLinks side)

/-- Remove index i from the property link array of the first property with the
given name. -/
def removePropRefAt (st : List Node) (selfId : Nat) (side : PropSide) (name : String)
    (i : Nat) : List Node :=
  updateNode st selfId fun n =>
    let ps := modifyNodeProp n.properties name fun p =>
      p.setPropLinks side ((p.propLinks side).eraseIdx i)
    { n with properties := ps }

mutual

/-- wcNode.disconnectEntry and wcNode.disconnectExit (chosen by side): resolve
the named link (NOT_FOUND when missing), then walk its links array removing
every filter match, recursing into the opposite-side disconnect of the partner
after each local removal. The fuel argument makes the JS mutual recursion
structural; the top-level wrappers supply sufficient fuel. -/
def disconnectFlowAux : Nat → FlowSide → List Node → Nat → String →
    Option Nat → Option String → String × List Node
  | 0, _, st, _, _, _, _ => (NOT_FOUND, st)
  | fuel+1, side, st, selfId, name, tN, tL =>
    match findNode st selfId with
    | none => (NOT_FOUND, st)
    | some self =>
      match findFlowLink (self.flowLinks side) name with
      | none => (NOT_FOUND, st)
      | some _ => (SUCCESS, disconnectFlowLoop fuel side st selfId name tN tL 0)

/-- The removal loop of the flow disconnect functions: index i walks the links
array, which is re-read from the state each step because the recursive call can
splice it; a removed element keeps the index in place (the splice-and-decrement
idiom of the source), a kept element advances it. -/
def disconnectFlowLoop : Nat → FlowSide → List Node → Nat → String →
    Option Nat → Option String → Nat → List Node
  | 0, _, st, _, _, _, _, _ => st
  | fuel+1, side, st, selfId, name, tN, tL, i =>
    match flowRefs st selfId side name with
    | none => st
    | some links =>
      match links[i]? with
      | none => st
      | some r =>
        if filterMatch tN tL r then
          let st1 := removeFlowRefAt st selfId side name i
          let st2 := (disconnectFlowAux fuel side.flip st1 r.node r.name
            (some selfId) (some name)).2
          disconnectFlowLoop fuel side st2 selfId name tN tL i
        else
          disconnectFlowLoop fuel side st selfId name tN tL (i+1)

end

mutual

/-- wcNode.disconnectInput and wcNode.disconnectOutput (chosen by side), the
property-link counterpart of `disconnectFlowAux`. -/
def disconnectPropAux : Nat → PropSide → List Node → Nat → String →
    Option Nat → Option String → String × List Node
  | 0, _, st, _, _, _, _ => (NOT_FOUND, st)
  | fuel+1, side, st, selfId, name, tN, tL =>
    match findNode st selfId with
    | none => (NOT_FOUND, st)
    | some self =>
      match findNodeProp self.properties name with
      | none => (NOT_FOUND, st)
      | some _ => (SUCCESS, disconnectPropLoop fuel side st selfId name tN tL 0)

/-- The removal loop of the property disconnect functions. -/
def disconnectPropLoop : Nat → PropSide → List Node → Nat → String →
    Option Nat → Option String → Nat → List Node
  | 0, _, st, _, _, _, _, _ => st
  | fuel+1, side, st, selfId, name, tN, tL, i =>
    match propRefs st selfId side name with
    | none => st
    | some links =>
      match links[i]? with
      | none => st
      | some r =>
        if filterMatch tN tL r then
          let st1 := removePropRefAt st selfId side name i
          let st2 := (disconnectPropAux fuel side.flip st1 r.node r.name
            (some selfId) (some name)).2
          disconnectPropLoop fuel side st2 selfId name tN tL i
        else
          disconnectPropLoop fuel side st selfId name tN tL (i+1)

end

/-- Total number of link references stored on a node across both flow sides and
both property sides. -/
def Node.refCount (n : Node) : Nat :=
  (n.entry.map fun l => l.links.length).sum +
  (n.exit.map fun l => l.links.length).sum +
  (n.properties.map fun p => p.inputs.length + p.outputs.length).sum

/-- Total number of link references in the node store. -/
def totalRefs (st : List Node) : Nat :=
  (st.map Node.refCount).sum

/-- Fuel supplied to the disconnect recursion by the top-level wrappers; proved
sufficient on well-formed states. -/
def disconnectFuel (st : List Node) : Nat :=
  (totalRefs st + 3) * (totalRefs st + 3) * (totalRefs st + 3)

/-- wcNode.disconnectEntry: remove all (or all filter-matching) connections of a
named entry link, fixing up the partner side. -/
def disconnectEntry (st : List Node) (selfId : Nat) (name : String)
    (targetNode : Option Nat) (targetName : Option String) : String × List Node :=
  disconnectFlowAux (disconnectFuel st) .entry st selfId name targetNode targetName

/-- wcNode.disconnectExit. -/
def disconnectExit (st : List Node) (selfId : Nat) (name : String)
    (targetNode : Option Nat) (targetName : Option String) : String × List Node :=
  disconnectFlowAux (disconnectFuel st) .exit st selfId name targetNode targetName

/-- wcNode.disconnectInput. -/
def disconnectInput (st : List Node) (selfId : Nat) (name : String)
    (targetNode : Option Nat) (targetName : Option String) : String × List Node :=
  disconnectPropAux (disconnectFuel st) .input st selfId name targetNode targetName

/-- wcNode.disconnectOutput. -/
def disconnectOutput (st : List Node) (selfId : Nat) (name : String)
    (targetNode : Option Nat) (targetName : Option String) : String × List Node :=
  disconnectPropAux (disconnectFuel st) .output st selfId name targetNode targetName

/-- Remove the flow link at index i from a node (the splice step of removeEntry
and removeExit). -/
def removeFlowAt (st : List Node) (selfId : Nat) (side : FlowSide) (i : Nat) :
    List Node :=
  updateNode st selfId fun n => n.setFlowLinks side ((n.flowLinks side).eraseIdx i)

/-- The scan loop of wcNode.removeEntry and wcNode.removeExit: find a link with
the given name, disconnect it fully, and delete its slot when the disconnect
reports SUCCESS. -/
def removeFlowLoop (side : FlowSide) (selfId : Nat) (name : String) :
    Nat → List Node → Nat → Bool × List Node
  | 0, st, _ => (false, st)
  | fuel+1, st, i =>
    match findNode st selfId with
    | none => (false, st)
    | some n =>
      match (n.flowLinks side)[i]? with
      | none => (false, st)
      | some l =>
        if l.name = name then
          let res :=
            match side with
            | .entry => disconnectEntry st selfId name none none
            | .exit => disconnectExit st selfId name none none
          if res.1 = SUCCESS then (true, removeFlowAt res.2 selfId side i)
          else removeFlowLoop side selfId name fuel res.2 (i+1)
        else removeFlowLoop side selfId name fuel st (i+1)

/-- wcNode.removeEntry. -/
def removeEntry (st : List Node) (selfId : Nat) (name : String) : Bool × List Node :=
  let len :=
    match findNode st selfId with
    | none => 0
    | some n => n.entry.length
  removeFlowLoop .entry selfId name (len+1) st 0

/-- wcNode.removeExit. -/
def removeExit (st : List Node) (selfId : Nat) (name : String) : Bool × List Node :=
  let len :=
    match findNode st selfId with
    | none => 0
    | some n => n.exit.length
  removeFlowLoop .exit selfId name (len+1) st 0

/-- Remove the property at index i from a node (the splice step of
removeProperty). -/
def removePropAt (st : List Node) (selfId : Nat) (i : Nat) : List Node :=
  updateNode st selfId fun n => { n with properties := n.properties.eraseIdx i }

/-- The scan loop of wcNode.removeProperty. The source's guard reads
disconnectInput(name) === disconnectOutput(name) === SUCCESS; strict equality is
left-associative, so this first compares the two result strings, then compares
the resulting Boolean with the string constant SUCCESS. A Boolean is never
strictly equal to a string, so the guard is always false: both disconnects run
for their side effects, but the slot is never deleted. -/
def removePropertyLoop (selfId : Nat) (name : String) :
    Nat → List Node → Nat → Bool × List Node
  | 0, st, _ => (false, st)
  | fuel+1, st, i =>
    match findNode st selfId with
    | none => (false, st)
    | some n =>
      match n.properties[i]? with
      | none => (false, st)
      | some p =>
        if p.name = name then
          let res1 := disconnectInput st selfId name none none
          let res2 := disconnectOutput res1.2 selfId name none none
          if jsStrictEq (.bool (res1.1 == res2.1)) (.str SUCCESS) then
            (true, removePropAt res2.2 selfId i)
          else removePropertyLoop selfId name fuel res2.2 (i+1)
        else removePropertyLoop selfId name fuel st (i+1)

/-- wcNode.removeProperty. -/
def removeProperty (st : List Node) (selfId : Nat) (name : String) :
    Bool × List Node :=
  let len :=
    match findNode st selfId with
    | none => 0
    | some n => n.properties.length
  removePropertyLoop selfId name (len+1) st 0

/-- A script-level (global) property of the engine. -/
structure ScriptProp where
  name : String
  value : JSVal
  initialValue : JSVal
  ptype : String
deriving DecidableEq, Repr

/-- An element of the engine's flow queue (queuedChain). -/
structure ChainItem where
  node : Nat
  name : String
deriving DecidableEq, Repr

/-- An element of the engine's property queue (queuedProperties). -/
structure PropItem where
  node : Nat
  name : String
  value : JSVal
deriving DecidableEq, Repr

/-- The wcPlay engine state: the node store (the four kind-partitions are the
kind-filtered sublists), script properties, the two FIFO queues, the run-state
flags and options, and the host timer environment the engine talks to through
setInterval/setTimeout/clearTimeout/clearInterval. -/
structure PlayState where
  nodes : List Node
  scriptProperties : List ScriptProp
  queuedChain : List ChainItem
  queuedProperties : List PropItem
  isPaused : Bool
  isStepping : Bool
  silent : Bool
  debugging : Bool
  updateRate : Int
  updateLimit : Nat
  hostTimers : List Nat
  nextTimerId : Nat
  updateID : Nat
  updateId : Option Nat
deriving DecidableEq, Repr

/-- Apply a function to the node with the given id inside the engine state. -/
def PlayState.modifyNode (st : PlayState) (i : Nat) (f : Node → Node) : PlayState :=
  { st with nodes := updateNode st.nodes i f }

/-- The get form of wcNode.property: the value of the first property with the
given name, or undefined when there is none. -/
def propGetValue (n : Node) (name : String) : JSVal :=
  match findNodeProp n.properties name with
  | none => .undef
  | some p => p.value

/-- wcNode.enabled (get form): reads the built-in enabled property. -/
def wcNodeEnabledVal (n : Node) : JSVal :=
  propGetValue n "enabled"

/-- wcNode.debugBreak (get form): the engine must be debugging and the node's
break flag set. -/
def wcNodeDebugBreak (st : PlayState) (n : Node) : Bool :=
  st.debugging && n.breakFlag

/-- wcPlay.queueNodeEntry: when the node is enabled, push the item on the flow
queue; when the node breaks here or the engine is stepping, flag the node's
flash and paused meta and pause the engine. -/
def queueNodeEntry (st : PlayState) (nodeId : Nat) (name : String) : PlayState :=
  match findNode st.nodes nodeId with
  | none => st
  | some n =>
    if truthy (wcNodeEnabledVal n) then
      let st1 := { st with queuedChain := st.queuedChain ++ [⟨nodeId, name⟩] }
      if wcNodeDebugBreak st1 n || st1.isStepping then
        let st2 := st1.modifyNode nodeId fun m =>
          { m with metaFlash := true, metaPaused := true }
        { st2 with isPaused := true }
      else st1
    else st

/-- wcPlay.queueNodeProperty: the property-queue counterpart of
queueNodeEntry. -/
def queueNodeProperty (st : PlayState) (nodeId : Nat) (name : String)
    (value : JSVal) : PlayState :=
  match findNode st.nodes nodeId with
  | none => st
  | some n =>
    if truthy (wcNodeEnabledVal n) then
      let st1 := { st with queuedProperties := st.queuedProperties ++ [⟨nodeId, name, value⟩] }
      if wcNodeDebugBreak st1 n || st1.isStepping then
        let st2 := st1.modifyNode nodeId fun m =>
          { m with metaFlash := true, metaPaused := true }
        { st2 with isPaused := true }
      else st1
    else st

/-- wcNode.triggerEntry: resolve the named entry link (false when missing), set
its flash meta, set its paused meta when breaking or stepping, then defer by
queueing on the engine — never a synchronous handler call. -/
def wcNodeTriggerEntry (st : PlayState) (selfId : Nat) (name : String) :
    Bool × PlayState :=
  match findNode st.nodes selfId with
  | none => (false, st)
  | some self =>
    match findFlowLink self.entry name with
    | none => (false, st)
    | some l =>
      let st1 := st.modifyNode selfId fun n =>
        { n with entry := modifyFlowLink n.entry name fun k => { k with metaFlash := true } }
      let st2 :=
        if wcNodeDebugBreak st1 self || st1.isStepping then
          st1.modifyNode selfId fun n =>
            { n with entry := modifyFlowLink n.entry name fun k => { k with metaPaused := true } }
        else st1
      (true, queueNodeEntry st2 selfId l.name)

/-- wcNode.triggerProperty: queue the value change on the engine, then set the
input meta flags of every property with the given name. -/
def wcNodeTriggerProperty (st : PlayState) (selfId : Nat) (name : String)
    (value : JSVal) : PlayState :=
  let st1 := queueNodeProperty st selfId name value
  match findNode st1.nodes selfId with
  | none => st1
  | some self =>
    let cond := wcNodeDebugBreak st1 self || st1.isStepping
    st1.modifyNode selfId fun n =>
      let ps := n.properties.map fun p =>
        if p.name = name then
          let p1 := { p with inputMetaFlash := true }
          if cond then { p1 with inputMetaPaused := true } else p1
        else p
      { n with properties := ps }

/-- wcNode.property. Get form (value undefined): return the current value. Set
form: update the output meta flags, run the change guard (the
onPropertyChanging hook of the base class only logs and returns undefined, so
the guarded reassignment keeps the proposed value), commit when forced or
different, and unless forceOrSilent is exactly false fan the new value out to
every connected output through triggerProperty. Returns the property's value
after the call. -/
def wcNodeProperty (st : PlayState) (selfId : Nat) (name : String) (value : JSVal)
    (forceOrSilent : JSVal) : JSVal × PlayState :=
  match findNode st.nodes selfId with
  | none => (.undef, st)
  | some self =>
    match findNodeProp self.properties name with
    | none => (.undef, st)
    | some prop =>
      if value = JSVal.undef then (prop.value, st)
      else
        let pausedCond := wcNodeDebugBreak st self || st.isStepping
        let st1 := st.modifyNode selfId fun n =>
          let ps := modifyNodeProp n.properties name fun p =>
            let p1 := { p with outputMetaFlash := true }
            if pausedCond then { p1 with outputMetaPaused := true } else p1
          { n with properties := ps }
        if truthy forceOrSilent || !(jsStrictEq prop.value value) then
          let st2 := st1.modifyNode selfId fun n =>
            let ps := modifyNodeProp n.properties name fun p => { p with value := value }
            { n with properties := ps }
          let st3 :=
            if forceOrSilent = JSVal.undef || truthy forceOrSilent then
              prop.outputs.foldl
                (fun acc r => wcNodeTriggerProperty acc r.node r.name value) st2
            else st2
          (value, st3)
        else (prop.value, st1)

/-- wcNode.triggerExit: resolve the named exit link (false when missing), set
its flash meta, then eagerly call triggerEntry on every connected target,
flagging this exit link paused when a target breaks or the engine steps. -/
def wcNodeTriggerExit (st : PlayState) (selfId : Nat) (name : String) :
    Bool × PlayState :=
  match findNode st.nodes selfId with
  | none => (false, st)
  | some self =>
    match findFlowLink self.exit name with
    | none => (false, st)
    | some xl =>
      let st1 := st.modifyNode selfId fun n =>
        { n with exit := modifyFlowLink n.exit name fun k => { k with metaFlash := true } }
      let st2 := xl.links.foldl
        (fun acc r =>
          let acc1 := (wcNodeTriggerEntry acc r.node r.name).2
          let cond :=
            (match findNode acc1.nodes r.node with
             | none => false
             | some tn => wcNodeDebugBreak acc1 tn) || acc1.isStepping
          if cond then
            acc1.modifyNode selfId fun n =>
              { n with exit := modifyFlowLink n.exit name fun k => { k with metaPaused := true } }
          else acc1)
        st1
      (true, st2)

/-- wcNode.onTriggered as dispatched by the node's kind: the Entry base class
immediately fires the default exit when its trigger condition (default: always
true) passes; the other base classes only log. -/
def wcNodeOnTriggered (st : PlayState) (selfId : Nat) (_name : String) : PlayState :=
  match findNode st.nodes selfId with
  | none => st
  | some n =>
    match n.kind with
    | .entry => (wcNodeTriggerExit st selfId "out").2
    | _ => st

/-- One observable scheduler event: a dequeued property update or a dequeued
flow trigger, recorded at the moment the engine invokes the node. -/
inductive TickEvent where
  | prop (node : Nat) (name : String) (value : JSVal)
  | chain (node : Nat) (name : String)
deriving DecidableEq, Repr

/-- Processing of one dequeued property item: flag the node flashing and
unpaused, then perform the write and onward propagation. -/
def processPropItem (st : PlayState) (item : PropItem) : PlayState :=
  let st1 := st.modifyNode item.node fun n => { n with metaFlash := true, metaPaused := false }
  (wcNodeProperty st1 item.node item.name item.value .undef).2

/-- Processing of one dequeued flow item: flag the node flashing and unpaused,
then invoke its triggered-handler. -/
def processChainItem (st : PlayState) (item : ChainItem) : PlayState :=
  let st1 := st.modifyNode item.node fun n => { n with metaFlash := true, metaPaused := false }
  wcNodeOnTriggered st1 item.node item.name

/-- The property-drain while loop of wcPlay.update, with the trace of processed
items as an extra observation. -/
def updatePropLoop : Nat → PlayState → PlayState × List TickEvent
  | 0, st => (st, [])
  | count+1, st =>
    match st.queuedProperties with
    | [] => (st, [])
    | item :: rest =>
      let st1 := processPropItem { st with queuedProperties := rest } item
      let res := updatePropLoop count st1
      (res.1, .prop item.node item.name item.value :: res.2)

/-- The flow-drain while loop of wcPlay.update. -/
def updateChainLoop : Nat → PlayState → PlayState × List TickEvent
  | 0, st => (st, [])
  | count+1, st =>
    match st.queuedChain with
    | [] => (st, [])
    | item :: rest =>
      let st1 := processChainItem { st with queuedChain := rest } item
      let res := updateChainLoop count st1
      (res.1, .chain item.node item.name :: res.2)

/-- wcPlay.update: skip when paused; drain up to updateLimit property items;
only when no property items remain, drain the flow queue — the source computes
that budget as updateLimit minus the loop counter, but the counter has been
decremented to zero by the first while loop, so the flow queue receives the
full updateLimit; finally, when stepping, pause. -/
def wcPlayUpdate (st : PlayState) : PlayState × List TickEvent :=
  if st.isPaused then (st, [])
  else
    let count := min st.queuedProperties.length st.updateLimit
    let res1 := updatePropLoop count st
    let countAfter : Nat := 0
    let res2 :=
      if res1.1.queuedProperties.length = 0 then
        updateChainLoop (min res1.1.queuedChain.length (res1.1.updateLimit - countAfter)) res1.1
      else (res1.1, [])
    let st3 := if res2.1.isStepping then { res2.1 with isPaused := true } else res2.1
    (st3, res1.2 ++ res2.2)

/-- First script property with the given name. -/
def findScriptProp : List ScriptProp → String → Option ScriptProp
  | [], _ => none
  | p :: rest, nm => if p.name = nm then some p else findScriptProp rest nm

/-- Apply a function to the first script property with the given name. -/
def modifyScriptProp : List ScriptProp → String → (ScriptProp → ScriptProp) →
    List ScriptProp
  | [], _, _ => []
  | p :: rest, nm, f => if p.name = nm then f p :: rest else p :: modifyScriptProp rest nm f

/-- wcPlay.property: look the script property up; when a defined value is
supplied and strictly differs, assign it and notify all nodes (the base-class
shared-property hook only logs). The function body has no return statement, so
every call evaluates to undefined. -/
def wcPlayProperty (st : PlayState) (name : String) (value : JSVal) :
    JSVal × PlayState :=
  match findScriptProp st.scriptProperties name with
  | none => (.undef, st)
  | some prop =>
    if value != JSVal.undef && !(jsStrictEq value prop.value) then
      let sp := modifyScriptProp st.scriptProperties name fun p => { p with value := value }
      (.undef, { st with scriptProperties := sp })
    else (.undef, st)

/-- wcPlay.initialProperty: when a defined value strictly differs from the
stored initial value, assign the initial value; when the live value still
equalled the old initial value, also re-assign the live value (and notify —
a base-class no-op). Every call evaluates to undefined. -/
def wcPlayInitialProperty (st : PlayState) (name : String) (value : JSVal) :
    JSVal × PlayState :=
  match findScriptProp st.scriptProperties name with
  | none => (.undef, st)
  | some prop =>
    if value != JSVal.undef && !(jsStrictEq value prop.initialValue) then
      let oldValue := prop.initialValue
      let sp1 := modifyScriptProp st.scriptProperties name fun p => { p with initialValue := value }
      if jsStrictEq prop.value oldValue then
        let sp2 := modifyScriptProp sp1 name fun p => { p with value := value }
        (.undef, { st with scriptProperties := sp2 })
      else (.undef, { st with scriptProperties := sp1 })
    else (.undef, st)

/-- wcNode.initialValue (Code/nodes/node.js): assign the initial value of every
property with the given name; the live value is not touched and no coupling
check is performed. -/
def wcNodeInitialValue (st : PlayState) (selfId : Nat) (name : String)
    (value : JSVal) : PlayState :=
  st.modifyNode selfId fun n =>
    let ps := n.properties.map fun p =>
      if p.name = name then { p with initialValue := value } else p
    { n with properties := ps }

/-- wcNode.reset: restore every property's live value from its initial value,
cancel the host timer behind every numeric thread token, and clear the thread
list. -/
def wcNodeReset (st : PlayState) (selfId : Nat) : PlayState :=
  match findNode st.nodes selfId with
  | none => st
  | some self =>
    let st1 := st.modifyNode selfId fun n =>
      let ps := n.properties.map fun p => { p with value := p.initialValue }
      { n with properties := ps }
    let keptTimers := st1.hostTimers.filter
      fun tid => !(self.threads.any fun t => t == JSVal.num (Int.ofNat tid))
    let st2 := { st1 with hostTimers := keptTimers }
    st2.modifyNode selfId fun n => { n with threads := [] }

/-- wcNode.onStart as dispatched by the node's kind: the Storage base class
force-propagates its value property so all connected nodes receive the storage
contents; the other base classes only log. -/
def wcNodeOnStart (st : PlayState) (selfId : Nat) : PlayState :=
  match findNode st.nodes selfId with
  | none => st
  | some n =>
    match n.kind with
    | .storage =>
      let v := (wcNodeProperty st selfId "value" JSVal.undef JSVal.undef).1
      (wcNodeProperty st selfId "value" v (JSVal.bool true)).2
    | _ => st

/-- Run wcNode.reset over one kind-partition in store order. -/
def resetKind (st : PlayState) (k : NodeKind) : PlayState :=
  ((st.nodes.filter fun n => n.kind == k).map Node.id).foldl wcNodeReset st

/-- wcPlay.__notifyNodes for onStart: storage, process, composite, then entry
partition order. -/
def notifyOnStart (st : PlayState) : PlayState :=
  let stepKind := fun (acc : PlayState) (k : NodeKind) =>
    ((acc.nodes.filter fun n => n.kind == k).map Node.id).foldl wcNodeOnStart acc
  stepKind (stepKind (stepKind (stepKind st .storage) .process) .composite) .entry

/-- wcPlay.start: pause, restore script property values from their initial
values, reset every node partition (storage, process, composite, entry), clear
both queues, unpause and leave stepping mode, register the periodic update
interval (the guard reads a field the interval handle is never stored in, so it
always passes), and finally notify every node's onStart. -/
def wcPlayStart (st : PlayState) : PlayState :=
  let st1 := { st with isPaused := true }
  let resetProps := st1.scriptProperties.map fun p => { p with value := p.initialValue }
  let st2 := { st1 with scriptProperties := resetProps }
  let st3 := resetKind (resetKind (resetKind (resetKind st2 .storage) .process) .composite) .entry
  let st4 := { st3 with queuedChain := [], queuedProperties := [] }
  let st5 := { st4 with isPaused := false, isStepping := false }
  let st6 :=
    if (st5.updateId : Option Nat) = none then
      { st5 with hostTimers := st5.hostTimers ++ [st5.nextTimerId],
                 updateID := st5.nextTimerId, nextTimerId := st5.nextTimerId + 1 }
    else st5
  notifyOnStart st6

/-- The first two stages of wcPlay.start: pause and restore every script
property's value from its initial value. -/
def startStage2 (g : PlayState) : PlayState :=
  { g with isPaused := true,
           scriptProperties := g.scriptProperties.map fun p =>
             { p with value := p.initialValue } }

/-- The four reset partitions of wcPlay.start in engine order. -/
def resetChain (g : PlayState) : PlayState :=
  resetKind (resetKind (resetKind (resetKind g .storage) .process) .composite) .entry

/-- The closing stages of wcPlay.start before the onStart notification: clear
both queues, unpause, leave stepping mode and register the update interval. -/
def startStage5 (g : PlayState) : PlayState :=
  let st5 := { g with queuedChain := [], queuedProperties := [],
                      isPaused := false, isStepping := false }
  if (st5.updateId : Option Nat) = none then
    { st5 with hostTimers := st5.hostTimers ++ [st5.nextTimerId],
               updateID := st5.nextTimerId, nextTimerId := st5.nextTimerId + 1 }
  else st5

/-- Observation helper: the live value of a node's named property. -/
def nodePropValue (st : PlayState) (nid : Nat) (name : String) : Option JSVal :=
  (findNode st.nodes nid).bind fun n => (findNodeProp n.properties name).map (·.value)

/-- Observation helper: the initial value of a node's named property. -/
def nodePropInitial (st : PlayState) (nid : Nat) (name : String) : Option JSVal :=
  (findNode st.nodes nid).bind fun n => (findNodeProp n.properties name).map (·.initialValue)

/-- Observation helper: a node's paused meta flag. -/
def nodeMetaPaused (st : PlayState) (nid : Nat) : Option Bool :=
  (findNode st.nodes nid).map (·.metaPaused)

/-- Observation helper: how often a reference occurs in the links array of a
named flow link. -/
def countFlowRef (st : List Node) (nid : Nat) (side : FlowSide) (linkName : String)
    (r : LinkRef) : Nat :=
  match flowRefs st nid side linkName with
  | none => 0
  | some ls => ls.count r

/-- The property-drain phase of one tick (the first loop of wcPlay.update with
its budget). -/
def tickPropPhase (st : PlayState) : PlayState × List TickEvent :=
  updatePropLoop (min st.queuedProperties.length st.updateLimit) st

/-- The flow-drain phase of one tick: runs only when the property queue is
empty after the drain, with the full updateLimit as budget (the loop counter
consumed by the first phase is zero by then). -/
def tickChainTrace (st : PlayState) : List TickEvent :=
  if (tickPropPhase st).1.queuedProperties.length = 0 then
    (updateChainLoop
      (min (tickPropPhase st).1.queuedChain.length ((tickPropPhase st).1.updateLimit - 0))
      (tickPropPhase st).1).2
  else []

/-- Processing relation: the property queue only grows at the back (FIFO
discipline) and the flow queue is untouched. -/
def propQueueExtends (s1 s2 : PlayState) : Prop :=
  (∃ ex, s2.queuedProperties = s1.queuedProperties ++ ex) ∧
  s2.queuedChain = s1.queuedChain

/-- Processing relation: the flow queue only grows at the back and the property
queue is untouched. -/
def chainQueueExtends (s1 s2 : PlayState) : Prop :=
  (∃ ex, s2.queuedChain = s1.queuedChain ++ ex) ∧
  s2.queuedProperties = s1.queuedProperties

/-- Reset invariant: every property of every node carries its initial value and
no thread tokens are outstanding. -/
def goodNodes (g : PlayState) : Prop :=
  ∀ n ∈ g.nodes, (∀ p ∈ n.properties, p.value = p.initialValue) ∧ n.threads = []

/-- Example flow link with no connections. -/
def exLink (nm : String) : FlowLink := ⟨nm, [], false, false⟩

/-- Example property with equal live and initial value and no connections. -/
def exProp (nm : String) (v : JSVal) : NodeProp :=
  ⟨nm, v, v, "string", [], [], false, false, false, false⟩

/-- Example process node with one entry, one exit, and properties enabled and
p. -/
def exNodeA : Node :=
  ⟨0, .process, [exLink "in"], [exLink "out"],
   [exProp "enabled" (.bool true), exProp "p" (.num 5)], false, false, false, [], false⟩

/-- Example process node with one entry, one exit, and properties enabled and
q. -/
def exNodeB : Node :=
  ⟨1, .process, [exLink "in"], [exLink "out"],
   [exProp "enabled" (.bool true), exProp "q" (.num 0)], false, false, false, [], false⟩

/-- Example engine state owning the two example nodes and one script
property. -/
def exPlay : PlayState :=
  ⟨[exNodeA, exNodeB], [⟨"g", .num 3, .num 3, "string"⟩], [], [], false, false,
   false, true, 25, 100, [], 0, 0, none⟩

/-- Example node with an active breakpoint flag. -/
def exNodeBrk : Node := { exNodeA with breakFlag := true }

/-- Example engine state whose first node has an active breakpoint. -/
def exPlayBrk : PlayState := { exPlay with nodes := [exNodeBrk, exNodeB] }

/-- Example node whose enabled property is false. -/
def exNodeDis : Node :=
  { exNodeA with properties := [exProp "enabled" (.bool false), exProp "p" (.num 5)] }

/-- Example engine state whose first node is disabled. -/
def exPlayDis : PlayState := { exPlay with nodes := [exNodeDis, exNodeB] }

/-- Example tick state: updateLimit 1 with one queued property update and one
queued flow trigger. -/
def exPlayTick : PlayState :=
  { exPlay with
    updateLimit := 1,
    queuedProperties := [⟨0, "x", .num 1⟩],
    queuedChain := [⟨0, "in"⟩] }

/-- Example storage node holding value 7 with an output connection to node 1's
property q, and one outstanding numeric thread token. -/
def exNodeStore : Node :=
  ⟨2, .storage, [], [],
   [exProp "enabled" (.bool true),
    { exProp "value" (.num 7) with outputs := [⟨1, "q"⟩] }],
   false, false, false, [.num 42], false⟩

/-- Example node 1 with its q property connected to the storage node's value
output, and live value diverged from its initial value. -/
def exNodeBIn : Node :=
  { exNodeB with properties :=
      [exProp "enabled" (.bool true),
       { exProp "q" (.num 0) with value := .num 4, inputs := [⟨2, "value"⟩] }] }

/-- Example engine state for restart: a storage node wired to node 1, stale
queue contents, and a pending host timer for the storage node's thread. -/
def exPlayRestart : PlayState :=
  { exPlay with
    nodes := [exNodeStore, exNodeBIn],
    hostTimers := [42],
    nextTimerId := 100,
    queuedChain := [⟨1, "in"⟩],
    queuedProperties := [⟨1, "q", .num 9⟩] }

/-- Link symmetry over the flow views: whenever the store resolves node a's
side link named nm to a links array, that array has no duplicate reference and
every reference (b, nm2) in it is answered by the matching back reference
(a, nm) inside b's opposite-side link named nm2. -/
def symFlowViews (st : List Node) : Prop :=
  ∀ (a : Nat) (side : FlowSide) (nm : String) (ls : List LinkRef),
    flowRefs st a side nm = some ls →
    ls.Nodup ∧ ∀ r ∈ ls, ∃ pls, flowRefs st r.node side.flip r.name = some pls ∧
      (⟨a, nm⟩ : LinkRef) ∈ pls

/-- Link symmetry over the property views. -/
def symPropViews (st : List Node) : Prop :=
  ∀ (a : Nat) (side : PropSide) (nm : String) (ls : List LinkRef),
    propRefs st a side nm = some ls →
    ls.Nodup ∧ ∀ r ∈ ls, ∃ pls, propRefs st r.node side.flip r.name = some pls ∧
      (⟨a, nm⟩ : LinkRef) ∈ pls

/-- Link symmetry of the whole store. -/
def linkSym (st : List Node) : Prop := symFlowViews st ∧ symPropViews st

/-- Executable check of `symFlowViews` for one node's links on one side. -/
def checkFlowNode (st : List Node) (a : Nat) (side : FlowSide)
    (links : List FlowLink) : Bool :=
  links.all fun l =>
    match flowRefs st a side l.name with
    | none => false
    | some ls =>
      decide ls.Nodup && ls.all fun r =>
        match flowRefs st r.node side.flip r.name with
        | none => false
        | some pls => decide ((⟨a, l.name⟩ : LinkRef) ∈ pls)

/-- Executable check of `symFlowViews` over the store. -/
def checkFlowSym (st : List Node) : Bool :=
  st.all fun n0 =>
    match findNode st n0.id with
    | none => false
    | some n =>
      checkFlowNode st n0.id .entry n.entry && checkFlowNode st n0.id .exit n.exit

/-- Executable check of `symPropViews` for one node's properties on one side. -/
def checkPropNode (st : List Node) (a : Nat) (side : PropSide)
    (props : List NodeProp) : Bool :=
  props.all fun p =>
    match propRefs st a side p.name with
    | none => false
    | some ls =>
      decide ls.Nodup && ls.all fun r =>
        match propRefs st r.node side.flip r.name with
        | none => false
        | some pls => decide ((⟨a, p.name⟩ : LinkRef) ∈ pls)

/-- Executable check of `symPropViews` over the store. -/
def checkPropSym (st : List Node) : Bool :=
  st.all fun n0 =>
    match findNode st n0.id with
    | none => false
    | some n =>
      checkPropNode st n0.id .input n.properties &&
        checkPropNode st n0.id .output n.properties

/-- One call of the public connect/disconnect protocol. -/
inductive GraphOp where
  | connectEntry (selfId : Nat) (name : String) (targetId : Nat) (targetName : String)
  | connectExit (selfId : Nat) (name : String) (targetId : Nat) (targetName : String)
  | connectInput (selfId : Nat) (name : String) (targetId : Nat) (targetName : String)
  | connectOutput (selfId : Nat) (name : String) (targetId : Nat) (targetName : String)
  | disconnectEntry (selfId : Nat) (name : String) (tN : Option Nat) (tL : Option String)
  | disconnectExit (selfId : Nat) (name : String) (tN : Option Nat) (tL : Option String)
  | disconnectInput (selfId : Nat) (name : String) (tN : Option Nat) (tL : Option String)
  | disconnectOutput (selfId : Nat) (name : String) (tN : Option Nat) (tL : Option String)
deriving DecidableEq, Repr

/-- Run one protocol call on the store, keeping the resulting store. -/
def applyOp (st : List Node) : GraphOp → List Node
  | .connectEntry a n b m => (connectEntry st a n b m).2
  | .connectExit a n b m => (connectExit st a n b m).2
  | .connectInput a n b m => (connectInput st a n b m).2
  | .connectOutput a n b m => (connectOutput st a n b m).2
  | .disconnectEntry a n tN tL => (disconnectEntry st a n tN tL).2
  | .disconnectExit a n tN tL => (disconnectExit st a n tN tL).2
  | .disconnectInput a n tN tL => (disconnectInput st a n tN tL).2
  | .disconnectOutput a n tN tL => (disconnectOutput st a n tN tL).2

/-- Run a sequence of protocol calls in order. -/
def applyOps (ops : List GraphOp) (st : List Node) : List Node :=
  ops.foldl applyOp st

/-! ## Helper lemmas about the store primitives -/

theorem findFlowLink_name : ∀ {l : List FlowLink} {nm : String} {k : FlowLink},
    findFlowLink l nm = some k → k.name = nm
  | [], _, _, h => by simp [findFlowLink] at h
  | a :: rest, nm, k, h => by
    rw [findFlowLink] at h
    split at h
    · cases h; assumption
    · exact findFlowLink_name h

theorem findNodeProp_name : ∀ {l : List NodeProp} {nm : String} {k : NodeProp},
    findNodeProp l nm = some k → k.name = nm
  | [], _, _, h => by simp [findNodeProp] at h
  | a :: rest, nm, k, h => by
    rw [findNodeProp] at h
    split at h
    · cases h; assumption
    · exact findNodeProp_name h

theorem findNode_id : ∀ {l : List Node} {i : Nat} {n : Node},
    findNode l i = some n → n.id = i
  | [], _, _, h => by simp [findNode] at h
  | a :: rest, i, n, h => by
    rw [findNode] at h
    split at h
    · cases h; assumption
    · exact findNode_id h

theorem findNode_updateNode_self : ∀ {l : List Node} {i : Nat} {f : Node → Node},
    (∀ n, (f n).id = n.id) →
    findNode (updateNode l i f) i = (findNode l i).map f
  | [], i, f, hf => by simp [findNode, updateNode]
  | a :: rest, i, f, hf => by
    rw [updateNode]
    by_cases ha : a.id = i
    · rw [if_pos ha, findNode, if_pos (by rw [hf a]; exact ha), findNode, if_pos ha]
      rfl
    · rw [if_neg ha, findNode, if_neg ha, findNode, if_neg ha]
      exact findNode_updateNode_self hf

theorem findNode_updateNode_self_ex (l : List Node) (i : Nat) (f : Node → Node)
    (hf : ∀ n, (f n).id = n.id) :
    findNode (updateNode l i f) i = (findNode l i).map f :=
  findNode_updateNode_self hf

theorem findNodeProp_modify :
    ∀ (l : List NodeProp) (nm : String) (f : NodeProp → NodeProp),
    (∀ p, (f p).name = p.name) →
    findNodeProp (modifyNodeProp l nm f) nm = (findNodeProp l nm).map f
  | [], nm, f, hf => by simp [findNodeProp, modifyNodeProp]
  | a :: rest, nm, f, hf => by
    rw [modifyNodeProp]
    by_cases ha : a.name = nm
    · rw [if_pos ha, findNodeProp, if_pos (by rw [hf a]; exact ha),
        findNodeProp, if_pos ha]
      rfl
    · rw [if_neg ha, findNodeProp, if_neg ha, findNodeProp, if_neg ha]
      exact findNodeProp_modify rest nm f hf

theorem findScriptProp_modify :
    ∀ (l : List ScriptProp) (nm : String) (f : ScriptProp → ScriptProp),
    (∀ p, (f p).name = p.name) →
    findScriptProp (modifyScriptProp l nm f) nm = (findScriptProp l nm).map f
  | [], nm, f, hf => by simp [findScriptProp, modifyScriptProp]
  | a :: rest, nm, f, hf => by
    rw [modifyScriptProp]
    by_cases ha : a.name = nm
    · rw [if_pos ha, findScriptProp, if_pos (by rw [hf a]; exact ha),
        findScriptProp, if_pos ha]
      rfl
    · rw [if_neg ha, findScriptProp, if_neg ha, findScriptProp, if_neg ha]
      exact findScriptProp_modify rest nm f hf

theorem findNodeProp_mapIf :
    ∀ (l : List NodeProp) (nm : String) (g : NodeProp → NodeProp),
    (∀ p, (g p).name = p.name) →
    findNodeProp (l.map fun p => if p.name = nm then g p else p) nm =
      (findNodeProp l nm).map g
  | [], nm, g, hg => by simp [findNodeProp]
  | a :: rest, nm, g, hg => by
    rw [List.map_cons]
    by_cases ha : a.name = nm
    · rw [if_pos ha, findNodeProp, if_pos (by rw [hg a]; exact ha),
        findNodeProp, if_pos ha]
      rfl
    · rw [if_neg ha, findNodeProp, if_neg ha, findNodeProp, if_neg ha]
      exact findNodeProp_mapIf rest nm g hg

/-! ## C10 -/

/-- C10: wcPlay.property called without a value argument evaluates to undefined
even when the named script property exists (the function body never returns the
stored value), while wcNode.property's get form returns the property's current
value. -/
theorem c10_script_getter_returns_undefined (st : PlayState) (name : String)
    (value : JSVal) (nid : Nat) (pname : String) (n : Node) (p : NodeProp)
    (hn : findNode st.nodes nid = some n)
    (hp : findNodeProp n.properties pname = some p) :
    (wcPlayProperty st name value).1 = JSVal.undef ∧
    (wcNodeProperty st nid pname JSVal.undef JSVal.undef).1 = p.value := by
  constructor
  · simp only [wcPlayProperty]
    rcases hfp : findScriptProp st.scriptProperties name with _ | q
    · rfl
    · dsimp only
      split <;> rfl
  · simp only [wcNodeProperty]
    rw [hn]
    dsimp only
    rw [hp]
    simp

/-- C10 witness: concrete engine state with script property g = 3 and node 0
carrying property p = 5. -/
theorem c10_witness :
    (wcPlayProperty exPlay "g" JSVal.undef).1 = JSVal.undef ∧
    (wcNodeProperty exPlay 0 "p" JSVal.undef JSVal.undef).1 = JSVal.num 5 := by
  have h := c10_script_getter_returns_undefined exPlay "g" JSVal.undef 0 "p" exNodeA
    (exProp "p" (JSVal.num 5)) (by decide) (by decide)
  exact ⟨h.1, h.2⟩

/-! ## C7 -/

/-- C7: wcNode.removeProperty evaluated at the failing input: node 0 owns a
property p and both disconnects report success, yet removeProperty returns
false and the property slot survives, because the source compares the Boolean
equality of the two disconnect results with the string constant SUCCESS. -/
theorem c7_removeProperty_never_deletes :
    removeProperty [exNodeA] 0 "p" = (false, [exNodeA]) ∧
    (disconnectInput [exNodeA] 0 "p" none none).1 = SUCCESS ∧
    (disconnectOutput [exNodeA] 0 "p" none none).1 = SUCCESS := by
  decide

/-! ## C8 -/

/-- C8 counterexample: node 0's property p has live value 5 equal to its
initial value 5; the node-level initialValue setter assigns initial value 9 but
the live value stays 5, although the claim requires the two to move together. -/
theorem c8_counterexample_initialValue_not_coupled :
    nodePropValue (wcNodeInitialValue exPlay 0 "p" (JSVal.num 9)) 0 "p" =
      some (JSVal.num 5) ∧
    nodePropInitial (wcNodeInitialValue exPlay 0 "p" (JSVal.num 9)) 0 "p" =
      some (JSVal.num 9) := by
  decide

/-- C8 (amended): the engine-level initialProperty keeps the two values coupled
— assigning a defined, strictly different initial value also moves the live
value exactly when the live value still equals the old initial value — while
the node-level initialValue setter of Code/nodes/node.js performs no coupling:
it overwrites only the stored initial value and never touches the live value. -/
theorem c8_initial_value_coupling (st : PlayState) (name : String) (value : JSVal)
    (p : ScriptProp) (hp : findScriptProp st.scriptProperties name = some p)
    (hv : value ≠ JSVal.undef) (hdiff : jsStrictEq value p.initialValue = false)
    (nid : Nat) (pname : String) (n : Node) (q : NodeProp)
    (hn : findNode st.nodes nid = some n)
    (hq : findNodeProp n.properties pname = some q) :
    (jsStrictEq p.value p.initialValue = true →
      findScriptProp ((wcPlayInitialProperty st name value).2).scriptProperties name =
        some { p with value := value, initialValue := value }) ∧
    (jsStrictEq p.value p.initialValue = false →
      findScriptProp ((wcPlayInitialProperty st name value).2).scriptProperties name =
        some { p with initialValue := value }) ∧
    nodePropValue (wcNodeInitialValue st nid pname value) nid pname = some q.value ∧
    nodePropInitial (wcNodeInitialValue st nid pname value) nid pname = some value := by
  have hguard : (value != JSVal.undef && !(jsStrictEq value p.initialValue)) = true := by
    simp [hdiff, bne_iff_ne, hv]
  refine ⟨?_, ?_, ?_, ?_⟩
  · intro hcoupled
    simp only [wcPlayInitialProperty]
    rw [hp]
    dsimp only
    rw [if_pos hguard, if_pos hcoupled]
    dsimp only
    rw [findScriptProp_modify
      (modifyScriptProp st.scriptProperties name fun r => { r with initialValue := value })
      name (fun r => { r with value := value }) (fun r => rfl)]
    rw [findScriptProp_modify st.scriptProperties name
      (fun r => { r with initialValue := value }) (fun r => rfl)]
    rw [hp]
    rfl
  · intro hdiv
    simp only [wcPlayInitialProperty]
    rw [hp]
    dsimp only
    rw [if_pos hguard, if_neg (by rw [hdiv]; exact Bool.false_ne_true)]
    dsimp only
    rw [findScriptProp_modify st.scriptProperties name
      (fun r => { r with initialValue := value }) (fun r => rfl)]
    rw [hp]
    rfl
  · simp only [wcNodeInitialValue, nodePropValue, PlayState.modifyNode]
    rw [findNode_updateNode_self (by intro m; rfl), hn]
    simp only [Option.map_some', Option.some_bind]
    rw [findNodeProp_mapIf n.properties pname
      (fun r => { r with initialValue := value }) (fun r => rfl)]
    rw [hq]
    rfl
  · simp only [wcNodeInitialValue, nodePropInitial, PlayState.modifyNode]
    rw [findNode_updateNode_self (by intro m; rfl), hn]
    simp only [Option.map_some', Option.some_bind]
    rw [findNodeProp_mapIf n.properties pname
      (fun r => { r with initialValue := value }) (fun r => rfl)]
    rw [hq]
    rfl

/-- C8 witness: engine property g (live 3, initial 3) moves with its initial
value to 8, and node 0's property p keeps live value 5 while its initial value
becomes 9. -/
theorem c8_witness :
    findScriptProp ((wcPlayInitialProperty exPlay "g" (JSVal.num 8)).2).scriptProperties "g" =
      some ⟨"g", JSVal.num 8, JSVal.num 8, "string"⟩ ∧
    nodePropValue (wcNodeInitialValue exPlay 0 "p" (JSVal.num 8)) 0 "p" =
      some (JSVal.num 5) := by
  have h := c8_initial_value_coupling exPlay "g" (JSVal.num 8)
    ⟨"g", JSVal.num 3, JSVal.num 3, "string"⟩ (by decide) (by decide) (by decide)
    0 "p" exNodeA (exProp "p" (JSVal.num 5)) (by decide) (by decide)
  exact ⟨h.1 (by decide), h.2.2.1⟩

/-! ## C5 -/

/-- C5 counterexample: the engine starts unpaused, node 0 has its breakpoint
flag set (and the engine is debugging), and the mere act of triggering —
whose only scheduler interaction is the enqueue — leaves the Engine's paused
flag set, contradicting the claim that enqueuing never sets it. -/
theorem c5_counterexample_enqueue_pauses_engine :
    exPlayBrk.isPaused = false ∧
    (wcNodeTriggerEntry exPlayBrk 0 "in").2.isPaused = true := by
  decide

/-- C5 (amended): when an enabled node is enqueued while its breakpoint is
active (engine debugging and node break flag) or the Engine is stepping,
queueNodeEntry pushes the item and then immediately sets both the node's
paused meta flag and the Engine's paused flag; without breakpoint or stepping
it only pushes, leaving every flag unchanged. -/
theorem c5_enqueue_with_breakpoint_pauses (st : PlayState) (nid : Nat)
    (name : String) (n : Node) (hn : findNode st.nodes nid = some n)
    (hen : truthy (wcNodeEnabledVal n) = true) :
    ((wcNodeDebugBreak st n || st.isStepping) = true →
      (queueNodeEntry st nid name).queuedChain = st.queuedChain ++ [⟨nid, name⟩] ∧
      (queueNodeEntry st nid name).isPaused = true ∧
      nodeMetaPaused (queueNodeEntry st nid name) nid = some true) ∧
    ((wcNodeDebugBreak st n || st.isStepping) = false →
      queueNodeEntry st nid name =
        { st with queuedChain := st.queuedChain ++ [⟨nid, name⟩] }) := by
  constructor
  · intro hcond
    simp only [queueNodeEntry]
    rw [hn]
    dsimp only
    rw [if_pos hen]
    split
    · refine ⟨rfl, rfl, ?_⟩
      simp only [nodeMetaPaused, PlayState.modifyNode]
      rw [findNode_updateNode_self (by intro m; rfl)]
      rw [show findNode st.nodes nid = some n from hn]
      rfl
    · next hneg => exact absurd hcond hneg
  · intro hcond
    simp only [queueNodeEntry]
    rw [hn]
    dsimp only
    rw [if_pos hen]
    split
    · next hpos =>
        have h2 : (wcNodeDebugBreak st n || st.isStepping) = true := hpos
        simp [hcond] at h2
    · rfl

/-- C5 witness: applying the amended theorem at the breakpointed example state
yields the pushed item together with both paused flags. -/
theorem c5_witness :
    (queueNodeEntry exPlayBrk 0 "in").queuedChain = [⟨0, "in"⟩] ∧
    (queueNodeEntry exPlayBrk 0 "in").isPaused = true ∧
    nodeMetaPaused (queueNodeEntry exPlayBrk 0 "in") 0 = some true := by
  have h := (c5_enqueue_with_breakpoint_pauses exPlayBrk 0 "in" exNodeBrk
    (by decide) (by decide)).1 (by decide)
  exact ⟨h.1, h.2.1, h.2.2⟩

/-! ## C6 -/

/-- C6: for a node whose enabled property is false, both queue primitives are
identities, and both trigger paths — flow triggering and property propagation —
leave both engine queues unchanged. -/
theorem c6_disabled_node_suppression (st : PlayState) (nid : Nat) (name : String)
    (value : JSVal) (n : Node) (hn : findNode st.nodes nid = some n)
    (hen : truthy (wcNodeEnabledVal n) = false) :
    queueNodeEntry st nid name = st ∧
    queueNodeProperty st nid name value = st ∧
    (wcNodeTriggerEntry st nid name).2.queuedChain = st.queuedChain ∧
    (wcNodeTriggerEntry st nid name).2.queuedProperties = st.queuedProperties ∧
    (wcNodeTriggerProperty st nid name value).queuedChain = st.queuedChain ∧
    (wcNodeTriggerProperty st nid name value).queuedProperties = st.queuedProperties := by
  have hqe : ∀ (g : PlayState) (m : Node), findNode g.nodes nid = some m →
      truthy (wcNodeEnabledVal m) = false → ∀ nm, queueNodeEntry g nid nm = g := by
    intro g m hm hmen nm
    simp only [queueNodeEntry]
    rw [hm]
    simp [hmen]
  have hqp : ∀ (g : PlayState) (m : Node), findNode g.nodes nid = some m →
      truthy (wcNodeEnabledVal m) = false → ∀ nm v, queueNodeProperty g nid nm v = g := by
    intro g m hm hmen nm v
    simp only [queueNodeProperty]
    rw [hm]
    simp [hmen]
  have htrig : (wcNodeTriggerEntry st nid name).2.queuedChain = st.queuedChain ∧
      (wcNodeTriggerEntry st nid name).2.queuedProperties = st.queuedProperties := by
    simp only [wcNodeTriggerEntry]
    rw [hn]
    dsimp only
    rcases hfl : findFlowLink n.entry name with _ | l
    · exact ⟨rfl, rfl⟩
    · dsimp only
      split
      · rw [hqe ((st.modifyNode nid fun m =>
            { m with entry := modifyFlowLink m.entry name fun k => { k with metaFlash := true } }).modifyNode
            nid fun m =>
            { m with entry := modifyFlowLink m.entry name fun k => { k with metaPaused := true } })
            _ (by
              simp only [PlayState.modifyNode]
              rw [findNode_updateNode_self (by intro m; rfl)]
              rw [findNode_updateNode_self (by intro m; rfl)]
              rw [hn]
              rfl) (by exact hen) l.name]
        exact ⟨rfl, rfl⟩
      · rw [hqe (st.modifyNode nid fun m =>
            { m with entry := modifyFlowLink m.entry name fun k => { k with metaFlash := true } })
            _ (by
              simp only [PlayState.modifyNode]
              rw [findNode_updateNode_self (by intro m; rfl)]
              rw [hn]
              rfl) (by exact hen) l.name]
        exact ⟨rfl, rfl⟩
  have hprop : (wcNodeTriggerProperty st nid name value).queuedChain = st.queuedChain ∧
      (wcNodeTriggerProperty st nid name value).queuedProperties = st.queuedProperties := by
    simp only [wcNodeTriggerProperty]
    rw [hqp st n hn hen name value, hn]
    exact ⟨rfl, rfl⟩
  exact ⟨hqe st n hn hen name, hqp st n hn hen name value, htrig.1, htrig.2,
    hprop.1, hprop.2⟩

/-- C6 witness: the disabled example node enqueues nothing on any path. -/
theorem c6_witness :
    queueNodeEntry exPlayDis 0 "in" = exPlayDis ∧
    queueNodeProperty exPlayDis 0 "p" (JSVal.num 7) = exPlayDis ∧
    (wcNodeTriggerEntry exPlayDis 0 "in").2.queuedChain = [] ∧
    (wcNodeTriggerProperty exPlayDis 0 "p" (JSVal.num 7)).queuedProperties = [] := by
  have h := c6_disabled_node_suppression exPlayDis 0 "in" (JSVal.num 7) exNodeDis
    (by decide) (by decide)
  have h2 := c6_disabled_node_suppression exPlayDis 0 "p" (JSVal.num 7) exNodeDis
    (by decide) (by decide)
  exact ⟨h.1, h2.2.1, h.2.2.1, h2.2.2.2.2.2⟩

/-! ## C1 -/

/-- C1: wcPlay.update evaluated at the failing input: updateLimit is 1, one
property update and one flow trigger are queued, and the tick processes both —
the flow loop's budget is computed from a counter already decremented to zero,
so it receives the full updateLimit instead of the claimed remainder, and the
two queues together exceed the shared per-tick ceiling. -/
theorem c1_update_exceeds_shared_budget :
    exPlayTick.updateLimit = 1 ∧
    (wcPlayUpdate exPlayTick).2 =
      [TickEvent.prop 0 "x" (JSVal.num 1), TickEvent.chain 0 "in"] := by
  decide

/-! ## C4 -/

theorem findFlowLink_modify :
    ∀ (l : List FlowLink) (nm : String) (f : FlowLink → FlowLink),
    (∀ k, (f k).name = k.name) →
    findFlowLink (modifyFlowLink l nm f) nm = (findFlowLink l nm).map f
  | [], nm, f, hf => by simp [findFlowLink, modifyFlowLink]
  | a :: rest, nm, f, hf => by
    rw [modifyFlowLink]
    by_cases ha : a.name = nm
    · rw [if_pos ha, findFlowLink, if_pos (by rw [hf a]; exact ha),
        findFlowLink, if_pos ha]
      rfl
    · rw [if_neg ha, findFlowLink, if_neg ha, findFlowLink, if_neg ha]
      exact findFlowLink_modify rest nm f hf

theorem findNode_updateNode_ne : ∀ {l : List Node} {i j : Nat} {f : Node → Node},
    i ≠ j → (∀ n, (f n).id = n.id) →
    findNode (updateNode l j f) i = findNode l i
  | [], i, j, f, hne, hf => rfl
  | a :: rest, i, j, f, hne, hf => by
    rw [updateNode]
    by_cases ha : a.id = j
    · rw [if_pos ha, findNode, if_neg (by rw [hf a, ha]; exact fun hc => hne hc.symm),
        findNode, if_neg (by rw [ha]; exact fun hc => hne hc.symm)]
    · rw [if_neg ha, findNode, findNode]
      by_cases hai : a.id = i
      · rw [if_pos hai, if_pos hai]
      · rw [if_neg hai, if_neg hai]
        exact findNode_updateNode_ne hne hf

theorem findNode_updateNode_ne_ex (l : List Node) (i j : Nat) (f : Node → Node)
    (hne : i ≠ j) (hf : ∀ n, (f n).id = n.id) :
    findNode (updateNode l j f) i = findNode l i :=
  findNode_updateNode_ne hne hf

theorem count_eq_zero_of_hasRef_false {ls : List LinkRef} {nid : Nat} {nm : String}
    (h : hasRef ls nid nm = false) : ls.count (⟨nid, nm⟩ : LinkRef) = 0 := by
  rw [List.count_eq_zero]
  intro hmem
  have hany : ls.any (fun r => r.node == nid && r.name == nm) = true :=
    List.any_eq_true.mpr ⟨⟨nid, nm⟩, hmem, by simp⟩
  rw [hasRef] at h
  rw [h] at hany
  exact Bool.noConfusion hany

theorem hasRef_append_self (ls : List LinkRef) (nid : Nat) (nm : String) :
    hasRef (ls ++ [⟨nid, nm⟩]) nid nm = true := by
  rw [hasRef, List.any_append]
  simp

/-- The structural-error arm of the connect protocol: a NOT_FOUND result leaves
the node store untouched. -/
theorem connectFlow_not_found (side : FlowSide) (g : List Node) (i : Nat)
    (nm : String) (j : Nat) (tm : String) :
    (connectFlow side g i nm j tm).1 = NOT_FOUND →
    (connectFlow side g i nm j tm).2 = g := by
  simp only [connectFlow]
  split
  · split
    · split
      · intro _
        rfl
      · split
        · intro _
          rfl
        · intro hres
          have hres2 := hres
          simp [SUCCESS, NOT_FOUND] at hres2
    · intro _
      rfl
  · intro _
    rfl

/-- Lookup through the two store updates a successful connect performs. -/
theorem findNode_double_update (st : List Node) (a b : Nat) (self target : Node)
    (fS fT : Node → Node) (hfa : findNode st a = some self)
    (hfb : findNode st b = some target)
    (hS : ∀ w, (fS w).id = w.id) (hT : ∀ w, (fT w).id = w.id) :
    (a = b → findNode (updateNode (updateNode st a fS) b fT) a = some (fT (fS self)) ∧
      findNode (updateNode (updateNode st a fS) b fT) b = some (fT (fS self))) ∧
    (a ≠ b → findNode (updateNode (updateNode st a fS) b fT) a = some (fS self) ∧
      findNode (updateNode (updateNode st a fS) b fT) b = some (fT target)) := by
  constructor
  · intro hab
    subst hab
    have h1 : findNode (updateNode st a fS) a = some (fS self) := by
      rw [findNode_updateNode_self hS, hfa]
      rfl
    have h2 : findNode (updateNode (updateNode st a fS) a fT) a = some (fT (fS self)) := by
      rw [findNode_updateNode_self hT, h1]
      rfl
    exact ⟨h2, h2⟩
  · intro hab
    constructor
    · rw [findNode_updateNode_ne hab hT, findNode_updateNode_self hS, hfa]
      rfl
    · rw [findNode_updateNode_self hT, findNode_updateNode_ne (fun hc => hab hc.symm) hS,
        hfb]
      rfl

/-- C4: a first connectEntry returning SUCCESS is followed, on the resulting
state, by ALREADY_CONNECTED with the state unchanged; afterwards each side's
links array holds the pairing exactly once (it held it zero times before); and
any call returning NOT_FOUND leaves the store untouched. -/
theorem c4_connectEntry_idempotent (st st1 : List Node) (a : Nat) (n : String)
    (b : Nat) (m : String) (h : connectEntry st a n b m = (SUCCESS, st1)) :
    connectEntry st1 a n b m = (ALREADY_CONNECTED, st1) ∧
    countFlowRef st1 a .entry n ⟨b, m⟩ = 1 ∧
    countFlowRef st1 b .exit m ⟨a, n⟩ = 1 ∧
    countFlowRef st a .entry n ⟨b, m⟩ = 0 ∧
    countFlowRef st b .exit m ⟨a, n⟩ = 0 ∧
    (∀ (g : List Node) (a2 : Nat) (n2 : String) (b2 : Nat) (m2 : String),
      (connectEntry g a2 n2 b2 m2).1 = NOT_FOUND →
      (connectEntry g a2 n2 b2 m2).2 = g) := by
  simp only [connectEntry, connectFlow] at h
  split at h
  case _ self target hfa hfb =>
    split at h
    case _ myLink targetLink hml htl =>
      split at h
      case isTrue =>
        have hfst := congrArg Prod.fst h
        simp [ALREADY_CONNECTED, SUCCESS] at hfst
      case isFalse href1 =>
        split at h
        case isTrue =>
          have hfst := congrArg Prod.fst h
          simp [ALREADY_CONNECTED, SUCCESS] at hfst
        case isFalse href2 =>
          injection h with hres hstate
          have hmlname : myLink.name = n := findFlowLink_name hml
          have htlname : targetLink.name = m := findFlowLink_name htl
          have hselfid : self.id = a := findNode_id hfa
          have htargetid : target.id = b := findNode_id hfb
          have hbr1 : hasRef myLink.links b targetLink.name = false :=
            Bool.not_eq_true _ ▸ Bool.of_not_eq_true href1
          have hbr2 : hasRef targetLink.links a myLink.name = false :=
            Bool.not_eq_true _ ▸ Bool.of_not_eq_true href2
          subst hstate
          simp only [FlowSide.flip] at htl ⊢
          simp only [Node.flowLinks] at hml htl
          simp only [Node.flowLinks, Node.setFlowLinks]
          rw [htlname] at hbr1
          rw [hmlname] at hbr2
          rw [hmlname, htlname]
          have hfind := findNode_double_update st a b self target
            (fun w => { w with
              entry := modifyFlowLink w.entry n (fun l => { l with links := l.links ++ [⟨b, m⟩] }) })
            (fun w => { w with
              exit := modifyFlowLink w.exit m (fun l => { l with links := l.links ++ [⟨a, n⟩] }) })
            hfa hfb (fun w => rfl) (fun w => rfl)
          have hcount0A : List.count (⟨b, m⟩ : LinkRef) myLink.links = 0 := by
            have := count_eq_zero_of_hasRef_false hbr1
            simpa [List.count] using this
          have hcount0B : List.count (⟨a, n⟩ : LinkRef) targetLink.links = 0 := by
            have := count_eq_zero_of_hasRef_false hbr2
            simpa [List.count] using this
          have hnf : ∀ (g : List Node) (a2 : Nat) (n2 : String) (b2 : Nat) (m2 : String),
              (connectEntry g a2 n2 b2 m2).1 = NOT_FOUND →
              (connectEntry g a2 n2 b2 m2).2 = g :=
            fun g a2 n2 b2 m2 hres2 => connectFlow_not_found .entry g a2 n2 b2 m2 hres2
          by_cases hab : a = b
          · subst hab
            rw [hfa] at hfb
            injection hfb with hst
            subst hst
            obtain ⟨hwa, hwb⟩ := hfind.1 rfl
            refine ⟨?_, ?_, ?_, ?_, ?_, hnf⟩
            · simp only [connectEntry, connectFlow, Node.flowLinks, FlowSide.flip]
              rw [hwa]
              try simp only [Option.map_some']
              try dsimp only
              rw [findFlowLink_modify self.entry n
                (fun l => { l with links := l.links ++ [⟨a, m⟩] }) (fun k => rfl), hml]
              rw [findFlowLink_modify self.exit m
                (fun l => { l with links := l.links ++ [⟨a, n⟩] }) (fun k => rfl), htl]
              try simp only [Option.map_some']
              try dsimp only
              rw [htlname]
              rw [if_pos (hasRef_append_self myLink.links a m)]
            · simp only [countFlowRef, flowRefs, Node.flowLinks]
              rw [hwa]
              try simp only [Option.map_some']
              try dsimp only
              rw [findFlowLink_modify self.entry n
                (fun l => { l with links := l.links ++ [⟨a, m⟩] }) (fun k => rfl), hml]
              try simp only [Option.map_some']
              try dsimp only
              rw [List.count_append]
              rw [show List.count (⟨a, m⟩ : LinkRef) myLink.links = 0 from hcount0A]
              simp
            · simp only [countFlowRef, flowRefs, Node.flowLinks]
              rw [hwb]
              try simp only [Option.map_some']
              try dsimp only
              rw [findFlowLink_modify self.exit m
                (fun l => { l with links := l.links ++ [⟨a, n⟩] }) (fun k => rfl), htl]
              try simp only [Option.map_some']
              try dsimp only
              rw [List.count_append]
              rw [show List.count (⟨a, n⟩ : LinkRef) targetLink.links = 0 from hcount0B]
              simp
            · simp only [countFlowRef, flowRefs, Node.flowLinks]
              rw [hfa]
              try simp only [Option.map_some']
              try dsimp only
              rw [hml]
              exact hcount0A
            · simp only [countFlowRef, flowRefs, Node.flowLinks]
              rw [hfa]
              try simp only [Option.map_some']
              try dsimp only
              rw [htl]
              exact hcount0B
          · obtain ⟨hwa, hwb⟩ := hfind.2 hab
            refine ⟨?_, ?_, ?_, ?_, ?_, hnf⟩
            · simp only [connectEntry, connectFlow, Node.flowLinks, FlowSide.flip]
              rw [hwa, hwb]
              try simp only [Option.map_some']
              try dsimp only
              rw [findFlowLink_modify self.entry n
                (fun l => { l with links := l.links ++ [⟨b, m⟩] }) (fun k => rfl), hml]
              rw [findFlowLink_modify target.exit m
                (fun l => { l with links := l.links ++ [⟨a, n⟩] }) (fun k => rfl), htl]
              try simp only [Option.map_some']
              try dsimp only
              rw [htlname]
              rw [if_pos (hasRef_append_self myLink.links b m)]
            · simp only [countFlowRef, flowRefs, Node.flowLinks]
              rw [hwa]
              try simp only [Option.map_some']
              try dsimp only
              rw [findFlowLink_modify self.entry n
                (fun l => { l with links := l.links ++ [⟨b, m⟩] }) (fun k => rfl), hml]
              try simp only [Option.map_some']
              try dsimp only
              rw [List.count_append]
              rw [show List.count (⟨b, m⟩ : LinkRef) myLink.links = 0 from hcount0A]
              simp
            · simp only [countFlowRef, flowRefs, Node.flowLinks]
              rw [hwb]
              try simp only [Option.map_some']
              try dsimp only
              rw [findFlowLink_modify target.exit m
                (fun l => { l with links := l.links ++ [⟨a, n⟩] }) (fun k => rfl), htl]
              try simp only [Option.map_some']
              try dsimp only
              rw [List.count_append]
              rw [show List.count (⟨a, n⟩ : LinkRef) targetLink.links = 0 from hcount0B]
              simp
            · simp only [countFlowRef, flowRefs, Node.flowLinks]
              rw [hfa]
              try simp only [Option.map_some']
              try dsimp only
              rw [hml]
              exact hcount0A
            · simp only [countFlowRef, flowRefs, Node.flowLinks]
              rw [hfb]
              try simp only [Option.map_some']
              try dsimp only
              rw [htl]
              exact hcount0B
    case _ =>
      have hfst := congrArg Prod.fst h
      simp [NOT_FOUND, SUCCESS] at hfst
  case _ =>
    have hfst := congrArg Prod.fst h
    simp [NOT_FOUND, SUCCESS] at hfst

/-- C4 witness: connecting node 0's entry in to node 1's exit out twice on the
two-node example store returns SUCCESS then ALREADY_CONNECTED, with exactly one
pairing on each side. -/
theorem c4_witness :
    (connectEntry [exNodeA, exNodeB] 0 "in" 1 "out").1 = SUCCESS ∧
    connectEntry (connectEntry [exNodeA, exNodeB] 0 "in" 1 "out").2 0 "in" 1 "out" =
      (ALREADY_CONNECTED, (connectEntry [exNodeA, exNodeB] 0 "in" 1 "out").2) ∧
    countFlowRef (connectEntry [exNodeA, exNodeB] 0 "in" 1 "out").2 0 .entry "in"
      ⟨1, "out"⟩ = 1 ∧
    countFlowRef (connectEntry [exNodeA, exNodeB] 0 "in" 1 "out").2 1 .exit "out"
      ⟨0, "in"⟩ = 1 := by
  have h := c4_connectEntry_idempotent [exNodeA, exNodeB]
    (connectEntry [exNodeA, exNodeB] 0 "in" 1 "out").2 0 "in" 1 "out" (by decide)
  exact ⟨by decide, h.1, h.2.1, h.2.2.1⟩

/-! ## C2: the scheduler only appends to its queues while processing -/

theorem propQueueExtends_refl (s : PlayState) : propQueueExtends s s :=
  ⟨⟨[], (List.append_nil _).symm⟩, rfl⟩

theorem propQueueExtends_trans {s1 s2 s3 : PlayState}
    (h12 : propQueueExtends s1 s2) (h23 : propQueueExtends s2 s3) :
    propQueueExtends s1 s3 := by
  obtain ⟨⟨e1, he1⟩, hc1⟩ := h12
  obtain ⟨⟨e2, he2⟩, hc2⟩ := h23
  exact ⟨⟨e1 ++ e2, by rw [he2, he1, List.append_assoc]⟩, by rw [hc2, hc1]⟩

theorem chainQueueExtends_refl (s : PlayState) : chainQueueExtends s s :=
  ⟨⟨[], (List.append_nil _).symm⟩, rfl⟩

theorem chainQueueExtends_trans {s1 s2 s3 : PlayState}
    (h12 : chainQueueExtends s1 s2) (h23 : chainQueueExtends s2 s3) :
    chainQueueExtends s1 s3 := by
  obtain ⟨⟨e1, he1⟩, hc1⟩ := h12
  obtain ⟨⟨e2, he2⟩, hc2⟩ := h23
  exact ⟨⟨e1 ++ e2, by rw [he2, he1, List.append_assoc]⟩, by rw [hc2, hc1]⟩

theorem queueNodeProperty_extends (st : PlayState) (nid : Nat) (nm : String)
    (v : JSVal) : propQueueExtends st (queueNodeProperty st nid nm v) := by
  simp only [queueNodeProperty]
  rcases h : findNode st.nodes nid with _ | n
  · exact propQueueExtends_refl st
  · dsimp only
    split
    · split
      · exact ⟨⟨[⟨nid, nm, v⟩], rfl⟩, rfl⟩
      · exact ⟨⟨[⟨nid, nm, v⟩], rfl⟩, rfl⟩
    · exact propQueueExtends_refl st

theorem wcNodeTriggerProperty_extends (st : PlayState) (nid : Nat) (nm : String)
    (v : JSVal) : propQueueExtends st (wcNodeTriggerProperty st nid nm v) := by
  simp only [wcNodeTriggerProperty]
  rcases h : findNode (queueNodeProperty st nid nm v).nodes nid with _ | n
  · exact queueNodeProperty_extends st nid nm v
  · dsimp only
    exact propQueueExtends_trans (queueNodeProperty_extends st nid nm v)
      ⟨⟨[], (List.append_nil _).symm⟩, rfl⟩

theorem foldl_triggerProperty_extends :
    ∀ (outs : List LinkRef) (v : JSVal) (st : PlayState),
    propQueueExtends st
      (outs.foldl (fun acc r => wcNodeTriggerProperty acc r.node r.name v) st)
  | [], v, st => propQueueExtends_refl st
  | r :: rest, v, st => by
    rw [List.foldl_cons]
    exact propQueueExtends_trans (wcNodeTriggerProperty_extends st r.node r.name v)
      (foldl_triggerProperty_extends rest v _)

theorem wcNodeProperty_extends (st : PlayState) (nid : Nat) (nm : String)
    (v fos : JSVal) : propQueueExtends st (wcNodeProperty st nid nm v fos).2 := by
  simp only [wcNodeProperty]
  rcases h1 : findNode st.nodes nid with _ | self
  · exact propQueueExtends_refl st
  · dsimp only
    rcases h2 : findNodeProp self.properties nm with _ | prop
    · exact propQueueExtends_refl st
    · dsimp only
      split
      · exact propQueueExtends_refl st
      · split
        · split
          · refine propQueueExtends_trans ?_ (foldl_triggerProperty_extends prop.outputs v _)
            exact ⟨⟨[], (List.append_nil _).symm⟩, rfl⟩
          · exact ⟨⟨[], (List.append_nil _).symm⟩, rfl⟩
        · exact ⟨⟨[], (List.append_nil _).symm⟩, rfl⟩

theorem processPropItem_extends (st : PlayState) (item : PropItem) :
    propQueueExtends st (processPropItem st item) := by
  simp only [processPropItem]
  exact propQueueExtends_trans ⟨⟨[], (List.append_nil _).symm⟩, rfl⟩
    (wcNodeProperty_extends _ item.node item.name item.value JSVal.undef)

theorem queueNodeEntry_extends (st : PlayState) (nid : Nat) (nm : String) :
    chainQueueExtends st (queueNodeEntry st nid nm) := by
  simp only [queueNodeEntry]
  rcases h : findNode st.nodes nid with _ | n
  · exact chainQueueExtends_refl st
  · dsimp only
    split
    · split
      · exact ⟨⟨[⟨nid, nm⟩], rfl⟩, rfl⟩
      · exact ⟨⟨[⟨nid, nm⟩], rfl⟩, rfl⟩
    · exact chainQueueExtends_refl st

theorem wcNodeTriggerEntry_extends (st : PlayState) (nid : Nat) (nm : String) :
    chainQueueExtends st (wcNodeTriggerEntry st nid nm).2 := by
  simp only [wcNodeTriggerEntry]
  rcases h1 : findNode st.nodes nid with _ | self
  · exact chainQueueExtends_refl st
  · dsimp only
    rcases h2 : findFlowLink self.entry nm with _ | l
    · exact chainQueueExtends_refl st
    · dsimp only
      refine @chainQueueExtends_trans _ (if (wcNodeDebugBreak (st.modifyNode nid fun n => { n with entry := modifyFlowLink n.entry nm fun k => { k with metaFlash := true } }) self || (st.modifyNode nid fun n => { n with entry := modifyFlowLink n.entry nm fun k => { k with metaFlash := true } }).isStepping) = true then (st.modifyNode nid fun n => { n with entry := modifyFlowLink n.entry nm fun k => { k with metaFlash := true } }).modifyNode nid fun n => { n with entry := modifyFlowLink n.entry nm fun k => { k with metaPaused := true } } else st.modifyNode nid fun n => { n with entry := modifyFlowLink n.entry nm fun k => { k with metaFlash := true } }) _ ?_ ?_
      · split
        · exact ⟨⟨[], (List.append_nil _).symm⟩, rfl⟩
        · exact ⟨⟨[], (List.append_nil _).symm⟩, rfl⟩
      · exact queueNodeEntry_extends _ nid l.name

theorem wcNodeTriggerExit_extends (st : PlayState) (nid : Nat) (nm : String) :
    chainQueueExtends st (wcNodeTriggerExit st nid nm).2 := by
  simp only [wcNodeTriggerExit]
  rcases h1 : findNode st.nodes nid with _ | self
  · exact chainQueueExtends_refl st
  · dsimp only
    rcases h2 : findFlowLink self.exit nm with _ | xl
    · exact chainQueueExtends_refl st
    · dsimp only
      have hfold : ∀ (links : List LinkRef) (g : PlayState),
          chainQueueExtends g (links.foldl
            (fun acc r =>
              let acc1 := (wcNodeTriggerEntry acc r.node r.name).2
              let cond :=
                (match findNode acc1.nodes r.node with
                 | none => false
                 | some tn => wcNodeDebugBreak acc1 tn) || acc1.isStepping
              if cond then
                acc1.modifyNode nid fun n =>
                  { n with exit := modifyFlowLink n.exit nm fun k => { k with metaPaused := true } }
              else acc1)
            g) := by
        intro links
        induction links with
        | nil => intro g; exact chainQueueExtends_refl g
        | cons r rest ih =>
          intro g
          rw [List.foldl_cons]
          refine chainQueueExtends_trans ?_ (ih _)
          dsimp only
          split
          · exact chainQueueExtends_trans (wcNodeTriggerEntry_extends g r.node r.name)
              ⟨⟨[], (List.append_nil _).symm⟩, rfl⟩
          · exact wcNodeTriggerEntry_extends g r.node r.name
      exact chainQueueExtends_trans ⟨⟨[], (List.append_nil _).symm⟩, rfl⟩
        (hfold xl.links _)

theorem wcNodeOnTriggered_extends (st : PlayState) (nid : Nat) (nm : String) :
    chainQueueExtends st (wcNodeOnTriggered st nid nm) := by
  simp only [wcNodeOnTriggered]
  rcases h : findNode st.nodes nid with _ | n
  · exact chainQueueExtends_refl st
  · dsimp only
    rcases hk : n.kind
    case entry => exact wcNodeTriggerExit_extends st nid "out"
    all_goals exact chainQueueExtends_refl st

theorem processChainItem_extends (st : PlayState) (item : ChainItem) :
    chainQueueExtends st (processChainItem st item) := by
  simp only [processChainItem]
  exact chainQueueExtends_trans ⟨⟨[], (List.append_nil _).symm⟩, rfl⟩
    (wcNodeOnTriggered_extends _ item.node item.name)

/-- The property drain processes exactly the first count items of the property
queue, in FIFO order, even though processing may append new items behind
them. -/
theorem updatePropLoop_trace : ∀ (count : Nat) (st : PlayState),
    count ≤ st.queuedProperties.length →
    (updatePropLoop count st).2 =
      (st.queuedProperties.take count).map
        (fun it => TickEvent.prop it.node it.name it.value)
  | 0, st, _ => by simp [updatePropLoop]
  | count+1, st, hle => by
    rcases hq : st.queuedProperties with _ | ⟨item, rest⟩
    · rw [hq] at hle
      exact absurd hle (by simp)
    · simp only [updatePropLoop]
      rw [hq]
      dsimp only
      have hext := processPropItem_extends { st with queuedProperties := rest } item
      obtain ⟨⟨ex, hex⟩, _⟩ := hext
      have hlen : count ≤ (processPropItem { st with queuedProperties := rest } item).queuedProperties.length := by
        rw [hex]
        simp only [List.length_append]
        have : count ≤ rest.length := by
          rw [hq] at hle
          simpa using Nat.le_of_succ_le_succ hle
        omega
      rw [updatePropLoop_trace count _ hlen]
      rw [hex]
      have hcr : count ≤ rest.length := by
        rw [hq] at hle
        simpa using Nat.le_of_succ_le_succ hle
      rw [List.take_append_of_le_length hcr]
      rfl

/-- The flow drain processes exactly the first count items of the flow queue,
in FIFO order. -/
theorem updateChainLoop_trace : ∀ (count : Nat) (st : PlayState),
    count ≤ st.queuedChain.length →
    (updateChainLoop count st).2 =
      (st.queuedChain.take count).map (fun it => TickEvent.chain it.node it.name)
  | 0, st, _ => by simp [updateChainLoop]
  | count+1, st, hle => by
    rcases hq : st.queuedChain with _ | ⟨item, rest⟩
    · rw [hq] at hle
      exact absurd hle (by simp)
    · simp only [updateChainLoop]
      rw [hq]
      dsimp only
      have hext := processChainItem_extends { st with queuedChain := rest } item
      obtain ⟨⟨ex, hex⟩, _⟩ := hext
      have hcr : count ≤ rest.length := by
        rw [hq] at hle
        simpa using Nat.le_of_succ_le_succ hle
      have hlen : count ≤ (processChainItem { st with queuedChain := rest } item).queuedChain.length := by
        rw [hex]
        simp only [List.length_append]
        omega
      rw [updateChainLoop_trace count _ hlen]
      rw [hex]
      rw [List.take_append_of_le_length hcr]
      rfl

/-- C2: within one tick the trace decomposes as all processed property updates
followed by all processed flow triggers (never interleaved); the property part
is exactly the FIFO prefix of the property queue up to the budget; a flow
trigger is processed only when the property queue has fully drained; and the
flow part is then exactly the FIFO prefix of the flow queue. -/
theorem c2_property_before_flow (st : PlayState) :
    (st.isPaused = true → (wcPlayUpdate st).2 = []) ∧
    (st.isPaused = false →
      (wcPlayUpdate st).2 = (tickPropPhase st).2 ++ tickChainTrace st ∧
      (tickPropPhase st).2 =
        (st.queuedProperties.take (min st.queuedProperties.length st.updateLimit)).map
          (fun it => TickEvent.prop it.node it.name it.value) ∧
      (tickChainTrace st ≠ [] → (tickPropPhase st).1.queuedProperties = []) ∧
      (tickChainTrace st =
        if (tickPropPhase st).1.queuedProperties.length = 0 then
          ((tickPropPhase st).1.queuedChain.take
            (min (tickPropPhase st).1.queuedChain.length
              ((tickPropPhase st).1.updateLimit - 0))).map
            (fun it => TickEvent.chain it.node it.name)
        else [])) := by
  constructor
  · intro hpause
    simp only [wcPlayUpdate]
    rw [if_pos hpause]
  · intro hpause
    refine ⟨?_, ?_, ?_, ?_⟩
    · simp only [wcPlayUpdate, tickPropPhase, tickChainTrace]
      rw [if_neg (by rw [hpause]; exact Bool.false_ne_true)]
      dsimp only
      split <;> rfl
    · exact updatePropLoop_trace _ st (Nat.min_le_left _ _)
    · intro hne
      by_cases hz : (tickPropPhase st).1.queuedProperties.length = 0
      · exact List.length_eq_zero.mp hz
      · exfalso
        apply hne
        simp only [tickChainTrace]
        rw [if_neg hz]
    · simp only [tickChainTrace]
      split
      · exact updateChainLoop_trace _ _ (Nat.min_le_left _ _)
      · rfl

/-- C2 witness: the example tick state is unpaused; its trace decomposes as the
property part followed by the flow part, and the flow part being nonempty
forces the drained property queue empty. -/
theorem c2_witness :
    (wcPlayUpdate exPlayTick).2 = (tickPropPhase exPlayTick).2 ++ tickChainTrace exPlayTick ∧
    (tickChainTrace exPlayTick ≠ [] → (tickPropPhase exPlayTick).1.queuedProperties = []) := by
  have h := (c2_property_before_flow exPlayTick).2 (by decide)
  exact ⟨h.1, h.2.2.1⟩

/-! ## C9: membership and frame lemmas for the restart machinery -/

theorem findNode_none : ∀ {l : List Node} {i : Nat},
    findNode l i = none → ∀ w ∈ l, w.id ≠ i
  | [], i, _, w, hw => absurd hw (List.not_mem_nil w)
  | n :: rest, i, h, w, hw => by
    rw [findNode] at h
    split at h
    · exact Option.noConfusion h
    · rcases List.mem_cons.mp hw with hw | hw
      · subst hw
        next hne => exact hne
      · exact findNode_none h w hw

theorem mem_updateNode : ∀ {l : List Node} {i : Nat} {f : Node → Node} {w : Node},
    w ∈ updateNode l i f → w ∈ l ∨ ∃ v, findNode l i = some v ∧ w = f v
  | [], i, f, w, hw => absurd hw (List.not_mem_nil w)
  | n :: rest, i, f, w, hw => by
    rw [updateNode] at hw
    by_cases hn : n.id = i
    · rw [if_pos hn] at hw
      rcases List.mem_cons.mp hw with hw | hw
      · exact Or.inr ⟨n, by rw [findNode, if_pos hn], hw⟩
      · exact Or.inl (List.mem_cons_of_mem n hw)
    · rw [if_neg hn] at hw
      rcases List.mem_cons.mp hw with hw | hw
      · exact Or.inl (by rw [hw]; exact List.mem_cons_self n rest)
      · rcases mem_updateNode hw with hw | ⟨v, hv, hwv⟩
        · exact Or.inl (List.mem_cons_of_mem n hw)
        · exact Or.inr ⟨v, by rw [findNode, if_neg hn]; exact hv, hwv⟩

theorem mem_updateNode_nodup : ∀ {l : List Node} {i : Nat} {f : Node → Node},
    (l.map Node.id).Nodup → (∀ n, (f n).id = n.id) → ∀ {w : Node},
    w ∈ updateNode l i f →
    (w ∈ l ∧ w.id ≠ i) ∨ ∃ v, findNode l i = some v ∧ w = f v
  | [], i, f, _, _, w, hw => absurd hw (List.not_mem_nil w)
  | n :: rest, i, f, hnd, hf, w, hw => by
    rw [List.map_cons, List.nodup_cons] at hnd
    rw [updateNode] at hw
    by_cases hn : n.id = i
    · rw [if_pos hn] at hw
      rcases List.mem_cons.mp hw with hw | hw
      · exact Or.inr ⟨n, by rw [findNode, if_pos hn], hw⟩
      · refine Or.inl ⟨List.mem_cons_of_mem n hw, ?_⟩
        intro hwi
        exact hnd.1 (by rw [hn, ← hwi]; exact List.mem_map_of_mem Node.id hw)
    · rw [if_neg hn] at hw
      rcases List.mem_cons.mp hw with hw | hw
      · exact Or.inl ⟨by rw [hw]; exact List.mem_cons_self n rest, by rw [hw]; exact hn⟩
      · rcases mem_updateNode_nodup hnd.2 hf hw with ⟨hw, hwi⟩ | ⟨v, hv, hwv⟩
        · exact Or.inl ⟨List.mem_cons_of_mem n hw, hwi⟩
        · exact Or.inr ⟨v, by rw [findNode, if_neg hn]; exact hv, hwv⟩

theorem map_pair_updateNode : ∀ (l : List Node) (i : Nat) (f : Node → Node),
    (∀ n, (f n).id = n.id) → (∀ n, (f n).kind = n.kind) →
    (updateNode l i f).map (fun w => (w.id, w.kind)) =
      l.map fun w => (w.id, w.kind)
  | [], _, _, _, _ => rfl
  | n :: rest, i, f, hid, hk => by
    rw [updateNode]
    by_cases hn : n.id = i
    · rw [if_pos hn, List.map_cons, List.map_cons, hid n, hk n]
    · rw [if_neg hn, List.map_cons, List.map_cons,
        map_pair_updateNode rest i f hid hk]

theorem map_id_of_pairs {l1 l2 : List Node}
    (h : l1.map (fun w => (w.id, w.kind)) = l2.map fun w => (w.id, w.kind)) :
    l1.map Node.id = l2.map Node.id := by
  have h1 : l1.map Node.id = (l1.map fun w => (w.id, w.kind)).map Prod.fst := by
    rw [List.map_map]
    rfl
  have h2 : l2.map Node.id = (l2.map fun w => (w.id, w.kind)).map Prod.fst := by
    rw [List.map_map]
    rfl
  rw [h1, h2, h]

theorem wcNodeReset_frame (g : PlayState) (i : Nat) :
    (wcNodeReset g i).scriptProperties = g.scriptProperties ∧
    (wcNodeReset g i).nextTimerId = g.nextTimerId ∧
    (wcNodeReset g i).queuedChain = g.queuedChain ∧
    (wcNodeReset g i).queuedProperties = g.queuedProperties := by
  simp only [wcNodeReset]
  split
  · exact ⟨rfl, rfl, rfl, rfl⟩
  · exact ⟨rfl, rfl, rfl, rfl⟩

theorem wcNodeReset_hostTimers_sub (g : PlayState) (i : Nat) :
    ∀ t ∈ (wcNodeReset g i).hostTimers, t ∈ g.hostTimers := by
  simp only [wcNodeReset]
  split
  · exact fun t ht => ht
  · dsimp only [PlayState.modifyNode]
    exact fun t ht => List.mem_of_mem_filter ht

theorem wcNodeReset_pairs (g : PlayState) (i : Nat) :
    (wcNodeReset g i).nodes.map (fun w => (w.id, w.kind)) =
      g.nodes.map fun w => (w.id, w.kind) := by
  simp only [wcNodeReset]
  split
  · rfl
  · dsimp only [PlayState.modifyNode]
    rw [map_pair_updateNode _ _ _ (by intro n; rfl) (by intro n; rfl),
      map_pair_updateNode _ _ _ (by intro n; rfl) (by intro n; rfl)]

theorem wcNodeReset_good_mem (g : PlayState) (i : Nat)
    (hnd : (g.nodes.map Node.id).Nodup) :
    ∀ w ∈ (wcNodeReset g i).nodes,
      (w ∈ g.nodes ∧ w.id ≠ i) ∨
      ((∀ p ∈ w.properties, p.value = p.initialValue) ∧ w.threads = []) := by
  simp only [wcNodeReset]
  split
  case _ hnone =>
    exact fun w hw => Or.inl ⟨hw, findNode_none hnone w hw⟩
  case _ self hsome =>
    dsimp only [PlayState.modifyNode]
    intro w hw
    have hnd1 : ((updateNode g.nodes i fun n =>
        { n with properties := List.map (fun p => { p with value := p.initialValue }) n.properties }).map Node.id).Nodup := by
      rw [map_id_of_pairs (map_pair_updateNode g.nodes i _ (by intro n; rfl) (by intro n; rfl))]
      exact hnd
    rcases mem_updateNode_nodup hnd1 (by intro n; rfl) hw with ⟨hw1, hwi⟩ | ⟨v, hv, hwv⟩
    · rcases mem_updateNode_nodup hnd (by intro n; rfl) hw1 with ⟨hw2, _⟩ | ⟨v, hv, hwv⟩
      · exact Or.inl ⟨hw2, hwi⟩
      · exfalso
        apply hwi
        rw [hwv]
        have hvi : v.id = i := findNode_id hv
        exact hvi
    · rw [findNode_updateNode_self (by intro n; rfl), hsome] at hv
      rw [Option.map_some'] at hv
      injection hv with hv
      subst hv
      subst hwv
      refine Or.inr ⟨?_, rfl⟩
      intro p hp
      rcases List.mem_map.mp hp with ⟨q, _, hq⟩
      rw [← hq]

theorem foldl_reset_good_mem : ∀ (ids : List Nat) (g : PlayState),
    (g.nodes.map Node.id).Nodup →
    ∀ w ∈ (ids.foldl wcNodeReset g).nodes,
      (w ∈ g.nodes ∧ w.id ∉ ids) ∨
      ((∀ p ∈ w.properties, p.value = p.initialValue) ∧ w.threads = [])
  | [], g, hnd, w, hw => Or.inl ⟨hw, by simp⟩
  | i :: rest, g, hnd, w, hw => by
    rw [List.foldl_cons] at hw
    have hnd1 : ((wcNodeReset g i).nodes.map Node.id).Nodup := by
      rw [map_id_of_pairs (wcNodeReset_pairs g i)]
      exact hnd
    rcases foldl_reset_good_mem rest (wcNodeReset g i) hnd1 w hw with ⟨hw1, hwr⟩ | hgood
    · rcases wcNodeReset_good_mem g i hnd w hw1 with ⟨hw2, hwi⟩ | hgood
      · exact Or.inl ⟨hw2, by simp [List.mem_cons, hwi, hwr]⟩
      · exact Or.inr hgood
    · exact Or.inr hgood

theorem foldl_reset_pairs : ∀ (ids : List Nat) (g : PlayState),
    ((ids.foldl wcNodeReset g).nodes).map (fun w => (w.id, w.kind)) =
      g.nodes.map fun w => (w.id, w.kind)
  | [], g => rfl
  | i :: rest, g => by
    rw [List.foldl_cons, foldl_reset_pairs rest (wcNodeReset g i), wcNodeReset_pairs]

theorem kind_ids_of_pairs :
    ∀ (l : List Node) (k : NodeKind),
    (l.filter fun n => n.kind == k).map Node.id =
      (l.map fun w => (w.id, w.kind)).filterMap
        fun p => if p.2 == k then some p.1 else none
  | [], _ => rfl
  | n :: rest, k => by
    by_cases hk : n.kind = k
    · simp [List.filter_cons, List.filterMap_cons, hk, kind_ids_of_pairs rest k]
    · simp [List.filter_cons, List.filterMap_cons, hk, kind_ids_of_pairs rest k]

theorem kind_ids_congr {l1 l2 : List Node}
    (h : l1.map (fun w => (w.id, w.kind)) = l2.map fun w => (w.id, w.kind))
    (k : NodeKind) :
    (l1.filter fun n => n.kind == k).map Node.id =
      (l2.filter fun n => n.kind == k).map Node.id := by
  rw [kind_ids_of_pairs, kind_ids_of_pairs, h]

theorem resetKind_pairs (g : PlayState) (k : NodeKind) :
    (resetKind g k).nodes.map (fun w => (w.id, w.kind)) =
      g.nodes.map fun w => (w.id, w.kind) := by
  simp only [resetKind]
  exact foldl_reset_pairs _ g

theorem resetAll_good (g : PlayState) (hnd : (g.nodes.map Node.id).Nodup) :
    goodNodes (resetKind (resetKind (resetKind (resetKind g .storage) .process)
      .composite) .entry) := by
  intro w hw
  have hp1 := resetKind_pairs g .storage
  have hp2 := resetKind_pairs (resetKind g .storage) .process
  have hp3 := resetKind_pairs (resetKind (resetKind g .storage) .process) .composite
  have hnd1 : ((resetKind g .storage).nodes.map Node.id).Nodup := by
    rw [map_id_of_pairs hp1]
    exact hnd
  have hnd2 : ((resetKind (resetKind g .storage) .process).nodes.map Node.id).Nodup := by
    rw [map_id_of_pairs hp2]
    exact hnd1
  have hnd3 : ((resetKind (resetKind (resetKind g .storage) .process)
      .composite).nodes.map Node.id).Nodup := by
    rw [map_id_of_pairs hp3]
    exact hnd2
  have resetKind_good_mem : ∀ (g2 : PlayState) (k : NodeKind),
      (g2.nodes.map Node.id).Nodup → ∀ w2 ∈ (resetKind g2 k).nodes,
      (w2 ∈ g2.nodes ∧
        w2.id ∉ (g2.nodes.filter fun n => n.kind == k).map Node.id) ∨
      ((∀ p ∈ w2.properties, p.value = p.initialValue) ∧ w2.threads = []) := by
    intro g2 k hnd2 w2 hw2
    simp only [resetKind] at hw2
    exact foldl_reset_good_mem _ _ hnd2 w2 hw2
  rcases resetKind_good_mem _ _ hnd3 w hw with ⟨hw3, hni4⟩ | hgood
  · rcases resetKind_good_mem _ _ hnd2 w hw3 with ⟨hw2, hni3⟩ | hgood
    · rcases resetKind_good_mem _ _ hnd1 w hw2 with ⟨hw1, hni2⟩ | hgood
      · rcases resetKind_good_mem _ _ hnd w hw1 with ⟨hw0, hni1⟩ | hgood
        · exfalso
          have hmem : ∀ k : NodeKind, w.kind = k →
              w.id ∈ (g.nodes.filter fun n => n.kind == k).map Node.id := by
            intro k hk
            exact List.mem_map_of_mem Node.id
              (List.mem_filter.mpr ⟨hw0, by rw [hk]; simp⟩)
          rw [kind_ids_congr hp1 .process] at hni2
          rw [kind_ids_congr (hp1 ▸ hp2 : (resetKind (resetKind g .storage)
            .process).nodes.map (fun w => (w.id, w.kind)) =
              g.nodes.map fun w => (w.id, w.kind)) .composite] at hni3
          rw [kind_ids_congr (by rw [hp3, hp2, hp1] : (resetKind (resetKind
            (resetKind g .storage) .process) .composite).nodes.map
              (fun w => (w.id, w.kind)) = g.nodes.map fun w => (w.id, w.kind))
            .entry] at hni4
          rcases hk : w.kind
          case storage => exact hni1 (hmem .storage hk)
          case process => exact hni2 (hmem .process hk)
          case composite => exact hni3 (hmem .composite hk)
          case entry => exact hni4 (hmem .entry hk)
        · exact hgood
      · exact hgood
    · exact hgood
  · exact hgood

theorem findNode_mem : ∀ {l : List Node} {i : Nat} {v : Node},
    findNode l i = some v → v ∈ l
  | [], _, _, h => Option.noConfusion h
  | n :: rest, i, v, h => by
    rw [findNode] at h
    split at h
    · cases h
      exact List.mem_cons_self n rest
    · exact List.mem_cons_of_mem n (findNode_mem h)

theorem findNodeProp_mem : ∀ {l : List NodeProp} {nm : String} {p : NodeProp},
    findNodeProp l nm = some p → p ∈ l
  | [], _, _, h => Option.noConfusion h
  | q :: rest, nm, p, h => by
    rw [findNodeProp] at h
    split at h
    · cases h
      exact List.mem_cons_self q rest
    · exact List.mem_cons_of_mem q (findNodeProp_mem h)

theorem mem_modifyNodeProp : ∀ {l : List NodeProp} {nm : String}
    {f : NodeProp → NodeProp} {w : NodeProp},
    w ∈ modifyNodeProp l nm f →
    w ∈ l ∨ ∃ q, findNodeProp l nm = some q ∧ w = f q
  | [], _, _, w, hw => absurd hw (List.not_mem_nil w)
  | q :: rest, nm, f, w, hw => by
    rw [modifyNodeProp] at hw
    by_cases hq : q.name = nm
    · rw [if_pos hq] at hw
      rcases List.mem_cons.mp hw with hw | hw
      · exact Or.inr ⟨q, by rw [findNodeProp, if_pos hq], hw⟩
      · exact Or.inl (List.mem_cons_of_mem q hw)
    · rw [if_neg hq] at hw
      rcases List.mem_cons.mp hw with hw | hw
      · exact Or.inl (by rw [hw]; exact List.mem_cons_self q rest)
      · rcases mem_modifyNodeProp hw with hw | ⟨v, hv, hwv⟩
        · exact Or.inl (List.mem_cons_of_mem q hw)
        · exact Or.inr ⟨v, by rw [findNodeProp, if_neg hq]; exact hv, hwv⟩

theorem updateNode_pres_pred (P : Node → Prop) (l : List Node) (i : Nat)
    (f : Node → Node) (hl : ∀ n ∈ l, P n)
    (hf : ∀ v, findNode l i = some v → P (f v)) :
    ∀ w ∈ updateNode l i f, P w := by
  intro w hw
  rcases mem_updateNode hw with hw | ⟨v, hv, hwv⟩
  · exact hl w hw
  · rw [hwv]
    exact hf v hv

theorem queueNodeProperty_pres (g : PlayState) (nid : Nat) (nm : String)
    (v : JSVal) :
    (queueNodeProperty g nid nm v).hostTimers = g.hostTimers ∧
    (queueNodeProperty g nid nm v).scriptProperties = g.scriptProperties ∧
    (goodNodes g → goodNodes (queueNodeProperty g nid nm v)) := by
  simp only [queueNodeProperty]
  rcases h : findNode g.nodes nid with _ | n
  · exact ⟨rfl, rfl, fun hg => hg⟩
  · dsimp only
    split
    · split
      · refine ⟨rfl, rfl, fun hg => ?_⟩
        intro w hw
        dsimp only [PlayState.modifyNode] at hw
        refine updateNode_pres_pred _ _ _ _ (fun u hu => hg u hu) ?_ w hw
        intro u hu
        exact hg u (findNode_mem hu)
      · exact ⟨rfl, rfl, fun hg => hg⟩
    · exact ⟨rfl, rfl, fun hg => hg⟩

theorem wcNodeTriggerProperty_pres (g : PlayState) (nid : Nat) (nm : String)
    (v : JSVal) :
    (wcNodeTriggerProperty g nid nm v).hostTimers = g.hostTimers ∧
    (wcNodeTriggerProperty g nid nm v).scriptProperties = g.scriptProperties ∧
    (goodNodes g → goodNodes (wcNodeTriggerProperty g nid nm v)) := by
  simp only [wcNodeTriggerProperty]
  have hq := queueNodeProperty_pres g nid nm v
  rcases h : findNode (queueNodeProperty g nid nm v).nodes nid with _ | n
  · exact hq
  · dsimp only
    refine ⟨hq.1, hq.2.1, fun hg => ?_⟩
    intro w hw
    dsimp only [PlayState.modifyNode] at hw
    refine updateNode_pres_pred _ _ _ _ (fun u hu => hq.2.2 hg u hu) ?_ w hw
    intro u hu
    have hu2 := hq.2.2 hg u (findNode_mem hu)
    refine ⟨?_, hu2.2⟩
    intro p hp
    rcases List.mem_map.mp hp with ⟨q, hq2, hqe⟩
    subst hqe
    by_cases hqn : q.name = nm
    · rw [if_pos hqn]
      split
      · exact hu2.1 q hq2
      · exact hu2.1 q hq2
    · rw [if_neg hqn]
      exact hu2.1 q hq2

theorem foldl_triggerProperty_pres :
    ∀ (outs : List LinkRef) (v : JSVal) (g : PlayState),
    (outs.foldl (fun acc r => wcNodeTriggerProperty acc r.node r.name v) g).hostTimers =
      g.hostTimers ∧
    (outs.foldl (fun acc r => wcNodeTriggerProperty acc r.node r.name v) g).scriptProperties =
      g.scriptProperties ∧
    (goodNodes g → goodNodes
      (outs.foldl (fun acc r => wcNodeTriggerProperty acc r.node r.name v) g))
  | [], v, g => ⟨rfl, rfl, fun hg => hg⟩
  | r :: rest, v, g => by
    rw [List.foldl_cons]
    have h1 := wcNodeTriggerProperty_pres g r.node r.name v
    have h2 := foldl_triggerProperty_pres rest v (wcNodeTriggerProperty g r.node r.name v)
    exact ⟨by rw [h2.1, h1.1], by rw [h2.2.1, h1.2.1],
      fun hg => h2.2.2 (h1.2.2 hg)⟩

theorem wcNodeProperty_pres_good (g : PlayState) (i : Nat) (nm : String)
    (v fos : JSVal)
    (hv : v = JSVal.undef ∨ ∃ n p, findNode g.nodes i = some n ∧
      findNodeProp n.properties nm = some p ∧ v = p.value) :
    (wcNodeProperty g i nm v fos).2.hostTimers = g.hostTimers ∧
    (wcNodeProperty g i nm v fos).2.scriptProperties = g.scriptProperties ∧
    (goodNodes g → goodNodes (wcNodeProperty g i nm v fos).2) := by
  simp only [wcNodeProperty]
  rcases h1 : findNode g.nodes i with _ | self
  · exact ⟨rfl, rfl, fun hg => hg⟩
  · dsimp only
    rcases h2 : findNodeProp self.properties nm with _ | prop
    · exact ⟨rfl, rfl, fun hg => hg⟩
    · dsimp only
      split
      · exact ⟨rfl, rfl, fun hg => hg⟩
      case isFalse hvu =>
        have hvp : v = prop.value := by
          rcases hv with hv | ⟨n2, p2, hn2, hp2, hv⟩
          · exact absurd hv hvu
          · rw [h1] at hn2
            injection hn2 with hn2
            subst hn2
            rw [h2] at hp2
            injection hp2 with hp2
            subst hp2
            exact hv
        have hmeta : goodNodes g → goodNodes (g.modifyNode i fun n =>
            { n with properties := modifyNodeProp n.properties nm fun p =>
                if (wcNodeDebugBreak g self || g.isStepping) = true then
                  { p with outputMetaFlash := true, outputMetaPaused := true }
                else { p with outputMetaFlash := true } }) := by
          intro hg w hw
          dsimp only [PlayState.modifyNode] at hw
          refine updateNode_pres_pred _ _ _ _ (fun u hu => hg u hu) ?_ w hw
          intro u hu
          have hu2 := hg u (findNode_mem hu)
          refine ⟨?_, hu2.2⟩
          intro p hp
          rcases mem_modifyNodeProp hp with hp | ⟨q, hq, hpe⟩
          · exact hu2.1 p hp
          · subst hpe
            split
            · exact hu2.1 q (findNodeProp_mem hq)
            · exact hu2.1 q (findNodeProp_mem hq)
        split
        case isTrue hcommit =>
          have hgoodprop : goodNodes g → prop.value = prop.initialValue := by
            intro hg
            exact (hg self (findNode_mem h1)).1 prop (findNodeProp_mem h2)
          have hgood2 : goodNodes g → goodNodes ((g.modifyNode i fun n =>
              let ps := modifyNodeProp n.properties nm fun p =>
                let p1 := { p with outputMetaFlash := true }
                if (wcNodeDebugBreak g self || g.isStepping) = true then
                  { p1 with outputMetaPaused := true }
                else p1
              { n with properties := ps }).modifyNode i fun n =>
              let ps := modifyNodeProp n.properties nm fun p => { p with value := v }
              { n with properties := ps }) := by
            intro hg w hw
            dsimp only [PlayState.modifyNode] at hw
            refine updateNode_pres_pred _ _ _ _ (fun u hu => hmeta hg u hu) ?_ w hw
            intro u hu
            have hfind1 : findNode (updateNode g.nodes i fun n =>
                { n with properties := modifyNodeProp n.properties nm fun p =>
                    if (wcNodeDebugBreak g self || g.isStepping) = true then
                      { p with outputMetaFlash := true, outputMetaPaused := true }
                    else { p with outputMetaFlash := true } }) i =
                some ((fun n =>
                  { n with properties := modifyNodeProp n.properties nm fun p =>
                      if (wcNodeDebugBreak g self || g.isStepping) = true then
                        { p with outputMetaFlash := true, outputMetaPaused := true }
                      else { p with outputMetaFlash := true } }) self) := by
              exact (findNode_updateNode_self_ex g.nodes i
                (fun n =>
                  { n with properties := modifyNodeProp n.properties nm fun p =>
                      if (wcNodeDebugBreak g self || g.isStepping) = true then
                        { p with outputMetaFlash := true, outputMetaPaused := true }
                      else { p with outputMetaFlash := true } })
                (fun x => rfl)).trans (by rw [h1]; rfl)
            dsimp only [PlayState.modifyNode] at hu
            rw [hfind1] at hu
            injection hu with hu
            subst hu
            have hu2 := hg self (findNode_mem h1)
            refine ⟨?_, hu2.2⟩
            intro p hp
            try dsimp only at hp
            rcases mem_modifyNodeProp hp with hp | ⟨q, hq, hpe⟩
            · rcases mem_modifyNodeProp hp with hp | ⟨q, hq, hpe⟩
              · exact hu2.1 p hp
              · subst hpe
                try dsimp only
                split
                · exact hu2.1 q (findNodeProp_mem hq)
                · exact hu2.1 q (findNodeProp_mem hq)
            · subst hpe
              rw [findNodeProp_modify self.properties nm
                (fun p =>
                  if (wcNodeDebugBreak g self || g.isStepping) = true then
                    { p with outputMetaFlash := true, outputMetaPaused := true }
                  else { p with outputMetaFlash := true })
                (by intro x; split <;> rfl), h2] at hq
              rw [Option.map_some'] at hq
              injection hq with hq
              subst hq
              dsimp only
              split
              · rw [hvp]
                exact hgoodprop hg
              · rw [hvp]
                exact hgoodprop hg
          split
          case isTrue hfan =>
            have hfold := foldl_triggerProperty_pres prop.outputs v
              ((g.modifyNode i fun n =>
                  { n with properties := modifyNodeProp n.properties nm fun p =>
                      if (wcNodeDebugBreak g self || g.isStepping) = true then
                        { p with outputMetaFlash := true, outputMetaPaused := true }
                      else { p with outputMetaFlash := true } }).modifyNode i fun n =>
                { n with properties := modifyNodeProp n.properties nm fun p =>
                    { p with value := v } })
            exact ⟨hfold.1, hfold.2.1, fun hg => hfold.2.2 (hgood2 hg)⟩
          case isFalse hfan =>
            exact ⟨rfl, rfl, fun hg => hgood2 hg⟩
        case isFalse hcommit =>
          exact ⟨rfl, rfl, fun hg => hmeta hg⟩

theorem wcNodeProperty_read_spec (g : PlayState) (i : Nat) (nm : String)
    (fos : JSVal) :
    (wcNodeProperty g i nm JSVal.undef fos).1 = JSVal.undef ∨
    ∃ n p, findNode g.nodes i = some n ∧ findNodeProp n.properties nm = some p ∧
      (wcNodeProperty g i nm JSVal.undef fos).1 = p.value := by
  simp only [wcNodeProperty]
  rcases h1 : findNode g.nodes i with _ | self
  · exact Or.inl rfl
  · dsimp only
    rcases h2 : findNodeProp self.properties nm with _ | prop
    · exact Or.inl rfl
    · dsimp only
      rw [if_true]
      exact Or.inr ⟨self, prop, rfl, h2, rfl⟩

theorem wcNodeProperty_read_unchanged (g : PlayState) (i : Nat) (nm : String)
    (fos : JSVal) : (wcNodeProperty g i nm JSVal.undef fos).2 = g := by
  simp only [wcNodeProperty]
  rcases h1 : findNode g.nodes i with _ | self
  · rfl
  · dsimp only
    rcases h2 : findNodeProp self.properties nm with _ | prop
    · rfl
    · dsimp only
      rw [if_true]

theorem wcNodeOnStart_pres (g : PlayState) (i : Nat) :
    (wcNodeOnStart g i).hostTimers = g.hostTimers ∧
    (wcNodeOnStart g i).scriptProperties = g.scriptProperties ∧
    (goodNodes g → goodNodes (wcNodeOnStart g i)) := by
  simp only [wcNodeOnStart]
  rcases h1 : findNode g.nodes i with _ | self
  · exact ⟨rfl, rfl, fun hg => hg⟩
  · dsimp only
    cases hk : self.kind
    case storage =>
      exact wcNodeProperty_pres_good g i "value"
        (wcNodeProperty g i "value" JSVal.undef JSVal.undef).1 (JSVal.bool true)
        (wcNodeProperty_read_spec g i "value" JSVal.undef)
    all_goals exact ⟨rfl, rfl, fun hg => hg⟩

theorem foldl_onStart_pres :
    ∀ (ids : List Nat) (g : PlayState),
    (ids.foldl wcNodeOnStart g).hostTimers = g.hostTimers ∧
    (ids.foldl wcNodeOnStart g).scriptProperties = g.scriptProperties ∧
    (goodNodes g → goodNodes (ids.foldl wcNodeOnStart g))
  | [], g => ⟨rfl, rfl, fun hg => hg⟩
  | i :: rest, g => by
    rw [List.foldl_cons]
    have h1 := wcNodeOnStart_pres g i
    have h2 := foldl_onStart_pres rest (wcNodeOnStart g i)
    exact ⟨by rw [h2.1, h1.1], by rw [h2.2.1, h1.2.1],
      fun hg => h2.2.2 (h1.2.2 hg)⟩

theorem notifyOnStart_pres (g : PlayState) :
    (notifyOnStart g).hostTimers = g.hostTimers ∧
    (notifyOnStart g).scriptProperties = g.scriptProperties ∧
    (goodNodes g → goodNodes (notifyOnStart g)) := by
  dsimp only [notifyOnStart]
  have hstep : ∀ (h : PlayState) (k : NodeKind),
      (((h.nodes.filter fun n => n.kind == k).map Node.id).foldl wcNodeOnStart
        h).hostTimers = h.hostTimers ∧
      (((h.nodes.filter fun n => n.kind == k).map Node.id).foldl wcNodeOnStart
        h).scriptProperties = h.scriptProperties ∧
      (goodNodes h → goodNodes
        (((h.nodes.filter fun n => n.kind == k).map Node.id).foldl wcNodeOnStart h)) :=
    fun h k => foldl_onStart_pres _ _
  refine ⟨?_, ?_, ?_⟩
  · exact ((hstep _ _).1.trans ((hstep _ _).1.trans ((hstep _ _).1.trans
      (hstep _ _).1)))
  · exact ((hstep _ _).2.1.trans ((hstep _ _).2.1.trans ((hstep _ _).2.1.trans
      (hstep _ _).2.1)))
  · exact fun hg => (hstep _ _).2.2 ((hstep _ _).2.2 ((hstep _ _).2.2
      ((hstep _ _).2.2 hg)))

set_option maxHeartbeats 2000000 in
theorem wcPlayStart_eq_pipeline (g : PlayState) :
    wcPlayStart g = notifyOnStart (startStage5 (resetChain (startStage2 g))) := rfl

theorem wcNodeReset_queue_transport (g : PlayState) (qc : List ChainItem)
    (qp : List PropItem) (i : Nat) :
    wcNodeReset { g with queuedChain := qc, queuedProperties := qp } i =
      { wcNodeReset g i with queuedChain := qc, queuedProperties := qp } := by
  simp only [wcNodeReset]
  rcases h : findNode g.nodes i with _ | self
  · rfl
  · rfl

theorem foldl_reset_queue_transport :
    ∀ (ids : List Nat) (g : PlayState) (qc : List ChainItem) (qp : List PropItem),
    ids.foldl wcNodeReset { g with queuedChain := qc, queuedProperties := qp } =
      { ids.foldl wcNodeReset g with queuedChain := qc, queuedProperties := qp }
  | [], g, qc, qp => rfl
  | i :: rest, g, qc, qp => by
    rw [List.foldl_cons, List.foldl_cons]
    have h1 := wcNodeReset_queue_transport g qc qp i
    rw [h1]
    exact foldl_reset_queue_transport rest (wcNodeReset g i) qc qp

theorem resetKind_queue_transport (g : PlayState) (qc : List ChainItem)
    (qp : List PropItem) (k : NodeKind) :
    resetKind { g with queuedChain := qc, queuedProperties := qp } k =
      { resetKind g k with queuedChain := qc, queuedProperties := qp } := by
  simp only [resetKind]
  exact foldl_reset_queue_transport _ g qc qp

theorem resetChain_queue_transport (g : PlayState) (qc : List ChainItem)
    (qp : List PropItem) :
    resetChain { g with queuedChain := qc, queuedProperties := qp } =
      { resetChain g with queuedChain := qc, queuedProperties := qp } := by
  simp only [resetChain]
  have h1 := resetKind_queue_transport g qc qp .storage
  rw [h1]
  have h2 := resetKind_queue_transport (resetKind g .storage) qc qp .process
  rw [h2]
  have h3 := resetKind_queue_transport (resetKind (resetKind g .storage) .process)
    qc qp .composite
  rw [h3]
  exact resetKind_queue_transport _ qc qp .entry

theorem wcPlayStart_queue_indep (st : PlayState) (qc : List ChainItem)
    (qp : List PropItem) :
    wcPlayStart { st with queuedChain := qc, queuedProperties := qp } =
      wcPlayStart st := by
  rw [wcPlayStart_eq_pipeline, wcPlayStart_eq_pipeline]
  have h2 : startStage2 { st with queuedChain := qc, queuedProperties := qp } =
      { startStage2 st with queuedChain := qc, queuedProperties := qp } := rfl
  rw [h2, resetChain_queue_transport]
  rfl

theorem findNode_of_mem_nodup : ∀ {l : List Node},
    (l.map Node.id).Nodup → ∀ {n : Node}, n ∈ l → findNode l n.id = some n
  | [], _, n, hn => by cases hn
  | a :: rest, hnd, n, hn => by
    rw [List.map_cons, List.nodup_cons] at hnd
    rcases List.mem_cons.mp hn with hn | hn
    · subst hn
      rw [findNode, if_pos rfl]
    · rw [findNode]
      have hne : a.id ≠ n.id := by
        intro hc
        exact hnd.1 (hc ▸ List.mem_map_of_mem Node.id hn)
      rw [if_neg hne]
      exact findNode_of_mem_nodup hnd.2 hn

theorem mem_id_unique {l : List Node} (hnd : (l.map Node.id).Nodup)
    {m n : Node} (hm : m ∈ l) (hn : n ∈ l) (h : m.id = n.id) : m = n := by
  have h1 := findNode_of_mem_nodup hnd hm
  have h2 := findNode_of_mem_nodup hnd hn
  rw [h] at h1
  rw [h1] at h2
  injection h2

theorem wcNodeReset_cancels (g : PlayState) (i : Nat) (self : Node)
    (hfind : findNode g.nodes i = some self) (tid : Nat)
    (ht : JSVal.num (Int.ofNat tid) ∈ self.threads) :
    tid ∉ (wcNodeReset g i).hostTimers := by
  simp only [wcNodeReset]
  rw [hfind]
  dsimp only [PlayState.modifyNode]
  intro hmem
  have hp := List.of_mem_filter hmem
  rw [Bool.not_eq_true', List.any_eq_false] at hp
  exact absurd rfl (hp _ ht ∘ beq_iff_eq.mpr ∘ congrArg JSVal.num ∘ congrArg Int.ofNat ∘ Eq.symm)

theorem wcNodeReset_findNode_ne (g : PlayState) (i j : Nat) (hne : j ≠ i) :
    findNode (wcNodeReset g i).nodes j = findNode g.nodes j := by
  simp only [wcNodeReset]
  rcases h : findNode g.nodes i with _ | self
  · rfl
  · dsimp only [PlayState.modifyNode]
    rw [findNode_updateNode_ne hne (by intro n; rfl),
      findNode_updateNode_ne hne (by intro n; rfl)]

theorem foldl_reset_timers_sub : ∀ (ids : List Nat) (g : PlayState) (t : Nat),
    t ∈ (ids.foldl wcNodeReset g).hostTimers → t ∈ g.hostTimers
  | [], g, t, h => h
  | i :: rest, g, t, h => by
    rw [List.foldl_cons] at h
    exact wcNodeReset_hostTimers_sub g i t (foldl_reset_timers_sub rest _ t h)

theorem foldl_reset_findNode_not_mem :
    ∀ (ids : List Nat) (g : PlayState) (j : Nat), j ∉ ids →
    findNode (ids.foldl wcNodeReset g).nodes j = findNode g.nodes j
  | [], g, j, _ => rfl
  | i :: rest, g, j, hj => by
    rw [List.foldl_cons,
      foldl_reset_findNode_not_mem rest _ j (fun hc => hj (List.mem_cons_of_mem i hc)),
      wcNodeReset_findNode_ne g i j (fun hc => hj (hc ▸ List.mem_cons_self i rest))]

theorem foldl_reset_cancels :
    ∀ (ids : List Nat) (g : PlayState), (g.nodes.map Node.id).Nodup →
    ∀ n ∈ g.nodes, n.id ∈ ids → ∀ tid : Nat, JSVal.num (Int.ofNat tid) ∈ n.threads →
    tid ∉ (ids.foldl wcNodeReset g).hostTimers
  | [], g, _, n, _, hid, _, _ => by cases hid
  | i :: rest, g, hnd, n, hn, hid, tid, ht => by
    rw [List.foldl_cons]
    by_cases hii : n.id = i
    · intro hmem
      exact wcNodeReset_cancels g i n (hii ▸ findNode_of_mem_nodup hnd hn) tid ht
        (foldl_reset_timers_sub rest _ tid hmem)
    · have hid2 : n.id ∈ rest := by
        rcases List.mem_cons.mp hid with h | h
        · exact absurd h hii
        · exact h
      have hfind2 : findNode (wcNodeReset g i).nodes n.id = some n := by
        rw [wcNodeReset_findNode_ne g i n.id hii]
        exact findNode_of_mem_nodup hnd hn
      have hnd2 : ((wcNodeReset g i).nodes.map Node.id).Nodup := by
        rw [map_id_of_pairs (wcNodeReset_pairs g i)]
        exact hnd
      exact foldl_reset_cancels rest (wcNodeReset g i) hnd2 n
        (findNode_mem hfind2) hid2 tid ht

theorem foldl_reset_frame : ∀ (ids : List Nat) (g : PlayState),
    (ids.foldl wcNodeReset g).scriptProperties = g.scriptProperties ∧
    (ids.foldl wcNodeReset g).nextTimerId = g.nextTimerId
  | [], g => ⟨rfl, rfl⟩
  | i :: rest, g => by
    rw [List.foldl_cons]
    have h1 := wcNodeReset_frame g i
    have h2 := foldl_reset_frame rest (wcNodeReset g i)
    exact ⟨h2.1.trans h1.1, h2.2.trans h1.2.1⟩

theorem resetKind_frame (g : PlayState) (k : NodeKind) :
    (resetKind g k).scriptProperties = g.scriptProperties ∧
    (resetKind g k).nextTimerId = g.nextTimerId := by
  simp only [resetKind]
  exact foldl_reset_frame _ g

theorem resetChain_frame (g : PlayState) :
    (resetChain g).scriptProperties = g.scriptProperties ∧
    (resetChain g).nextTimerId = g.nextTimerId := by
  simp only [resetChain]
  refine ⟨?_, ?_⟩
  · exact ((resetKind_frame _ _).1.trans ((resetKind_frame _ _).1.trans
      ((resetKind_frame _ _).1.trans (resetKind_frame _ _).1)))
  · exact ((resetKind_frame _ _).2.trans ((resetKind_frame _ _).2.trans
      ((resetKind_frame _ _).2.trans (resetKind_frame _ _).2)))

theorem resetKind_timers_sub (g : PlayState) (k : NodeKind) (t : Nat)
    (h : t ∈ (resetKind g k).hostTimers) : t ∈ g.hostTimers := by
  simp only [resetKind] at h
  exact foldl_reset_timers_sub _ g t h

theorem resetChain_cancels (g : PlayState) (hnd : (g.nodes.map Node.id).Nodup)
    (n : Node) (hn : n ∈ g.nodes) (tid : Nat)
    (ht : JSVal.num (Int.ofNat tid) ∈ n.threads) :
    tid ∉ (resetChain g).hostTimers := by
  have hp1 := resetKind_pairs g .storage
  have hp2 := resetKind_pairs (resetKind g .storage) .process
  have hp3 := resetKind_pairs (resetKind (resetKind g .storage) .process) .composite
  have hnd1 : ((resetKind g .storage).nodes.map Node.id).Nodup := by
    rw [map_id_of_pairs hp1]; exact hnd
  have hnd2 : ((resetKind (resetKind g .storage) .process).nodes.map Node.id).Nodup := by
    rw [map_id_of_pairs hp2]; exact hnd1
  have hnd3 : ((resetKind (resetKind (resetKind g .storage) .process)
      .composite).nodes.map Node.id).Nodup := by
    rw [map_id_of_pairs hp3]; exact hnd2
  have hmemk : ∀ k : NodeKind, n.kind = k →
      n.id ∈ (g.nodes.filter fun m => m.kind == k).map Node.id := by
    intro k hk
    exact List.mem_map_of_mem Node.id (List.mem_filter.mpr ⟨hn, by rw [hk]; simp⟩)
  have hnotk : ∀ k : NodeKind, n.kind ≠ k →
      n.id ∉ (g.nodes.filter fun m => m.kind == k).map Node.id := by
    intro k hk hc
    rcases List.mem_map.mp hc with ⟨m, hm, hmid⟩
    have hm2 := List.mem_filter.mp hm
    have : m = n := mem_id_unique hnd hm2.1 hn hmid
    subst this
    exact hk (by have := hm2.2; simpa using this)
  have hcancel : ∀ (g2 : PlayState) (k : NodeKind),
      (g2.nodes.map Node.id).Nodup →
      findNode g2.nodes n.id = some n →
      n.id ∈ (g2.nodes.filter fun m => m.kind == k).map Node.id →
      tid ∉ (resetKind g2 k).hostTimers := by
    intro g2 k hnd2 hfind2 hid2
    simp only [resetKind]
    exact foldl_reset_cancels _ g2 hnd2 n (findNode_mem hfind2) hid2 tid ht
  have hpres : ∀ (g2 : PlayState) (k : NodeKind),
      n.id ∉ (g2.nodes.filter fun m => m.kind == k).map Node.id →
      findNode (resetKind g2 k).nodes n.id = findNode g2.nodes n.id := by
    intro g2 k hni
    simp only [resetKind]
    exact foldl_reset_findNode_not_mem _ g2 n.id hni
  have hfind0 : findNode g.nodes n.id = some n := findNode_of_mem_nodup hnd hn
  simp only [resetChain]
  rcases hk : n.kind
  case storage =>
    intro hc
    exact hcancel g .storage hnd hfind0 (hmemk .storage hk)
      (resetKind_timers_sub _ .process tid (resetKind_timers_sub _ .composite tid
        (resetKind_timers_sub _ .entry tid hc)))
  case process =>
    have hf1 : findNode (resetKind g .storage).nodes n.id = some n := by
      rw [hpres g .storage (hnotk .storage (by rw [hk]; intro hcc; cases hcc))]
      exact hfind0
    intro hc
    refine hcancel (resetKind g .storage) .process hnd1 hf1 ?_
      (resetKind_timers_sub _ .composite tid (resetKind_timers_sub _ .entry tid hc))
    rw [kind_ids_congr hp1 .process]
    exact hmemk .process hk
  case composite =>
    have hf1 : findNode (resetKind g .storage).nodes n.id = some n := by
      rw [hpres g .storage (hnotk .storage (by rw [hk]; intro hcc; cases hcc))]
      exact hfind0
    have hf2 : findNode (resetKind (resetKind g .storage) .process).nodes n.id =
        some n := by
      rw [hpres (resetKind g .storage) .process ?_]
      · exact hf1
      · rw [kind_ids_congr hp1 .process]
        exact hnotk .process (by rw [hk]; intro hcc; cases hcc)
    intro hc
    refine hcancel (resetKind (resetKind g .storage) .process) .composite hnd2 hf2 ?_
      (resetKind_timers_sub _ .entry tid hc)
    rw [kind_ids_congr (hp1 ▸ hp2 : (resetKind (resetKind g .storage)
      .process).nodes.map (fun w => (w.id, w.kind)) =
        g.nodes.map fun w => (w.id, w.kind)) .composite]
    exact hmemk .composite hk
  case entry =>
    have hf1 : findNode (resetKind g .storage).nodes n.id = some n := by
      rw [hpres g .storage (hnotk .storage (by rw [hk]; intro hcc; cases hcc))]
      exact hfind0
    have hf2 : findNode (resetKind (resetKind g .storage) .process).nodes n.id =
        some n := by
      rw [hpres (resetKind g .storage) .process ?_]
      · exact hf1
      · rw [kind_ids_congr hp1 .process]
        exact hnotk .process (by rw [hk]; intro hcc; cases hcc)
    have hf3 : findNode (resetKind (resetKind (resetKind g .storage) .process)
        .composite).nodes n.id = some n := by
      rw [hpres (resetKind (resetKind g .storage) .process) .composite ?_]
      · exact hf2
      · rw [kind_ids_congr (hp1 ▸ hp2 : (resetKind (resetKind g .storage)
          .process).nodes.map (fun w => (w.id, w.kind)) =
            g.nodes.map fun w => (w.id, w.kind)) .composite]
        exact hnotk .composite (by rw [hk]; intro hcc; cases hcc)
    intro hc
    refine hcancel (resetKind (resetKind (resetKind g .storage) .process)
      .composite) .entry hnd3 hf3 ?_ hc
    rw [kind_ids_congr (by rw [hp3, hp2, hp1] : (resetKind (resetKind
      (resetKind g .storage) .process) .composite).nodes.map
        (fun w => (w.id, w.kind)) = g.nodes.map fun w => (w.id, w.kind)) .entry]
    exact hmemk .entry hk

theorem startStage5_nodes (g : PlayState) : (startStage5 g).nodes = g.nodes := by
  simp only [startStage5]
  split
  · rfl
  · rfl

theorem startStage5_scriptProperties (g : PlayState) :
    (startStage5 g).scriptProperties = g.scriptProperties := by
  simp only [startStage5]
  split
  · rfl
  · rfl

theorem startStage5_timers_mem (g : PlayState) (t : Nat)
    (h : t ∈ (startStage5 g).hostTimers) : t ∈ g.hostTimers ∨ t = g.nextTimerId := by
  simp only [startStage5] at h
  split at h
  · rcases List.mem_append.mp h with h | h
    · exact Or.inl h
    · exact Or.inr (by simpa using h)
  · exact Or.inl h

theorem goodNodes_congr {g1 g2 : PlayState} (h : g1.nodes = g2.nodes)
    (hg : goodNodes g1) : goodNodes g2 := by
  intro n hn
  exact hg n (h ▸ hn)

/-- C9 counterexample: start() does not leave the property queue empty. On a
store with a storage node wired to a process node's input, stale queue
contents and a pending thread timer, wcPlay.start discards the stale items
and resets every value, but the closing __notifyNodes('onStart') makes the
storage node force-propagate its value, which re-enqueues a property update;
the claim that both queues are empty immediately after start() returns is
false. -/
theorem c9_counterexample_start_leaves_queued_property :
    (wcPlayStart exPlayRestart).queuedProperties =
      [⟨1, "q", JSVal.num 7⟩] ∧
    (wcPlayStart exPlayRestart).queuedProperties ≠ [] ∧
    exPlayRestart.queuedProperties = [⟨1, "q", JSVal.num 9⟩] ∧
    exPlayRestart.queuedChain = [⟨1, "in"⟩] := by
  refine ⟨by decide, by decide, by decide, by decide⟩

/-- C9 (amended): wcPlay.start is a hard reset of the data state, though not
of the queues. For a store with distinct node ids and host timer handles
below the allocator cursor: after start(), every script property's value
equals its initial value; every node property's value equals its initial
value and every node's thread list is empty; every host timer whose handle
was held by a node's numeric thread token has been cancelled; and the result
is independent of whatever the two queues held before the call (the queues
are cleared before the onStart notification, which may immediately re-enqueue
work). -/
theorem c9_start_resets_state (st : PlayState)
    (hnd : (st.nodes.map Node.id).Nodup)
    (hfresh : ∀ t ∈ st.hostTimers, t < st.nextTimerId) :
    (wcPlayStart st).scriptProperties =
      st.scriptProperties.map (fun p => { p with value := p.initialValue }) ∧
    goodNodes (wcPlayStart st) ∧
    (∀ tid ∈ st.hostTimers,
      (∃ n ∈ st.nodes, JSVal.num (Int.ofNat tid) ∈ n.threads) →
      tid ∉ (wcPlayStart st).hostTimers) ∧
    ∀ qc qp, wcPlayStart { st with queuedChain := qc, queuedProperties := qp } =
      wcPlayStart st := by
  have hnd2 : ((startStage2 st).nodes.map Node.id).Nodup := hnd
  refine ⟨?_, ?_, ?_, wcPlayStart_queue_indep st⟩
  · rw [wcPlayStart_eq_pipeline, (notifyOnStart_pres _).2.1,
      startStage5_scriptProperties, (resetChain_frame _).1]
    rfl
  · rw [wcPlayStart_eq_pipeline]
    refine (notifyOnStart_pres _).2.2 ?_
    refine goodNodes_congr (startStage5_nodes _).symm ?_
    exact resetAll_good (startStage2 st) hnd2
  · intro tid htid hex hmem
    rcases hex with ⟨n, hn, hth⟩
    rw [wcPlayStart_eq_pipeline, (notifyOnStart_pres _).1] at hmem
    rcases startStage5_timers_mem _ tid hmem with h | h
    · exact resetChain_cancels (startStage2 st) hnd2 n hn tid hth h
    · have h2 : tid = st.nextTimerId := h.trans (resetChain_frame (startStage2 st)).2
      exact absurd h2 (Nat.ne_of_lt (hfresh tid htid))

/-! ## C3: link symmetry -/

theorem flowFlip_flip (s : FlowSide) : s.flip.flip = s := by cases s <;> rfl

theorem flowSide_eq_flip_of_ne {s2 s : FlowSide} (h : s2 ≠ s) : s2 = s.flip := by
  cases s <;> cases s2 <;> revert h <;> decide

theorem propFlip_flip (s : PropSide) : s.flip.flip = s := by cases s <;> rfl

theorem propSide_eq_flip_of_ne {s2 s : PropSide} (h : s2 ≠ s) : s2 = s.flip := by
  cases s <;> cases s2 <;> revert h <;> decide

theorem setFlowLinks_id (n : Node) (s : FlowSide) (L : List FlowLink) :
    (n.setFlowLinks s L).id = n.id := by cases s <;> rfl

theorem setFlowLinks_properties (n : Node) (s : FlowSide) (L : List FlowLink) :
    (n.setFlowLinks s L).properties = n.properties := by cases s <;> rfl

theorem flowLinks_set_same (n : Node) (s : FlowSide) (L : List FlowLink) :
    (n.setFlowLinks s L).flowLinks s = L := by cases s <;> rfl

theorem flowLinks_set_flip (n : Node) (s : FlowSide) (L : List FlowLink) :
    (n.setFlowLinks s L).flowLinks s.flip = n.flowLinks s.flip := by cases s <;> rfl

theorem setPropLinks_name (p : NodeProp) (s : PropSide) (L : List LinkRef) :
    (p.setPropLinks s L).name = p.name := by cases s <;> rfl

theorem propLinks_set_same (p : NodeProp) (s : PropSide) (L : List LinkRef) :
    (p.setPropLinks s L).propLinks s = L := by cases s <;> rfl

theorem propLinks_set_flip (p : NodeProp) (s : PropSide) (L : List LinkRef) :
    (p.setPropLinks s L).propLinks s.flip = p.propLinks s.flip := by cases s <;> rfl

theorem flowLinks_setProps (n : Node) (ps : List NodeProp) (s : FlowSide) :
    ({ n with properties := ps } : Node).flowLinks s = n.flowLinks s := by
  cases s <;> rfl

theorem findFlowLink_mem : ∀ {l : List FlowLink} {nm : String} {k : FlowLink},
    findFlowLink l nm = some k → k ∈ l
  | [], _, _, h => by simp [findFlowLink] at h
  | a :: rest, nm, k, h => by
    rw [findFlowLink] at h
    split at h
    · cases h; exact List.mem_cons_self a rest
    · exact List.mem_cons_of_mem a (findFlowLink_mem h)

theorem findFlowLink_modify_ne :
    ∀ (l : List FlowLink) (nm nm2 : String) (f : FlowLink → FlowLink),
    (∀ x, (f x).name = x.name) → nm2 ≠ nm →
    findFlowLink (modifyFlowLink l nm f) nm2 = findFlowLink l nm2
  | [], _, _, _, _, _ => rfl
  | a :: rest, nm, nm2, f, hf, hne => by
    rw [modifyFlowLink]
    by_cases ha : a.name = nm
    · rw [if_pos ha, findFlowLink, findFlowLink,
        if_neg (by rw [hf a, ha]; exact fun hc => hne hc.symm),
        if_neg (by rw [ha]; exact fun hc => hne hc.symm)]
    · rw [if_neg ha, findFlowLink, findFlowLink]
      by_cases ha2 : a.name = nm2
      · rw [if_pos ha2, if_pos ha2]
      · rw [if_neg ha2, if_neg ha2]
        exact findFlowLink_modify_ne rest nm nm2 f hf hne

theorem findNodeProp_modify_ne :
    ∀ (l : List NodeProp) (nm nm2 : String) (f : NodeProp → NodeProp),
    (∀ x, (f x).name = x.name) → nm2 ≠ nm →
    findNodeProp (modifyNodeProp l nm f) nm2 = findNodeProp l nm2
  | [], _, _, _, _, _ => rfl
  | a :: rest, nm, nm2, f, hf, hne => by
    rw [modifyNodeProp]
    by_cases ha : a.name = nm
    · rw [if_pos ha, findNodeProp, findNodeProp,
        if_neg (by rw [hf a, ha]; exact fun hc => hne hc.symm),
        if_neg (by rw [ha]; exact fun hc => hne hc.symm)]
    · rw [if_neg ha, findNodeProp, findNodeProp]
      by_cases ha2 : a.name = nm2
      · rw [if_pos ha2, if_pos ha2]
      · rw [if_neg ha2, if_neg ha2]
        exact findNodeProp_modify_ne rest nm nm2 f hf hne

theorem flowRefs_some_elim {st : List Node} {a : Nat} {side : FlowSide}
    {nm : String} {ls : List LinkRef} (h : flowRefs st a side nm = some ls) :
    ∃ n l, findNode st a = some n ∧ findFlowLink (n.flowLinks side) nm = some l ∧
      l.links = ls ∧ l.name = nm := by
  rw [flowRefs] at h
  split at h
  · cases h
  case _ n hn =>
    split at h
    · cases h
    case _ l hl =>
      injection h with h
      exact ⟨n, l, hn, hl, h, findFlowLink_name hl⟩

theorem propRefs_some_elim {st : List Node} {a : Nat} {side : PropSide}
    {nm : String} {ls : List LinkRef} (h : propRefs st a side nm = some ls) :
    ∃ n p, findNode st a = some n ∧ findNodeProp n.properties nm = some p ∧
      p.propLinks side = ls ∧ p.name = nm := by
  rw [propRefs] at h
  split at h
  · cases h
  case _ n hn =>
    split at h
    · cases h
    case _ p hp =>
      injection h with h
      exact ⟨n, p, hn, hp, h, findNodeProp_name hp⟩

theorem flowRefs_flowEdit_self (st : List Node) (a : Nat) (side : FlowSide)
    (nm : String) (f : FlowLink → FlowLink) (h : List LinkRef → List LinkRef)
    (hname : ∀ l, (f l).name = l.name) (hlinks : ∀ l, (f l).links = h l.links) :
    flowRefs (updateNode st a fun nd =>
      nd.setFlowLinks side (modifyFlowLink (nd.flowLinks side) nm f)) a side nm =
    (flowRefs st a side nm).map h := by
  rw [flowRefs, flowRefs,
    findNode_updateNode_self_ex st a
      (fun nd => nd.setFlowLinks side (modifyFlowLink (nd.flowLinks side) nm f))
      (fun nd => setFlowLinks_id nd side _)]
  rcases h1 : findNode st a with _ | n
  · rfl
  · simp only [Option.map_some']
    try dsimp only
    rw [flowLinks_set_same, findFlowLink_modify _ nm f hname]
    rcases h2 : findFlowLink (n.flowLinks side) nm with _ | l
    · rfl
    · simp only [Option.map_some']
      try dsimp only
      rw [hlinks]

theorem flowRefs_flowEdit_other (st : List Node) (a : Nat) (side : FlowSide)
    (nm : String) (f : FlowLink → FlowLink)
    (hname : ∀ l, (f l).name = l.name)
    (c : Nat) (s2 : FlowSide) (nm2 : String)
    (hkey : c ≠ a ∨ s2 ≠ side ∨ nm2 ≠ nm) :
    flowRefs (updateNode st a fun nd =>
      nd.setFlowLinks side (modifyFlowLink (nd.flowLinks side) nm f)) c s2 nm2 =
    flowRefs st c s2 nm2 := by
  by_cases hca : c = a
  · subst hca
    rw [flowRefs, flowRefs,
      findNode_updateNode_self_ex st c
        (fun nd => nd.setFlowLinks side (modifyFlowLink (nd.flowLinks side) nm f))
        (fun nd => setFlowLinks_id nd side _)]
    rcases h1 : findNode st c with _ | n
    · rfl
    · simp only [Option.map_some']
      try dsimp only
      rcases hkey with hkey | hkey | hkey
      · exact absurd rfl hkey
      · rw [flowSide_eq_flip_of_ne hkey, flowLinks_set_flip]
      · by_cases hs : s2 = side
        · subst hs
          rw [flowLinks_set_same, findFlowLink_modify_ne _ nm nm2 f hname hkey]
        · rw [flowSide_eq_flip_of_ne hs, flowLinks_set_flip]
  · rw [flowRefs, flowRefs,
      findNode_updateNode_ne hca (fun nd => setFlowLinks_id nd side _)]

theorem propRefs_flowEdit (st : List Node) (a : Nat) (side : FlowSide)
    (nm : String) (f : FlowLink → FlowLink)
    (c : Nat) (s2 : PropSide) (nm2 : String) :
    propRefs (updateNode st a fun nd =>
      nd.setFlowLinks side (modifyFlowLink (nd.flowLinks side) nm f)) c s2 nm2 =
    propRefs st c s2 nm2 := by
  by_cases hca : c = a
  · subst hca
    rw [propRefs, propRefs,
      findNode_updateNode_self_ex st c
        (fun nd => nd.setFlowLinks side (modifyFlowLink (nd.flowLinks side) nm f))
        (fun nd => setFlowLinks_id nd side _)]
    rcases h1 : findNode st c with _ | n
    · rfl
    · simp only [Option.map_some']
      try dsimp only
      rw [setFlowLinks_properties]
  · rw [propRefs, propRefs,
      findNode_updateNode_ne hca (fun nd => setFlowLinks_id nd side _)]

theorem propRefs_propEdit_self (st : List Node) (a : Nat) (side : PropSide)
    (nm : String) (f : NodeProp → NodeProp) (h : List LinkRef → List LinkRef)
    (hname : ∀ p, (f p).name = p.name)
    (hlinks : ∀ p, (f p).propLinks side = h (p.propLinks side)) :
    propRefs (updateNode st a fun nd =>
      { nd with properties := modifyNodeProp nd.properties nm f }) a side nm =
    (propRefs st a side nm).map h := by
  rw [propRefs, propRefs,
    findNode_updateNode_self_ex st a
      (fun nd => { nd with properties := modifyNodeProp nd.properties nm f })
      (fun nd => rfl)]
  rcases h1 : findNode st a with _ | n
  · rfl
  · simp only [Option.map_some']
    try dsimp only
    rw [findNodeProp_modify _ nm f hname]
    rcases h2 : findNodeProp n.properties nm with _ | p
    · rfl
    · simp only [Option.map_some']
      try dsimp only
      rw [hlinks]

theorem propRefs_propEdit_other (st : List Node) (a : Nat) (side : PropSide)
    (nm : String) (f : NodeProp → NodeProp)
    (hname : ∀ p, (f p).name = p.name)
    (hflip : ∀ p, (f p).propLinks side.flip = p.propLinks side.flip)
    (c : Nat) (s2 : PropSide) (nm2 : String)
    (hkey : c ≠ a ∨ s2 ≠ side ∨ nm2 ≠ nm) :
    propRefs (updateNode st a fun nd =>
      { nd with properties := modifyNodeProp nd.properties nm f }) c s2 nm2 =
    propRefs st c s2 nm2 := by
  by_cases hca : c = a
  · subst hca
    rw [propRefs, propRefs,
      findNode_updateNode_self_ex st c
        (fun nd => { nd with properties := modifyNodeProp nd.properties nm f })
        (fun nd => rfl)]
    rcases h1 : findNode st c with _ | n
    · rfl
    · simp only [Option.map_some']
      try dsimp only
      rcases hkey with hkey | hkey | hkey
      · exact absurd rfl hkey
      · rw [propSide_eq_flip_of_ne hkey]
        by_cases hnm : nm2 = nm
        · subst hnm
          rw [findNodeProp_modify _ nm2 f hname]
          rcases h2 : findNodeProp n.properties nm2 with _ | p
          · rfl
          · simp only [Option.map_some']
            try dsimp only
            rw [hflip]
        · rw [findNodeProp_modify_ne _ nm nm2 f hname hnm]
      · by_cases hs : s2 = side
        · subst hs
          rw [findNodeProp_modify_ne _ nm nm2 f hname hkey]
        · rw [propSide_eq_flip_of_ne hs,
            findNodeProp_modify_ne _ nm nm2 f hname hkey]
  · rw [propRefs, propRefs,
      findNode_updateNode_ne_ex st c a
        (fun nd => { nd with properties := modifyNodeProp nd.properties nm f })
        hca (fun nd => rfl)]

theorem flowRefs_propEdit (st : List Node) (a : Nat) (nm : String)
    (f : NodeProp → NodeProp) (c : Nat) (s2 : FlowSide) (nm2 : String) :
    flowRefs (updateNode st a fun nd =>
      { nd with properties := modifyNodeProp nd.properties nm f }) c s2 nm2 =
    flowRefs st c s2 nm2 := by
  by_cases hca : c = a
  · subst hca
    rw [flowRefs, flowRefs,
      findNode_updateNode_self_ex st c
        (fun nd => { nd with properties := modifyNodeProp nd.properties nm f })
        (fun nd => rfl)]
    rcases h1 : findNode st c with _ | n
    · rfl
    · simp only [Option.map_some']
      try dsimp only
      rw [flowLinks_setProps]
  · rw [flowRefs, flowRefs,
      findNode_updateNode_ne_ex st c a
        (fun nd => { nd with properties := modifyNodeProp nd.properties nm f })
        hca (fun nd => rfl)]

theorem flowRefs_removeFlowRefAt_self (st : List Node) (a : Nat) (side : FlowSide)
    (nm : String) (i : Nat) :
    flowRefs (removeFlowRefAt st a side nm i) a side nm =
      (flowRefs st a side nm).map (fun ls => ls.eraseIdx i) :=
  flowRefs_flowEdit_self st a side nm
    (fun l => { l with links := l.links.eraseIdx i })
    (fun ls => ls.eraseIdx i) (fun l => rfl) (fun l => rfl)

theorem flowRefs_removeFlowRefAt_other (st : List Node) (a : Nat) (side : FlowSide)
    (nm : String) (i : Nat) (c : Nat) (s2 : FlowSide) (nm2 : String)
    (hkey : c ≠ a ∨ s2 ≠ side ∨ nm2 ≠ nm) :
    flowRefs (removeFlowRefAt st a side nm i) c s2 nm2 = flowRefs st c s2 nm2 :=
  flowRefs_flowEdit_other st a side nm
    (fun l => { l with links := l.links.eraseIdx i })
    (fun l => rfl) c s2 nm2 hkey

theorem propRefs_removeFlowRefAt (st : List Node) (a : Nat) (side : FlowSide)
    (nm : String) (i : Nat) (c : Nat) (s2 : PropSide) (nm2 : String) :
    propRefs (removeFlowRefAt st a side nm i) c s2 nm2 = propRefs st c s2 nm2 :=
  propRefs_flowEdit st a side nm
    (fun l => { l with links := l.links.eraseIdx i }) c s2 nm2

theorem propRefs_removePropRefAt_self (st : List Node) (a : Nat) (side : PropSide)
    (nm : String) (i : Nat) :
    propRefs (removePropRefAt st a side nm i) a side nm =
      (propRefs st a side nm).map (fun ls => ls.eraseIdx i) :=
  propRefs_propEdit_self st a side nm
    (fun p => p.setPropLinks side ((p.propLinks side).eraseIdx i))
    (fun ls => ls.eraseIdx i)
    (fun p => setPropLinks_name p side _)
    (fun p => propLinks_set_same p side _)

theorem propRefs_removePropRefAt_other (st : List Node) (a : Nat) (side : PropSide)
    (nm : String) (i : Nat) (c : Nat) (s2 : PropSide) (nm2 : String)
    (hkey : c ≠ a ∨ s2 ≠ side ∨ nm2 ≠ nm) :
    propRefs (removePropRefAt st a side nm i) c s2 nm2 = propRefs st c s2 nm2 :=
  propRefs_propEdit_other st a side nm
    (fun p => p.setPropLinks side ((p.propLinks side).eraseIdx i))
    (fun p => setPropLinks_name p side _)
    (fun p => propLinks_set_flip p side _) c s2 nm2 hkey

theorem flowRefs_removePropRefAt (st : List Node) (a : Nat) (side : PropSide)
    (nm : String) (i : Nat) (c : Nat) (s2 : FlowSide) (nm2 : String) :
    flowRefs (removePropRefAt st a side nm i) c s2 nm2 = flowRefs st c s2 nm2 :=
  flowRefs_propEdit st a nm
    (fun p => p.setPropLinks side ((p.propLinks side).eraseIdx i)) c s2 nm2

theorem symFlowViews_congr {st1 st2 : List Node}
    (h : ∀ a side nm, flowRefs st2 a side nm = flowRefs st1 a side nm)
    (hs : symFlowViews st1) : symFlowViews st2 := by
  intro a side nm ls hv
  rw [h] at hv
  obtain ⟨hnd, hsym⟩ := hs a side nm ls hv
  refine ⟨hnd, fun r hr => ?_⟩
  obtain ⟨pls, hp, hm⟩ := hsym r hr
  exact ⟨pls, by rw [h]; exact hp, hm⟩

theorem symPropViews_congr {st1 st2 : List Node}
    (h : ∀ a side nm, propRefs st2 a side nm = propRefs st1 a side nm)
    (hs : symPropViews st1) : symPropViews st2 := by
  intro a side nm ls hv
  rw [h] at hv
  obtain ⟨hnd, hsym⟩ := hs a side nm ls hv
  refine ⟨hnd, fun r hr => ?_⟩
  obtain ⟨pls, hp, hm⟩ := hsym r hr
  exact ⟨pls, by rw [h]; exact hp, hm⟩

theorem filterMatch_somesome_iff {a : Nat} {l : String} {r : LinkRef} :
    filterMatch (some a) (some l) r = true ↔ r = ⟨a, l⟩ := by
  rcases r with ⟨rn, rm⟩
  by_cases h1 : rn = a <;> by_cases h2 : rm = l <;>
    simp [filterMatch, h1, h2]

theorem refCount_le_totalRefs {st : List Node} {n : Node} (hn : n ∈ st) :
    n.refCount ≤ totalRefs st :=
  List.single_le_sum (fun x _ => Nat.zero_le x) _ (List.mem_map_of_mem Node.refCount hn)

theorem flow_view_len_le {st : List Node} {a : Nat} {side : FlowSide} {nm : String}
    {ls : List LinkRef} (h : flowRefs st a side nm = some ls) :
    ls.length ≤ totalRefs st := by
  obtain ⟨n, l, hn, hl, hls, _⟩ := flowRefs_some_elim h
  have hmem := findFlowLink_mem hl
  have h1 : l.links.length ≤ n.refCount := by
    have hsum : l.links.length ≤ ((n.flowLinks side).map fun k => k.links.length).sum :=
      List.single_le_sum (fun x _ => Nat.zero_le x) _
        (List.mem_map_of_mem (fun k => k.links.length) hmem)
    cases side
    · calc l.links.length ≤ (n.entry.map fun k => k.links.length).sum := hsum
        _ ≤ n.refCount := by
          rw [Node.refCount]
          omega
    · calc l.links.length ≤ (n.exit.map fun k => k.links.length).sum := hsum
        _ ≤ n.refCount := by
          rw [Node.refCount]
          omega
  rw [← hls]
  exact h1.trans (refCount_le_totalRefs (findNode_mem hn))

theorem prop_view_len_le {st : List Node} {a : Nat} {side : PropSide} {nm : String}
    {ls : List LinkRef} (h : propRefs st a side nm = some ls) :
    ls.length ≤ totalRefs st := by
  obtain ⟨n, p, hn, hp, hls, _⟩ := propRefs_some_elim h
  have hmem := findNodeProp_mem hp
  have h1 : (p.propLinks side).length ≤ n.refCount := by
    have hsum : p.inputs.length + p.outputs.length ≤
        (n.properties.map fun q => q.inputs.length + q.outputs.length).sum :=
      List.single_le_sum (fun x _ => Nat.zero_le x) _
        (List.mem_map_of_mem (fun q => q.inputs.length + q.outputs.length) hmem)
    have h2 : (p.propLinks side).length ≤ p.inputs.length + p.outputs.length := by
      cases side
      · exact Nat.le_add_right _ _
      · exact Nat.le_add_left _ _
    refine h2.trans (hsum.trans ?_)
    rw [Node.refCount]
    omega
  rw [← hls]
  exact h1.trans (refCount_le_totalRefs (findNode_mem hn))

theorem totalRefs_updateNode_le :
    ∀ (st : List Node) (i : Nat) (f : Node → Node),
    (∀ n, (f n).refCount ≤ n.refCount) →
    totalRefs (updateNode st i f) ≤ totalRefs st
  | [], _, _, _ => Nat.le_refl _
  | n :: rest, i, f, hf => by
    rw [updateNode]
    by_cases hn : n.id = i
    · rw [if_pos hn, totalRefs, totalRefs, List.map_cons, List.map_cons,
        List.sum_cons, List.sum_cons]
      exact Nat.add_le_add (hf n) (Nat.le_refl _)
    · rw [if_neg hn, totalRefs, totalRefs, List.map_cons, List.map_cons,
        List.sum_cons, List.sum_cons]
      exact Nat.add_le_add (Nat.le_refl _) (totalRefs_updateNode_le rest i f hf)

theorem sum_modifyFlowLink_le :
    ∀ (l : List FlowLink) (nm : String) (f : FlowLink → FlowLink),
    (∀ x, (f x).links.length ≤ x.links.length) →
    ((modifyFlowLink l nm f).map fun k => k.links.length).sum ≤
      (l.map fun k => k.links.length).sum
  | [], _, _, _ => Nat.le_refl _
  | a :: rest, nm, f, hf => by
    rw [modifyFlowLink]
    by_cases ha : a.name = nm
    · rw [if_pos ha, List.map_cons, List.map_cons, List.sum_cons, List.sum_cons]
      exact Nat.add_le_add (hf a) (Nat.le_refl _)
    · rw [if_neg ha, List.map_cons, List.map_cons, List.sum_cons, List.sum_cons]
      exact Nat.add_le_add (Nat.le_refl _) (sum_modifyFlowLink_le rest nm f hf)

theorem sum_modifyNodeProp_le :
    ∀ (l : List NodeProp) (nm : String) (f : NodeProp → NodeProp),
    (∀ x, (f x).inputs.length + (f x).outputs.length ≤
      x.inputs.length + x.outputs.length) →
    ((modifyNodeProp l nm f).map fun q => q.inputs.length + q.outputs.length).sum ≤
      (l.map fun q => q.inputs.length + q.outputs.length).sum
  | [], _, _, _ => Nat.le_refl _
  | a :: rest, nm, f, hf => by
    rw [modifyNodeProp]
    by_cases ha : a.name = nm
    · rw [if_pos ha, List.map_cons, List.map_cons, List.sum_cons, List.sum_cons]
      exact Nat.add_le_add (hf a) (Nat.le_refl _)
    · rw [if_neg ha, List.map_cons, List.map_cons, List.sum_cons, List.sum_cons]
      exact Nat.add_le_add (Nat.le_refl _) (sum_modifyNodeProp_le rest nm f hf)

theorem refCount_setFlowLinks_modify_le (n : Node) (side : FlowSide) (nm : String)
    (f : FlowLink → FlowLink) (hf : ∀ x, (f x).links.length ≤ x.links.length) :
    (n.setFlowLinks side (modifyFlowLink (n.flowLinks side) nm f)).refCount ≤
      n.refCount := by
  cases side
  · rw [Node.setFlowLinks, Node.refCount, Node.refCount]
    dsimp only
    simp only [Node.flowLinks]
    have := sum_modifyFlowLink_le n.entry nm f hf
    omega
  · rw [Node.setFlowLinks, Node.refCount, Node.refCount]
    dsimp only
    simp only [Node.flowLinks]
    have := sum_modifyFlowLink_le n.exit nm f hf
    omega

theorem totalRefs_removeFlowRefAt_le (st : List Node) (a : Nat) (side : FlowSide)
    (nm : String) (i : Nat) :
    totalRefs (removeFlowRefAt st a side nm i) ≤ totalRefs st := by
  refine totalRefs_updateNode_le st a _ ?_
  intro n
  exact refCount_setFlowLinks_modify_le n side nm
    (fun l => { l with links := l.links.eraseIdx i })
    (fun l => List.length_eraseIdx_le _ _)

theorem propLinks_eraseIdx_le (p : NodeProp) (side : PropSide) (i : Nat) :
    (p.setPropLinks side ((p.propLinks side).eraseIdx i)).inputs.length +
      (p.setPropLinks side ((p.propLinks side).eraseIdx i)).outputs.length ≤
    p.inputs.length + p.outputs.length := by
  cases side
  · rw [NodeProp.setPropLinks]
    dsimp only
    simp only [NodeProp.propLinks]
    have := List.length_eraseIdx_le p.inputs i
    omega
  · rw [NodeProp.setPropLinks]
    dsimp only
    simp only [NodeProp.propLinks]
    have := List.length_eraseIdx_le p.outputs i
    omega

theorem totalRefs_removePropRefAt_le (st : List Node) (a : Nat) (side : PropSide)
    (nm : String) (i : Nat) :
    totalRefs (removePropRefAt st a side nm i) ≤ totalRefs st := by
  refine totalRefs_updateNode_le st a _ ?_
  intro n
  rw [Node.refCount, Node.refCount]
  dsimp only
  have := sum_modifyNodeProp_le n.properties nm
    (fun p => p.setPropLinks side ((p.propLinks side).eraseIdx i))
    (fun p => propLinks_eraseIdx_le p side i)
  omega

theorem flowFlip_ne (s : FlowSide) : s.flip ≠ s := by cases s <;> decide

theorem propFlip_ne (s : PropSide) : s.flip ≠ s := by cases s <;> decide

theorem mem_drop_of_getElem {α : Type} {l : List α} {j : Nat} {z : α}
    (hj : l[j]? = some z) : z ∈ l.drop j := by
  have : (l.drop j)[0]? = some z := by
    rw [List.getElem?_drop]
    exact hj
  exact List.getElem?_mem this

theorem mem_drop_succ_of_ne {α : Type} {l : List α} {j : Nat} {z t : α}
    (hj : l[j]? = some z) (ht : t ∈ l.drop j) (hne : t ≠ z) :
    t ∈ l.drop (j + 1) := by
  rcases List.getElem?_eq_some_iff.mp hj with ⟨hlt, hz⟩
  rw [List.drop_eq_getElem_cons hlt, hz] at ht
  rcases List.mem_cons.mp ht with h | h
  · exact absurd h hne
  · exact h

theorem nodup_eraseIdx {α : Type} {l : List α} {i : Nat} (h : l.Nodup) :
    (l.eraseIdx i).Nodup := (List.eraseIdx_sublist l i).nodup h

theorem mem_of_mem_eraseIdx {α : Type} {l : List α} {i : Nat} {x : α}
    (h : x ∈ l.eraseIdx i) : x ∈ l := (List.eraseIdx_sublist l i).subset h

theorem not_mem_eraseIdx_self {α : Type} {l : List α} {j : Nat} {t : α}
    (hnd : l.Nodup) (hj : l[j]? = some t) : t ∉ l.eraseIdx j := by
  rcases List.getElem?_eq_some_iff.mp hj with ⟨hlt, hz⟩
  intro hmem
  rw [List.eraseIdx_eq_take_drop_succ] at hmem
  have hdec : l.drop j = t :: l.drop (j + 1) := by
    rw [List.drop_eq_getElem_cons hlt, hz]
  rcases List.mem_append.mp hmem with h | h
  · have hnd2 : (l.take j ++ l.drop j).Nodup := by
      rw [List.take_append_drop]
      exact hnd
    have hdisj := (List.nodup_append.mp hnd2).2.2
    exact hdisj h (by rw [hdec]; exact List.mem_cons_self t _)
  · have hnd3 : (l.drop j).Nodup := (List.drop_sublist j l).nodup hnd
    rw [hdec] at hnd3
    exact (List.nodup_cons.mp hnd3).1 h

theorem drop_eraseIdx_self {α : Type} {l : List α} {j : Nat} (hlt : j < l.length) :
    (l.eraseIdx j).drop j = l.drop (j + 1) := by
  rw [List.eraseIdx_eq_take_drop_succ, List.drop_append_eq_append_drop,
    List.length_take, Nat.min_eq_left (Nat.le_of_lt hlt)]
  have h1 : j - j = 0 := Nat.sub_self j
  rw [h1, List.drop_zero, List.drop_eq_nil_of_le (by rw [List.length_take]; omega),
    List.nil_append]

theorem mem_eraseIdx_of_ne {α : Type} {l : List α} {i : Nat} {z x : α}
    (hi : l[i]? = some z) (hx : x ∈ l) (hne : x ≠ z) : x ∈ l.eraseIdx i := by
  rcases List.getElem?_eq_some_iff.mp hi with ⟨hlt, hz⟩
  rw [List.eraseIdx_eq_take_drop_succ]
  have hx2 : x ∈ l.take i ++ l.drop i := by
    rw [List.take_append_drop]
    exact hx
  rcases List.mem_append.mp hx2 with h | h
  · exact List.mem_append.mpr (Or.inl h)
  · rw [List.drop_eq_getElem_cons hlt, hz] at h
    rcases List.mem_cons.mp h with h | h
    · exact absurd h hne
    · exact List.mem_append.mpr (Or.inr h)

theorem disconnectFlowLoop_noview (fuel : Nat) (side : FlowSide) (st : List Node)
    (a : Nat) (nm : String) (tN : Option Nat) (tL : Option String) (i : Nat)
    (hv : flowRefs st a side nm = none) :
    disconnectFlowLoop fuel side st a nm tN tL i = st := by
  cases fuel
  · rfl
  · rw [disconnectFlowLoop, hv]

theorem disconnectFlowLoop_nomatch :
    ∀ (fuel : Nat) (side : FlowSide) (st : List Node) (a : Nat) (nm : String)
      (tN : Option Nat) (tL : Option String) (i : Nat) (ls : List LinkRef),
    flowRefs st a side nm = some ls →
    (∀ r ∈ ls.drop i, filterMatch tN tL r = false) →
    ls.length + 1 ≤ fuel + i →
    disconnectFlowLoop fuel side st a nm tN tL i = st
  | 0, side, st, a, nm, tN, tL, i, ls, hv, hnm, hb => rfl
  | fuel+1, side, st, a, nm, tN, tL, i, ls, hv, hnm, hb => by
    rw [disconnectFlowLoop, hv]
    dsimp only
    rcases hi : ls[i]? with _ | r
    · rfl
    · dsimp only
      rw [hnm r (mem_drop_of_getElem hi), if_neg Bool.false_ne_true]
      refine disconnectFlowLoop_nomatch fuel side st a nm tN tL (i+1) ls hv ?_ ?_
      · intro r2 hr2
        refine hnm r2 ?_
        have : ls.drop (i+1) = (ls.drop i).drop 1 := by
          rw [List.drop_drop]
        rw [this] at hr2
        exact List.mem_of_mem_drop hr2
      · omega

theorem disconnectPropLoop_noview (fuel : Nat) (side : PropSide) (st : List Node)
    (a : Nat) (nm : String) (tN : Option Nat) (tL : Option String) (i : Nat)
    (hv : propRefs st a side nm = none) :
    disconnectPropLoop fuel side st a nm tN tL i = st := by
  cases fuel
  · rfl
  · rw [disconnectPropLoop, hv]

theorem disconnectPropLoop_nomatch :
    ∀ (fuel : Nat) (side : PropSide) (st : List Node) (a : Nat) (nm : String)
      (tN : Option Nat) (tL : Option String) (i : Nat) (ls : List LinkRef),
    propRefs st a side nm = some ls →
    (∀ r ∈ ls.drop i, filterMatch tN tL r = false) →
    ls.length + 1 ≤ fuel + i →
    disconnectPropLoop fuel side st a nm tN tL i = st
  | 0, side, st, a, nm, tN, tL, i, ls, hv, hnm, hb => rfl
  | fuel+1, side, st, a, nm, tN, tL, i, ls, hv, hnm, hb => by
    rw [disconnectPropLoop, hv]
    dsimp only
    rcases hi : ls[i]? with _ | r
    · rfl
    · dsimp only
      rw [hnm r (mem_drop_of_getElem hi), if_neg Bool.false_ne_true]
      refine disconnectPropLoop_nomatch fuel side st a nm tN tL (i+1) ls hv ?_ ?_
      · intro r2 hr2
        refine hnm r2 ?_
        have : ls.drop (i+1) = (ls.drop i).drop 1 := by
          rw [List.drop_drop]
        rw [this] at hr2
        exact List.mem_of_mem_drop hr2
      · omega

theorem filterMatch_false_of_ne {a : Nat} {l : String} {r : LinkRef}
    (h : r ≠ ⟨a, l⟩) : filterMatch (some a) (some l) r = false := by
  cases hfm : filterMatch (some a) (some l) r
  · rfl
  · exact absurd (filterMatch_somesome_iff.mp hfm) h

theorem disconnectFlowAux_nomatch (fuel : Nat) (side : FlowSide) (st : List Node)
    (c : Nat) (nmc : String) (tN : Option Nat) (tL : Option String)
    (h : ∀ als, flowRefs st c side nmc = some als →
      (∀ r ∈ als, filterMatch tN tL r = false) ∧ als.length + 2 ≤ fuel) :
    (disconnectFlowAux fuel side st c nmc tN tL).2 = st := by
  cases fuel with
  | zero => rfl
  | succ f =>
    rw [disconnectFlowAux]
    rcases hn : findNode st c with _ | n
    · rfl
    · dsimp only
      rcases hl : findFlowLink (n.flowLinks side) nmc with _ | l
      · rfl
      · dsimp only
        have hv : flowRefs st c side nmc = some l.links := by
          rw [flowRefs, hn]
          dsimp only
          rw [hl]
        obtain ⟨hnm, hb⟩ := h l.links hv
        refine disconnectFlowLoop_nomatch f side st c nmc tN tL 0 l.links hv ?_ ?_
        · intro r hr
          exact hnm r (by rw [List.drop_zero] at hr; exact hr)
        · omega

theorem disconnectFlowLoop_single :
    ∀ (fuel : Nat) (side' : FlowSide) (st : List Node) (b : Nat) (nm' : String)
      (a : Nat) (nm : String) (j : Nat) (pls : List LinkRef),
    flowRefs st b side' nm' = some pls →
    pls.Nodup →
    (⟨a, nm⟩ : LinkRef) ∈ pls.drop j →
    (∀ als, flowRefs st a side'.flip nm = some als →
      (⟨b, nm'⟩ : LinkRef) ∉ als ∧ als.length + pls.length + 4 ≤ fuel + j) →
    pls.length + 3 ≤ fuel + j →
    ∃ j', pls[j']? = some (⟨a, nm⟩ : LinkRef) ∧
      disconnectFlowLoop fuel side' st b nm' (some a) (some nm) j =
        removeFlowRefAt st b side' nm' j'
  | 0, side', st, b, nm', a, nm, j, pls, hv, hnd, hmem, hals, hb => by
    exfalso
    have hj : j < pls.length := by
      by_contra hjc
      rw [List.drop_eq_nil_of_le (Nat.le_of_not_lt hjc)] at hmem
      cases hmem
    omega
  | fuel+1, side', st, b, nm', a, nm, j, pls, hv, hnd, hmem, hals, hb => by
    have hj : j < pls.length := by
      by_contra hjc
      rw [List.drop_eq_nil_of_le (Nat.le_of_not_lt hjc)] at hmem
      cases hmem
    rw [disconnectFlowLoop, hv]
    dsimp only
    rcases hi : pls[j]? with _ | z
    · rw [List.getElem?_eq_getElem hj] at hi
      cases hi
    · dsimp only
      by_cases hz : z = (⟨a, nm⟩ : LinkRef)
      · subst hz
        rw [filterMatch_somesome_iff.mpr rfl, if_pos rfl]
        dsimp only
        refine ⟨j, hi, ?_⟩
        have hst2 : (disconnectFlowAux fuel side'.flip
            (removeFlowRefAt st b side' nm' j) a nm
            (some b) (some nm')).2 = removeFlowRefAt st b side' nm' j := by
          refine disconnectFlowAux_nomatch fuel side'.flip _ a nm
            (some b) (some nm') ?_
          intro als hals2
          rw [flowRefs_removeFlowRefAt_other st b side' nm' j a side'.flip
            nm (Or.inr (Or.inl (flowFlip_ne side')))] at hals2
          obtain ⟨hnotin, hlen⟩ := hals als hals2
          refine ⟨fun r hr => filterMatch_false_of_ne (fun hc => hnotin (hc ▸ hr)), ?_⟩
          omega
        rw [hst2]
        have hv2 : flowRefs (removeFlowRefAt st b side' nm' j) b side' nm' =
            some (pls.eraseIdx j) := by
          rw [flowRefs_removeFlowRefAt_self, hv, Option.map_some']
        refine disconnectFlowLoop_nomatch fuel side' _ b nm' (some a)
          (some nm) j (pls.eraseIdx j) hv2 ?_ ?_
        · intro r hr
          refine filterMatch_false_of_ne ?_
          intro hc
          exact not_mem_eraseIdx_self hnd hi (hc ▸ List.mem_of_mem_drop hr)
        · have := List.length_eraseIdx_le pls j
          omega
      · have hfm : filterMatch (some a) (some nm) z = false :=
          filterMatch_false_of_ne hz
        rw [hfm, if_neg Bool.false_ne_true]
        obtain ⟨j', hj', heq⟩ := disconnectFlowLoop_single fuel side' st b nm' a nm
          (j+1) pls hv hnd
          (mem_drop_succ_of_ne hi hmem (fun h => hz h.symm))
          (fun als hv2 => ⟨(hals als hv2).1, by have := (hals als hv2).2; omega⟩)
          (by omega)
        exact ⟨j', hj', heq⟩

theorem flowFlip_inj {s2 s : FlowSide} (h : s2.flip = s.flip) : s2 = s := by
  have := congrArg FlowSide.flip h
  rwa [flowFlip_flip, flowFlip_flip] at this

theorem propFlip_inj {s2 s : PropSide} (h : s2.flip = s.flip) : s2 = s := by
  have := congrArg PropSide.flip h
  rwa [propFlip_flip, propFlip_flip] at this

theorem disconnectFlowAux_single (fuel : Nat) (side' : FlowSide) (st : List Node)
    (b : Nat) (nm' : String) (a : Nat) (nm : String) (pls : List LinkRef)
    (hv : flowRefs st b side' nm' = some pls) (hnd : pls.Nodup)
    (hmem : (⟨a, nm⟩ : LinkRef) ∈ pls)
    (hals : ∀ als, flowRefs st a side'.flip nm = some als →
      (⟨b, nm'⟩ : LinkRef) ∉ als ∧ als.length + pls.length + 5 ≤ fuel)
    (hb : pls.length + 4 ≤ fuel) :
    ∃ j', pls[j']? = some (⟨a, nm⟩ : LinkRef) ∧
      (disconnectFlowAux fuel side' st b nm' (some a) (some nm)).2 =
        removeFlowRefAt st b side' nm' j' := by
  cases fuel with
  | zero => omega
  | succ f =>
    obtain ⟨n, l, hn, hl, hls, hname⟩ := flowRefs_some_elim hv
    rw [disconnectFlowAux, hn]
    dsimp only
    rw [hl]
    dsimp only
    refine disconnectFlowLoop_single f side' st b nm' a nm 0 pls hv hnd
      (by rw [List.drop_zero]; exact hmem)
      (fun als hv2 => ⟨(hals als hv2).1, by have := (hals als hv2).2; omega⟩)
      (by omega)

theorem pairRemove_symFlow {st : List Node} (hsf : symFlowViews st)
    {a : Nat} {side : FlowSide} {nm : String} {ls : List LinkRef}
    (hv : flowRefs st a side nm = some ls) {i : Nat} {r : LinkRef}
    (hi : ls[i]? = some r) {pls : List LinkRef}
    (hpv : flowRefs st r.node side.flip r.name = some pls) {j : Nat}
    (hpj : pls[j]? = some (⟨a, nm⟩ : LinkRef)) :
    symFlowViews (removeFlowRefAt (removeFlowRefAt st a side nm i)
      r.node side.flip r.name j) := by
  have hndls : ls.Nodup := (hsf a side nm ls hv).1
  have hndpls : pls.Nodup := (hsf r.node side.flip r.name pls hpv).1
  have hK1 : flowRefs (removeFlowRefAt (removeFlowRefAt st a side nm i)
      r.node side.flip r.name j) a side nm = some (ls.eraseIdx i) := by
    rw [flowRefs_removeFlowRefAt_other _ r.node side.flip r.name j a side nm
      (Or.inr (Or.inl (fun hc => flowFlip_ne side hc.symm))),
      flowRefs_removeFlowRefAt_self, hv, Option.map_some']
  have hK2 : flowRefs (removeFlowRefAt (removeFlowRefAt st a side nm i)
      r.node side.flip r.name j) r.node side.flip r.name =
      some (pls.eraseIdx j) := by
    rw [flowRefs_removeFlowRefAt_self,
      flowRefs_removeFlowRefAt_other _ a side nm i r.node side.flip r.name
        (Or.inr (Or.inl (flowFlip_ne side))),
      hpv, Option.map_some']
  intro a2 s2 nm2 ls2 hv2
  by_cases hc2 : a2 = r.node ∧ s2 = side.flip ∧ nm2 = r.name
  · obtain ⟨rfl, rfl, rfl⟩ := hc2
    rw [hK2] at hv2
    injection hv2 with hv2
    subst hv2
    refine ⟨nodup_eraseIdx hndpls, ?_⟩
    intro y hy
    have hymem : y ∈ pls := mem_of_mem_eraseIdx hy
    have hyne : y ≠ (⟨a, nm⟩ : LinkRef) := by
      intro hc
      exact not_mem_eraseIdx_self hndpls hpj (hc ▸ hy)
    obtain ⟨qls, hq, hqm⟩ := (hsf r.node side.flip r.name pls hpv).2 y hymem
    rw [flowFlip_flip] at hq
    have hyd : y.node ≠ a ∨ y.name ≠ nm := by
      by_cases h1 : y.node = a
      · refine Or.inr (fun h2 => hyne ?_)
        rcases y with ⟨yn, ym⟩
        cases h1
        cases h2
        rfl
      · exact Or.inl h1
    have hq2 : flowRefs (removeFlowRefAt (removeFlowRefAt st a side nm i)
        r.node side.flip r.name j) y.node side y.name = some qls := by
      rw [flowRefs_removeFlowRefAt_other _ r.node side.flip r.name j y.node side
        y.name (Or.inr (Or.inl (fun hc => flowFlip_ne side hc.symm))),
        flowRefs_removeFlowRefAt_other _ a side nm i y.node side y.name ?_]
      · exact hq
      · rcases hyd with h | h
        · exact Or.inl h
        · exact Or.inr (Or.inr h)
    rw [flowFlip_flip]
    exact ⟨qls, hq2, hqm⟩
  · by_cases hc1 : a2 = a ∧ s2 = side ∧ nm2 = nm
    · obtain ⟨rfl, rfl, rfl⟩ := hc1
      rw [hK1] at hv2
      injection hv2 with hv2
      subst hv2
      refine ⟨nodup_eraseIdx hndls, ?_⟩
      intro y hy
      have hymem : y ∈ ls := mem_of_mem_eraseIdx hy
      have hyne : y ≠ r := by
        intro hc
        exact not_mem_eraseIdx_self hndls hi (hc ▸ hy)
      obtain ⟨qls, hq, hqm⟩ := (hsf a2 s2 nm2 ls hv).2 y hymem
      have hyd : y.node ≠ r.node ∨ y.name ≠ r.name := by
        by_cases h1 : y.node = r.node
        · refine Or.inr (fun h2 => hyne ?_)
          rcases y with ⟨yn, ym⟩
          rcases r with ⟨rn, rm⟩
          cases h1
          cases h2
          rfl
        · exact Or.inl h1
      have hq2 : flowRefs (removeFlowRefAt (removeFlowRefAt st a2 s2 nm2 i)
          r.node s2.flip r.name j) y.node s2.flip y.name = some qls := by
        rw [flowRefs_removeFlowRefAt_other _ r.node s2.flip r.name j y.node
          s2.flip y.name ?_,
          flowRefs_removeFlowRefAt_other _ a2 s2 nm2 i y.node s2.flip y.name
            (Or.inr (Or.inl (flowFlip_ne s2)))]
        · exact hq
        · rcases hyd with h | h
          · exact Or.inl h
          · exact Or.inr (Or.inr h)
      exact ⟨qls, hq2, hqm⟩
    · have hd2 : a2 ≠ r.node ∨ s2 ≠ side.flip ∨ nm2 ≠ r.name := by
        by_cases h1 : a2 = r.node
        · by_cases h2 : s2 = side.flip
          · by_cases h3 : nm2 = r.name
            · exact absurd ⟨h1, h2, h3⟩ hc2
            · exact Or.inr (Or.inr h3)
          · exact Or.inr (Or.inl h2)
        · exact Or.inl h1
      have hd1 : a2 ≠ a ∨ s2 ≠ side ∨ nm2 ≠ nm := by
        by_cases h1 : a2 = a
        · by_cases h2 : s2 = side
          · by_cases h3 : nm2 = nm
            · exact absurd ⟨h1, h2, h3⟩ hc1
            · exact Or.inr (Or.inr h3)
          · exact Or.inr (Or.inl h2)
        · exact Or.inl h1
      rw [flowRefs_removeFlowRefAt_other _ r.node side.flip r.name j a2 s2 nm2 hd2,
        flowRefs_removeFlowRefAt_other _ a side nm i a2 s2 nm2 hd1] at hv2
      obtain ⟨hnd2, hsym2⟩ := hsf a2 s2 nm2 ls2 hv2
      refine ⟨hnd2, ?_⟩
      intro y hy
      obtain ⟨qls, hq, hqm⟩ := hsym2 y hy
      by_cases hp1 : y.node = a ∧ s2.flip = side ∧ y.name = nm
      · obtain ⟨he1, he2, he3⟩ := hp1
        have hqls : qls = ls := by
          rw [he1, he2, he3, hv] at hq
          injection hq with h
          exact h.symm
        rw [hqls] at hqm
        have hne : (⟨a2, nm2⟩ : LinkRef) ≠ r := by
          intro hc
          have h1 : a2 = r.node := congrArg LinkRef.node hc
          have h2 : nm2 = r.name := congrArg LinkRef.name hc
          have h3 : s2 = side.flip := by
            have h4 := congrArg FlowSide.flip he2
            rwa [flowFlip_flip] at h4
          exact absurd ⟨h1, h3, h2⟩ hc2
        refine ⟨ls.eraseIdx i, by rw [he1, he2, he3]; exact hK1,
          mem_eraseIdx_of_ne hi hqm hne⟩
      · by_cases hp2 : y.node = r.node ∧ s2.flip = side.flip ∧ y.name = r.name
        · obtain ⟨he1, he2, he3⟩ := hp2
          have hqls : qls = pls := by
            rw [he1, he2, he3, hpv] at hq
            injection hq with h
            exact h.symm
          rw [hqls] at hqm
          have hne : (⟨a2, nm2⟩ : LinkRef) ≠ (⟨a, nm⟩ : LinkRef) := by
            intro hc
            have h1 : a2 = a := congrArg LinkRef.node hc
            have h2 : nm2 = nm := congrArg LinkRef.name hc
            have h3 : s2 = side := flowFlip_inj he2
            exact absurd ⟨h1, h3, h2⟩ hc1
          refine ⟨pls.eraseIdx j, by rw [he1, he2, he3]; exact hK2,
            mem_eraseIdx_of_ne hpj hqm hne⟩
        · have hd2y : y.node ≠ r.node ∨ s2.flip ≠ side.flip ∨ y.name ≠ r.name := by
            by_cases h1 : y.node = r.node
            · by_cases h2 : s2.flip = side.flip
              · by_cases h3 : y.name = r.name
                · exact absurd ⟨h1, h2, h3⟩ hp2
                · exact Or.inr (Or.inr h3)
              · exact Or.inr (Or.inl h2)
            · exact Or.inl h1
          have hd1y : y.node ≠ a ∨ s2.flip ≠ side ∨ y.name ≠ nm := by
            by_cases h1 : y.node = a
            · by_cases h2 : s2.flip = side
              · by_cases h3 : y.name = nm
                · exact absurd ⟨h1, h2, h3⟩ hp1
                · exact Or.inr (Or.inr h3)
              · exact Or.inr (Or.inl h2)
            · exact Or.inl h1
          refine ⟨qls, ?_, hqm⟩
          rw [flowRefs_removeFlowRefAt_other _ r.node side.flip r.name j y.node
            s2.flip y.name hd2y,
            flowRefs_removeFlowRefAt_other _ a side nm i y.node s2.flip y.name hd1y]
          exact hq

theorem linkRef_eta (r : LinkRef) : (⟨r.node, r.name⟩ : LinkRef) = r := rfl

theorem disconnectFlowLoop_preserves :
    ∀ (fuel : Nat) (side : FlowSide) (st : List Node) (a : Nat) (nm : String)
      (tN : Option Nat) (tL : Option String) (i : Nat),
    linkSym st →
    (∀ ls, flowRefs st a side nm = some ls →
      ls.length + 2 * totalRefs st + 12 ≤ fuel + i) →
    linkSym (disconnectFlowLoop fuel side st a nm tN tL i)
  | 0, side, st, a, nm, tN, tL, i, hws, hb => hws
  | fuel+1, side, st, a, nm, tN, tL, i, hws, hb => by
    rcases hv : flowRefs st a side nm with _ | ls
    · rw [disconnectFlowLoop_noview _ side st a nm tN tL i hv]
      exact hws
    · rw [disconnectFlowLoop, hv]
      dsimp only
      rcases hi : ls[i]? with _ | r
      · exact hws
      · dsimp only
        obtain ⟨hsf, hsp⟩ := hws
        have hib : i < ls.length := (List.getElem?_eq_some_iff.mp hi).1
        have hlsT : ls.length ≤ totalRefs st := flow_view_len_le hv
        by_cases hm : filterMatch tN tL r = true
        · rw [if_pos hm]
          have hndls : ls.Nodup := (hsf a side nm ls hv).1
          obtain ⟨pls, hpv, hpmem⟩ :=
            (hsf a side nm ls hv).2 r (List.getElem?_mem hi)
          have hndpls : pls.Nodup := (hsf r.node side.flip r.name pls hpv).1
          have hplsT : pls.length ≤ totalRefs st := flow_view_len_le hpv
          have hpv1 : flowRefs (removeFlowRefAt st a side nm i) r.node side.flip
              r.name = some pls := by
            rw [flowRefs_removeFlowRefAt_other _ a side nm i r.node side.flip
              r.name (Or.inr (Or.inl (flowFlip_ne side)))]
            exact hpv
          have hK1 : flowRefs (removeFlowRefAt st a side nm i) a side nm =
              some (ls.eraseIdx i) := by
            rw [flowRefs_removeFlowRefAt_self, hv, Option.map_some']
          have hals : ∀ als, flowRefs (removeFlowRefAt st a side nm i) a
              side.flip.flip nm = some als →
              (⟨r.node, r.name⟩ : LinkRef) ∉ als ∧
              als.length + pls.length + 5 ≤ fuel := by
            intro als hals2
            rw [flowFlip_flip] at hals2
            rw [hK1] at hals2
            injection hals2 with hals2
            subst hals2
            constructor
            · rw [linkRef_eta]
              exact not_mem_eraseIdx_self hndls hi
            · have := List.length_eraseIdx_le ls i
              have hbb := hb ls hv
              omega
          have hfb : pls.length + 4 ≤ fuel := by
            have hbb := hb ls hv
            omega
          obtain ⟨j, hpj, heq⟩ := disconnectFlowAux_single fuel side.flip
            (removeFlowRefAt st a side nm i) r.node r.name a nm pls hpv1 hndpls
            hpmem hals hfb
          rw [heq]
          have hsf2 := pairRemove_symFlow hsf hv hi hpv hpj
          have hsp2 : symPropViews (removeFlowRefAt (removeFlowRefAt st a side
              nm i) r.node side.flip r.name j) := by
            refine symPropViews_congr ?_ hsp
            intro c s2 n2
            rw [propRefs_removeFlowRefAt, propRefs_removeFlowRefAt]
          refine disconnectFlowLoop_preserves fuel side _ a nm tN tL i
            ⟨hsf2, hsp2⟩ ?_
          intro ls2 hv2
          have hK1b : flowRefs (removeFlowRefAt (removeFlowRefAt st a side nm i)
              r.node side.flip r.name j) a side nm = some (ls.eraseIdx i) := by
            rw [flowRefs_removeFlowRefAt_other _ r.node side.flip r.name j a side
              nm (Or.inr (Or.inl (fun hc => flowFlip_ne side hc.symm)))]
            exact hK1
          rw [hK1b] at hv2
          injection hv2 with hv2
          subst hv2
          have hT2 : totalRefs (removeFlowRefAt (removeFlowRefAt st a side nm i)
              r.node side.flip r.name j) ≤ totalRefs st :=
            (totalRefs_removeFlowRefAt_le _ _ _ _ _).trans
              (totalRefs_removeFlowRefAt_le _ _ _ _ _)
          have hlen : (ls.eraseIdx i).length = ls.length - 1 := by
            rw [List.length_eraseIdx, if_pos hib]
          have hbb := hb ls hv
          omega
        · rw [if_neg hm]
          refine disconnectFlowLoop_preserves fuel side st a nm tN tL (i+1)
            ⟨hsf, hsp⟩ ?_
          intro ls2 hv2
          rw [hv] at hv2
          injection hv2 with hv2
          subst hv2
          have hbb := hb ls hv
          omega

theorem disconnectFlowAux_preserves (fuel : Nat) (side : FlowSide)
    (st : List Node) (a : Nat) (nm : String) (tN : Option Nat)
    (tL : Option String) (hws : linkSym st)
    (hb : ∀ ls, flowRefs st a side nm = some ls →
      ls.length + 2 * totalRefs st + 13 ≤ fuel) :
    linkSym (disconnectFlowAux fuel side st a nm tN tL).2 := by
  cases fuel with
  | zero => exact hws
  | succ f =>
    rw [disconnectFlowAux]
    rcases hn : findNode st a with _ | n
    · exact hws
    · dsimp only
      rcases hl : findFlowLink (n.flowLinks side) nm with _ | l
      · exact hws
      · dsimp only
        have hv : flowRefs st a side nm = some l.links := by
          rw [flowRefs, hn]
          dsimp only
          rw [hl]
        refine disconnectFlowLoop_preserves f side st a nm tN tL 0 hws ?_
        intro ls2 hv2
        rw [hv] at hv2
        injection hv2 with hv2
        subst hv2
        have := hb l.links hv
        omega

theorem disconnectPropAux_nomatch (fuel : Nat) (side : PropSide) (st : List Node)
    (c : Nat) (nmc : String) (tN : Option Nat) (tL : Option String)
    (h : ∀ als, propRefs st c side nmc = some als →
      (∀ r ∈ als, filterMatch tN tL r = false) ∧ als.length + 2 ≤ fuel) :
    (disconnectPropAux fuel side st c nmc tN tL).2 = st := by
  cases fuel with
  | zero => rfl
  | succ f =>
    rw [disconnectPropAux]
    rcases hn : findNode st c with _ | n
    · rfl
    · dsimp only
      rcases hl : findNodeProp n.properties nmc with _ | l
      · rfl
      · dsimp only
        have hv : propRefs st c side nmc = some (l.propLinks side) := by
          rw [propRefs, hn]
          dsimp only
          rw [hl]
        obtain ⟨hnm, hb⟩ := h (l.propLinks side) hv
        refine disconnectPropLoop_nomatch f side st c nmc tN tL 0
          (l.propLinks side) hv ?_ ?_
        · intro r hr
          exact hnm r (by rw [List.drop_zero] at hr; exact hr)
        · omega

theorem disconnectPropLoop_single :
    ∀ (fuel : Nat) (side' : PropSide) (st : List Node) (b : Nat) (nm' : String)
      (a : Nat) (nm : String) (j : Nat) (pls : List LinkRef),
    propRefs st b side' nm' = some pls →
    pls.Nodup →
    (⟨a, nm⟩ : LinkRef) ∈ pls.drop j →
    (∀ als, propRefs st a side'.flip nm = some als →
      (⟨b, nm'⟩ : LinkRef) ∉ als ∧ als.length + pls.length + 4 ≤ fuel + j) →
    pls.length + 3 ≤ fuel + j →
    ∃ j', pls[j']? = some (⟨a, nm⟩ : LinkRef) ∧
      disconnectPropLoop fuel side' st b nm' (some a) (some nm) j =
        removePropRefAt st b side' nm' j'
  | 0, side', st, b, nm', a, nm, j, pls, hv, hnd, hmem, hals, hb => by
    exfalso
    have hj : j < pls.length := by
      by_contra hjc
      rw [List.drop_eq_nil_of_le (Nat.le_of_not_lt hjc)] at hmem
      cases hmem
    omega
  | fuel+1, side', st, b, nm', a, nm, j, pls, hv, hnd, hmem, hals, hb => by
    have hj : j < pls.length := by
      by_contra hjc
      rw [List.drop_eq_nil_of_le (Nat.le_of_not_lt hjc)] at hmem
      cases hmem
    rw [disconnectPropLoop, hv]
    dsimp only
    rcases hi : pls[j]? with _ | z
    · rw [List.getElem?_eq_getElem hj] at hi
      cases hi
    · dsimp only
      by_cases hz : z = (⟨a, nm⟩ : LinkRef)
      · subst hz
        rw [filterMatch_somesome_iff.mpr rfl, if_pos rfl]
        dsimp only
        refine ⟨j, hi, ?_⟩
        have hst2 : (disconnectPropAux fuel side'.flip
            (removePropRefAt st b side' nm' j) a nm
            (some b) (some nm')).2 = removePropRefAt st b side' nm' j := by
          refine disconnectPropAux_nomatch fuel side'.flip _ a nm
            (some b) (some nm') ?_
          intro als hals2
          rw [propRefs_removePropRefAt_other st b side' nm' j a side'.flip
            nm (Or.inr (Or.inl (propFlip_ne side')))] at hals2
          obtain ⟨hnotin, hlen⟩ := hals als hals2
          refine ⟨fun r hr => filterMatch_false_of_ne (fun hc => hnotin (hc ▸ hr)), ?_⟩
          omega
        rw [hst2]
        have hv2 : propRefs (removePropRefAt st b side' nm' j) b side' nm' =
            some (pls.eraseIdx j) := by
          rw [propRefs_removePropRefAt_self, hv, Option.map_some']
        refine disconnectPropLoop_nomatch fuel side' _ b nm' (some a)
          (some nm) j (pls.eraseIdx j) hv2 ?_ ?_
        · intro r hr
          refine filterMatch_false_of_ne ?_
          intro hc
          exact not_mem_eraseIdx_self hnd hi (hc ▸ List.mem_of_mem_drop hr)
        · have := List.length_eraseIdx_le pls j
          omega
      · have hfm : filterMatch (some a) (some nm) z = false :=
          filterMatch_false_of_ne hz
        rw [hfm, if_neg Bool.false_ne_true]
        obtain ⟨j', hj', heq⟩ := disconnectPropLoop_single fuel side' st b nm' a nm
          (j+1) pls hv hnd
          (mem_drop_succ_of_ne hi hmem (fun h => hz h.symm))
          (fun als hv2 => ⟨(hals als hv2).1, by have := (hals als hv2).2; omega⟩)
          (by omega)
        exact ⟨j', hj', heq⟩

theorem disconnectPropAux_single (fuel : Nat) (side' : PropSide) (st : List Node)
    (b : Nat) (nm' : String) (a : Nat) (nm : String) (pls : List LinkRef)
    (hv : propRefs st b side' nm' = some pls) (hnd : pls.Nodup)
    (hmem : (⟨a, nm⟩ : LinkRef) ∈ pls)
    (hals : ∀ als, propRefs st a side'.flip nm = some als →
      (⟨b, nm'⟩ : LinkRef) ∉ als ∧ als.length + pls.length + 5 ≤ fuel)
    (hb : pls.length + 4 ≤ fuel) :
    ∃ j', pls[j']? = some (⟨a, nm⟩ : LinkRef) ∧
      (disconnectPropAux fuel side' st b nm' (some a) (some nm)).2 =
        removePropRefAt st b side' nm' j' := by
  cases fuel with
  | zero => omega
  | succ f =>
    obtain ⟨n, l, hn, hl, hls, hname⟩ := propRefs_some_elim hv
    rw [disconnectPropAux, hn]
    dsimp only
    rw [hl]
    dsimp only
    refine disconnectPropLoop_single f side' st b nm' a nm 0 pls hv hnd
      (by rw [List.drop_zero]; exact hmem)
      (fun als hv2 => ⟨(hals als hv2).1, by have := (hals als hv2).2; omega⟩)
      (by omega)

theorem pairRemove_symProp {st : List Node} (hsf : symPropViews st)
    {a : Nat} {side : PropSide} {nm : String} {ls : List LinkRef}
    (hv : propRefs st a side nm = some ls) {i : Nat} {r : LinkRef}
    (hi : ls[i]? = some r) {pls : List LinkRef}
    (hpv : propRefs st r.node side.flip r.name = some pls) {j : Nat}
    (hpj : pls[j]? = some (⟨a, nm⟩ : LinkRef)) :
    symPropViews (removePropRefAt (removePropRefAt st a side nm i)
      r.node side.flip r.name j) := by
  have hndls : ls.Nodup := (hsf a side nm ls hv).1
  have hndpls : pls.Nodup := (hsf r.node side.flip r.name pls hpv).1
  have hK1 : propRefs (removePropRefAt (removePropRefAt st a side nm i)
      r.node side.flip r.name j) a side nm = some (ls.eraseIdx i) := by
    rw [propRefs_removePropRefAt_other _ r.node side.flip r.name j a side nm
      (Or.inr (Or.inl (fun hc => propFlip_ne side hc.symm))),
      propRefs_removePropRefAt_self, hv, Option.map_some']
  have hK2 : propRefs (removePropRefAt (removePropRefAt st a side nm i)
      r.node side.flip r.name j) r.node side.flip r.name =
      some (pls.eraseIdx j) := by
    rw [propRefs_removePropRefAt_self,
      propRefs_removePropRefAt_other _ a side nm i r.node side.flip r.name
        (Or.inr (Or.inl (propFlip_ne side))),
      hpv, Option.map_some']
  intro a2 s2 nm2 ls2 hv2
  by_cases hc2 : a2 = r.node ∧ s2 = side.flip ∧ nm2 = r.name
  · obtain ⟨rfl, rfl, rfl⟩ := hc2
    rw [hK2] at hv2
    injection hv2 with hv2
    subst hv2
    refine ⟨nodup_eraseIdx hndpls, ?_⟩
    intro y hy
    have hymem : y ∈ pls := mem_of_mem_eraseIdx hy
    have hyne : y ≠ (⟨a, nm⟩ : LinkRef) := by
      intro hc
      exact not_mem_eraseIdx_self hndpls hpj (hc ▸ hy)
    obtain ⟨qls, hq, hqm⟩ := (hsf r.node side.flip r.name pls hpv).2 y hymem
    rw [propFlip_flip] at hq
    have hyd : y.node ≠ a ∨ y.name ≠ nm := by
      by_cases h1 : y.node = a
      · refine Or.inr (fun h2 => hyne ?_)
        rcases y with ⟨yn, ym⟩
        cases h1
        cases h2
        rfl
      · exact Or.inl h1
    have hq2 : propRefs (removePropRefAt (removePropRefAt st a side nm i)
        r.node side.flip r.name j) y.node side y.name = some qls := by
      rw [propRefs_removePropRefAt_other _ r.node side.flip r.name j y.node side
        y.name (Or.inr (Or.inl (fun hc => propFlip_ne side hc.symm))),
        propRefs_removePropRefAt_other _ a side nm i y.node side y.name ?_]
      · exact hq
      · rcases hyd with h | h
        · exact Or.inl h
        · exact Or.inr (Or.inr h)
    rw [propFlip_flip]
    exact ⟨qls, hq2, hqm⟩
  · by_cases hc1 : a2 = a ∧ s2 = side ∧ nm2 = nm
    · obtain ⟨rfl, rfl, rfl⟩ := hc1
      rw [hK1] at hv2
      injection hv2 with hv2
      subst hv2
      refine ⟨nodup_eraseIdx hndls, ?_⟩
      intro y hy
      have hymem : y ∈ ls := mem_of_mem_eraseIdx hy
      have hyne : y ≠ r := by
        intro hc
        exact not_mem_eraseIdx_self hndls hi (hc ▸ hy)
      obtain ⟨qls, hq, hqm⟩ := (hsf a2 s2 nm2 ls hv).2 y hymem
      have hyd : y.node ≠ r.node ∨ y.name ≠ r.name := by
        by_cases h1 : y.node = r.node
        · refine Or.inr (fun h2 => hyne ?_)
          rcases y with ⟨yn, ym⟩
          rcases r with ⟨rn, rm⟩
          cases h1
          cases h2
          rfl
        · exact Or.inl h1
      have hq2 : propRefs (removePropRefAt (removePropRefAt st a2 s2 nm2 i)
          r.node s2.flip r.name j) y.node s2.flip y.name = some qls := by
        rw [propRefs_removePropRefAt_other _ r.node s2.flip r.name j y.node
          s2.flip y.name ?_,
          propRefs_removePropRefAt_other _ a2 s2 nm2 i y.node s2.flip y.name
            (Or.inr (Or.inl (propFlip_ne s2)))]
        · exact hq
        · rcases hyd with h | h
          · exact Or.inl h
          · exact Or.inr (Or.inr h)
      exact ⟨qls, hq2, hqm⟩
    · have hd2 : a2 ≠ r.node ∨ s2 ≠ side.flip ∨ nm2 ≠ r.name := by
        by_cases h1 : a2 = r.node
        · by_cases h2 : s2 = side.flip
          · by_cases h3 : nm2 = r.name
            · exact absurd ⟨h1, h2, h3⟩ hc2
            · exact Or.inr (Or.inr h3)
          · exact Or.inr (Or.inl h2)
        · exact Or.inl h1
      have hd1 : a2 ≠ a ∨ s2 ≠ side ∨ nm2 ≠ nm := by
        by_cases h1 : a2 = a
        · by_cases h2 : s2 = side
          · by_cases h3 : nm2 = nm
            · exact absurd ⟨h1, h2, h3⟩ hc1
            · exact Or.inr (Or.inr h3)
          · exact Or.inr (Or.inl h2)
        · exact Or.inl h1
      rw [propRefs_removePropRefAt_other _ r.node side.flip r.name j a2 s2 nm2 hd2,
        propRefs_removePropRefAt_other _ a side nm i a2 s2 nm2 hd1] at hv2
      obtain ⟨hnd2, hsym2⟩ := hsf a2 s2 nm2 ls2 hv2
      refine ⟨hnd2, ?_⟩
      intro y hy
      obtain ⟨qls, hq, hqm⟩ := hsym2 y hy
      by_cases hp1 : y.node = a ∧ s2.flip = side ∧ y.name = nm
      · obtain ⟨he1, he2, he3⟩ := hp1
        have hqls : qls = ls := by
          rw [he1, he2, he3, hv] at hq
          injection hq with h
          exact h.symm
        rw [hqls] at hqm
        have hne : (⟨a2, nm2⟩ : LinkRef) ≠ r := by
          intro hc
          have h1 : a2 = r.node := congrArg LinkRef.node hc
          have h2 : nm2 = r.name := congrArg LinkRef.name hc
          have h3 : s2 = side.flip := by
            have h4 := congrArg PropSide.flip he2
            rwa [propFlip_flip] at h4
          exact absurd ⟨h1, h3, h2⟩ hc2
        refine ⟨ls.eraseIdx i, by rw [he1, he2, he3]; exact hK1,
          mem_eraseIdx_of_ne hi hqm hne⟩
      · by_cases hp2 : y.node = r.node ∧ s2.flip = side.flip ∧ y.name = r.name
        · obtain ⟨he1, he2, he3⟩ := hp2
          have hqls : qls = pls := by
            rw [he1, he2, he3, hpv] at hq
            injection hq with h
            exact h.symm
          rw [hqls] at hqm
          have hne : (⟨a2, nm2⟩ : LinkRef) ≠ (⟨a, nm⟩ : LinkRef) := by
            intro hc
            have h1 : a2 = a := congrArg LinkRef.node hc
            have h2 : nm2 = nm := congrArg LinkRef.name hc
            have h3 : s2 = side := propFlip_inj he2
            exact absurd ⟨h1, h3, h2⟩ hc1
          refine ⟨pls.eraseIdx j, by rw [he1, he2, he3]; exact hK2,
            mem_eraseIdx_of_ne hpj hqm hne⟩
        · have hd2y : y.node ≠ r.node ∨ s2.flip ≠ side.flip ∨ y.name ≠ r.name := by
            by_cases h1 : y.node = r.node
            · by_cases h2 : s2.flip = side.flip
              · by_cases h3 : y.name = r.name
                · exact absurd ⟨h1, h2, h3⟩ hp2
                · exact Or.inr (Or.inr h3)
              · exact Or.inr (Or.inl h2)
            · exact Or.inl h1
          have hd1y : y.node ≠ a ∨ s2.flip ≠ side ∨ y.name ≠ nm := by
            by_cases h1 : y.node = a
            · by_cases h2 : s2.flip = side
              · by_cases h3 : y.name = nm
                · exact absurd ⟨h1, h2, h3⟩ hp1
                · exact Or.inr (Or.inr h3)
              · exact Or.inr (Or.inl h2)
            · exact Or.inl h1
          refine ⟨qls, ?_, hqm⟩
          rw [propRefs_removePropRefAt_other _ r.node side.flip r.name j y.node
            s2.flip y.name hd2y,
            propRefs_removePropRefAt_other _ a side nm i y.node s2.flip y.name hd1y]
          exact hq

theorem disconnectPropLoop_preserves :
    ∀ (fuel : Nat) (side : PropSide) (st : List Node) (a : Nat) (nm : String)
      (tN : Option Nat) (tL : Option String) (i : Nat),
    linkSym st →
    (∀ ls, propRefs st a side nm = some ls →
      ls.length + 2 * totalRefs st + 12 ≤ fuel + i) →
    linkSym (disconnectPropLoop fuel side st a nm tN tL i)
  | 0, side, st, a, nm, tN, tL, i, hws, hb => hws
  | fuel+1, side, st, a, nm, tN, tL, i, hws, hb => by
    rcases hv : propRefs st a side nm with _ | ls
    · rw [disconnectPropLoop_noview _ side st a nm tN tL i hv]
      exact hws
    · rw [disconnectPropLoop, hv]
      dsimp only
      rcases hi : ls[i]? with _ | r
      · exact hws
      · dsimp only
        obtain ⟨hsp, hsf⟩ := hws
        have hib : i < ls.length := (List.getElem?_eq_some_iff.mp hi).1
        have hlsT : ls.length ≤ totalRefs st := prop_view_len_le hv
        by_cases hm : filterMatch tN tL r = true
        · rw [if_pos hm]
          have hndls : ls.Nodup := (hsf a side nm ls hv).1
          obtain ⟨pls, hpv, hpmem⟩ :=
            (hsf a side nm ls hv).2 r (List.getElem?_mem hi)
          have hndpls : pls.Nodup := (hsf r.node side.flip r.name pls hpv).1
          have hplsT : pls.length ≤ totalRefs st := prop_view_len_le hpv
          have hpv1 : propRefs (removePropRefAt st a side nm i) r.node side.flip
              r.name = some pls := by
            rw [propRefs_removePropRefAt_other _ a side nm i r.node side.flip
              r.name (Or.inr (Or.inl (propFlip_ne side)))]
            exact hpv
          have hK1 : propRefs (removePropRefAt st a side nm i) a side nm =
              some (ls.eraseIdx i) := by
            rw [propRefs_removePropRefAt_self, hv, Option.map_some']
          have hals : ∀ als, propRefs (removePropRefAt st a side nm i) a
              side.flip.flip nm = some als →
              (⟨r.node, r.name⟩ : LinkRef) ∉ als ∧
              als.length + pls.length + 5 ≤ fuel := by
            intro als hals2
            rw [propFlip_flip] at hals2
            rw [hK1] at hals2
            injection hals2 with hals2
            subst hals2
            constructor
            · rw [linkRef_eta]
              exact not_mem_eraseIdx_self hndls hi
            · have := List.length_eraseIdx_le ls i
              have hbb := hb ls hv
              omega
          have hfb : pls.length + 4 ≤ fuel := by
            have hbb := hb ls hv
            omega
          obtain ⟨j, hpj, heq⟩ := disconnectPropAux_single fuel side.flip
            (removePropRefAt st a side nm i) r.node r.name a nm pls hpv1 hndpls
            hpmem hals hfb
          rw [heq]
          have hsf2 := pairRemove_symProp hsf hv hi hpv hpj
          have hsp2 : symFlowViews (removePropRefAt (removePropRefAt st a side
              nm i) r.node side.flip r.name j) := by
            refine symFlowViews_congr ?_ hsp
            intro c s2 n2
            rw [flowRefs_removePropRefAt, flowRefs_removePropRefAt]
          refine disconnectPropLoop_preserves fuel side _ a nm tN tL i
            ⟨hsp2, hsf2⟩ ?_
          intro ls2 hv2
          have hK1b : propRefs (removePropRefAt (removePropRefAt st a side nm i)
              r.node side.flip r.name j) a side nm = some (ls.eraseIdx i) := by
            rw [propRefs_removePropRefAt_other _ r.node side.flip r.name j a side
              nm (Or.inr (Or.inl (fun hc => propFlip_ne side hc.symm)))]
            exact hK1
          rw [hK1b] at hv2
          injection hv2 with hv2
          subst hv2
          have hT2 : totalRefs (removePropRefAt (removePropRefAt st a side nm i)
              r.node side.flip r.name j) ≤ totalRefs st :=
            (totalRefs_removePropRefAt_le _ _ _ _ _).trans
              (totalRefs_removePropRefAt_le _ _ _ _ _)
          have hlen : (ls.eraseIdx i).length = ls.length - 1 := by
            rw [List.length_eraseIdx, if_pos hib]
          have hbb := hb ls hv
          omega
        · rw [if_neg hm]
          refine disconnectPropLoop_preserves fuel side st a nm tN tL (i+1)
            ⟨hsp, hsf⟩ ?_
          intro ls2 hv2
          rw [hv] at hv2
          injection hv2 with hv2
          subst hv2
          have hbb := hb ls hv
          omega

theorem disconnectPropAux_preserves (fuel : Nat) (side : PropSide)
    (st : List Node) (a : Nat) (nm : String) (tN : Option Nat)
    (tL : Option String) (hws : linkSym st)
    (hb : ∀ ls, propRefs st a side nm = some ls →
      ls.length + 2 * totalRefs st + 13 ≤ fuel) :
    linkSym (disconnectPropAux fuel side st a nm tN tL).2 := by
  cases fuel with
  | zero => exact hws
  | succ f =>
    rw [disconnectPropAux]
    rcases hn : findNode st a with _ | n
    · exact hws
    · dsimp only
      rcases hl : findNodeProp n.properties nm with _ | l
      · exact hws
      · dsimp only
        have hv : propRefs st a side nm = some (l.propLinks side) := by
          rw [propRefs, hn]
          dsimp only
          rw [hl]
        refine disconnectPropLoop_preserves f side st a nm tN tL 0 hws ?_
        intro ls2 hv2
        rw [hv] at hv2
        injection hv2 with hv2
        subst hv2
        have := hb (l.propLinks side) hv
        omega

theorem hasRef_false_not_mem {ls : List LinkRef} {nid : Nat} {nm : String}
    (h : hasRef ls nid nm = false) : (⟨nid, nm⟩ : LinkRef) ∉ ls := by
  intro hm
  rw [hasRef, List.any_eq_false] at h
  have := h _ hm
  simp at this

theorem nodup_append_singleton {α : Type} :
    ∀ {xs : List α} {x : α}, xs.Nodup → x ∉ xs → (xs ++ [x]).Nodup
  | [], x, _, _ => List.nodup_singleton x
  | a :: rest, x, hnd, hx => by
    rw [List.cons_append, List.nodup_cons]
    refine ⟨?_, nodup_append_singleton (List.nodup_cons.mp hnd).2
      (fun hc => hx (List.mem_cons_of_mem a hc))⟩
    intro hmem
    rcases List.mem_append.mp hmem with h | h
    · exact (List.nodup_cons.mp hnd).1 h
    · have hax : a = x := List.mem_singleton.mp h
      subst hax
      exact hx (List.mem_cons_self a rest)

theorem pairAdd_symFlow {st : List Node} (hsf : symFlowViews st) (a : Nat)
    (side : FlowSide) (n m : String) (b : Nat)
    {mls tls : List LinkRef}
    (hva : flowRefs st a side n = some mls)
    (hvb : flowRefs st b side.flip m = some tls)
    (h1 : (⟨b, m⟩ : LinkRef) ∉ mls) (h2 : (⟨a, n⟩ : LinkRef) ∉ tls) :
    symFlowViews (updateNode (updateNode st a
      (fun nd => nd.setFlowLinks side (modifyFlowLink (nd.flowLinks side) n
        fun l => { l with links := l.links ++ [⟨b, m⟩] }))) b
      (fun nd => nd.setFlowLinks side.flip (modifyFlowLink (nd.flowLinks side.flip) m
        fun l => { l with links := l.links ++ [⟨a, n⟩] }))) := by
  have hndm : mls.Nodup := (hsf a side n mls hva).1
  have hndt : tls.Nodup := (hsf b side.flip m tls hvb).1
  have hE1self : flowRefs (updateNode st a
      (fun nd => nd.setFlowLinks side (modifyFlowLink (nd.flowLinks side) n
        fun l => { l with links := l.links ++ [⟨b, m⟩] }))) a side n =
      some (mls ++ [⟨b, m⟩]) := by
    rw [flowRefs_flowEdit_self st a side n
      (fun l => { l with links := l.links ++ [⟨b, m⟩] }) (fun ls => ls ++ [⟨b, m⟩])
      (fun l => rfl) (fun l => rfl), hva, Option.map_some']
  have hE1other : ∀ (c : Nat) (s2 : FlowSide) (nm2 : String),
      c ≠ a ∨ s2 ≠ side ∨ nm2 ≠ n →
      flowRefs (updateNode st a
        (fun nd => nd.setFlowLinks side (modifyFlowLink (nd.flowLinks side) n
          fun l => { l with links := l.links ++ [⟨b, m⟩] }))) c s2 nm2 =
      flowRefs st c s2 nm2 := by
    intro c s2 nm2 hkey
    rw [flowRefs_flowEdit_other st a side n
      (fun l => { l with links := l.links ++ [⟨b, m⟩] }) (fun l => rfl) c s2 nm2 hkey]
  have hV1 : flowRefs (updateNode (updateNode st a
      (fun nd => nd.setFlowLinks side (modifyFlowLink (nd.flowLinks side) n
        fun l => { l with links := l.links ++ [⟨b, m⟩] }))) b
      (fun nd => nd.setFlowLinks side.flip (modifyFlowLink (nd.flowLinks side.flip) m
        fun l => { l with links := l.links ++ [⟨a, n⟩] }))) a side n =
      some (mls ++ [⟨b, m⟩]) := by
    rw [flowRefs_flowEdit_other _ b side.flip m
      (fun l => { l with links := l.links ++ [⟨a, n⟩] }) (fun l => rfl) a side n
      (Or.inr (Or.inl (fun hc => flowFlip_ne side hc.symm)))]
    exact hE1self
  have hV2 : flowRefs (updateNode (updateNode st a
      (fun nd => nd.setFlowLinks side (modifyFlowLink (nd.flowLinks side) n
        fun l => { l with links := l.links ++ [⟨b, m⟩] }))) b
      (fun nd => nd.setFlowLinks side.flip (modifyFlowLink (nd.flowLinks side.flip) m
        fun l => { l with links := l.links ++ [⟨a, n⟩] }))) b side.flip m =
      some (tls ++ [⟨a, n⟩]) := by
    rw [flowRefs_flowEdit_self _ b side.flip m
      (fun l => { l with links := l.links ++ [⟨a, n⟩] }) (fun ls => ls ++ [⟨a, n⟩])
      (fun l => rfl) (fun l => rfl),
      hE1other b side.flip m (Or.inr (Or.inl (flowFlip_ne side))), hvb,
      Option.map_some']
  have hVother : ∀ (c : Nat) (s2 : FlowSide) (nm2 : String),
      (c ≠ a ∨ s2 ≠ side ∨ nm2 ≠ n) → (c ≠ b ∨ s2 ≠ side.flip ∨ nm2 ≠ m) →
      flowRefs (updateNode (updateNode st a
        (fun nd => nd.setFlowLinks side (modifyFlowLink (nd.flowLinks side) n
          fun l => { l with links := l.links ++ [⟨b, m⟩] }))) b
        (fun nd => nd.setFlowLinks side.flip (modifyFlowLink (nd.flowLinks side.flip) m
          fun l => { l with links := l.links ++ [⟨a, n⟩] }))) c s2 nm2 =
      flowRefs st c s2 nm2 := by
    intro c s2 nm2 hk1 hk2
    rw [flowRefs_flowEdit_other _ b side.flip m
      (fun l => { l with links := l.links ++ [⟨a, n⟩] }) (fun l => rfl) c s2 nm2 hk2]
    exact hE1other c s2 nm2 hk1
  intro a2 s2 nm2 ls2 hv2
  by_cases hc1 : a2 = a ∧ s2 = side ∧ nm2 = n
  · obtain ⟨rfl, rfl, rfl⟩ := hc1
    rw [hV1] at hv2
    injection hv2 with hv2
    subst hv2
    refine ⟨nodup_append_singleton hndm h1, ?_⟩
    intro y hy
    rcases List.mem_append.mp hy with hy | hy
    · obtain ⟨qls, hq, hqm⟩ := (hsf a2 s2 nm2 mls hva).2 y hy
      by_cases hp2 : y.node = b ∧ y.name = m
      · obtain ⟨he1, he3⟩ := hp2
        have hqls : qls = tls := by
          rw [he1, he3, hvb] at hq
          injection hq with h
          exact h.symm
        rw [hqls] at hqm
        refine ⟨tls ++ [⟨a2, nm2⟩], by rw [he1, he3]; exact hV2,
          List.mem_append_left _ hqm⟩
      · have hd : y.node ≠ b ∨ s2.flip ≠ s2.flip ∨ y.name ≠ m := by
          by_cases hx1 : y.node = b
          · by_cases hx3 : y.name = m
            · exact absurd ⟨hx1, hx3⟩ hp2
            · exact Or.inr (Or.inr hx3)
          · exact Or.inl hx1
        refine ⟨qls, ?_, hqm⟩
        rw [hVother y.node s2.flip y.name (Or.inr (Or.inl (flowFlip_ne s2))) hd]
        exact hq
    · have hyx2 : y = (⟨b, m⟩ : LinkRef) := List.mem_singleton.mp hy
      subst hyx2
      refine ⟨tls ++ [⟨a2, nm2⟩], hV2, List.mem_append_right _ ?_⟩
      exact List.mem_singleton.mpr rfl
  · by_cases hc2 : a2 = b ∧ s2 = side.flip ∧ nm2 = m
    · obtain ⟨rfl, rfl, rfl⟩ := hc2
      rw [hV2] at hv2
      injection hv2 with hv2
      subst hv2
      refine ⟨nodup_append_singleton hndt h2, ?_⟩
      intro y hy
      rcases List.mem_append.mp hy with hy | hy
      · obtain ⟨qls, hq, hqm⟩ := (hsf a2 side.flip nm2 tls hvb).2 y hy
        rw [flowFlip_flip] at hq
        by_cases hp1 : y.node = a ∧ y.name = n
        · obtain ⟨he1, he3⟩ := hp1
          have hqls : qls = mls := by
            rw [he1, he3, hva] at hq
            injection hq with h
            exact h.symm
          rw [hqls] at hqm
          rw [flowFlip_flip]
          refine ⟨mls ++ [⟨a2, nm2⟩], by rw [he1, he3]; exact hV1,
            List.mem_append_left _ hqm⟩
        · have hd : y.node ≠ a ∨ side ≠ side ∨ y.name ≠ n := by
            by_cases hx1 : y.node = a
            · by_cases hx3 : y.name = n
              · exact absurd ⟨hx1, hx3⟩ hp1
              · exact Or.inr (Or.inr hx3)
            · exact Or.inl hx1
          rw [flowFlip_flip]
          refine ⟨qls, ?_, hqm⟩
          rw [hVother y.node side y.name hd
            (Or.inr (Or.inl (fun hc => flowFlip_ne side hc.symm)))]
          exact hq
      · have hyx2 : y = (⟨a, n⟩ : LinkRef) := List.mem_singleton.mp hy
        subst hyx2
        rw [flowFlip_flip]
        refine ⟨mls ++ [⟨a2, nm2⟩], hV1, List.mem_append_right _ ?_⟩
        exact List.mem_singleton.mpr rfl
    · have hd1 : a2 ≠ a ∨ s2 ≠ side ∨ nm2 ≠ n := by
        by_cases h1' : a2 = a
        · by_cases h2' : s2 = side
          · by_cases h3' : nm2 = n
            · exact absurd ⟨h1', h2', h3'⟩ hc1
            · exact Or.inr (Or.inr h3')
          · exact Or.inr (Or.inl h2')
        · exact Or.inl h1'
      have hd2 : a2 ≠ b ∨ s2 ≠ side.flip ∨ nm2 ≠ m := by
        by_cases h1' : a2 = b
        · by_cases h2' : s2 = side.flip
          · by_cases h3' : nm2 = m
            · exact absurd ⟨h1', h2', h3'⟩ hc2
            · exact Or.inr (Or.inr h3')
          · exact Or.inr (Or.inl h2')
        · exact Or.inl h1'
      rw [hVother a2 s2 nm2 hd1 hd2] at hv2
      obtain ⟨hnd2, hsym2⟩ := hsf a2 s2 nm2 ls2 hv2
      refine ⟨hnd2, ?_⟩
      intro y hy
      obtain ⟨qls, hq, hqm⟩ := hsym2 y hy
      by_cases hp1 : y.node = a ∧ s2.flip = side ∧ y.name = n
      · obtain ⟨he1, he2, he3⟩ := hp1
        have hqls : qls = mls := by
          rw [he1, he2, he3, hva] at hq
          injection hq with h
          exact h.symm
        rw [hqls] at hqm
        refine ⟨mls ++ [⟨b, m⟩], by rw [he1, he2, he3]; exact hV1,
          List.mem_append_left _ hqm⟩
      · by_cases hp2 : y.node = b ∧ s2.flip = side.flip ∧ y.name = m
        · obtain ⟨he1, he2, he3⟩ := hp2
          have hqls : qls = tls := by
            rw [he1, he2, he3, hvb] at hq
            injection hq with h
            exact h.symm
          rw [hqls] at hqm
          refine ⟨tls ++ [⟨a, n⟩], by rw [he1, he2, he3]; exact hV2,
            List.mem_append_left _ hqm⟩
        · have hd1y : y.node ≠ a ∨ s2.flip ≠ side ∨ y.name ≠ n := by
            by_cases hx1 : y.node = a
            · by_cases hx2 : s2.flip = side
              · by_cases hx3 : y.name = n
                · exact absurd ⟨hx1, hx2, hx3⟩ hp1
                · exact Or.inr (Or.inr hx3)
              · exact Or.inr (Or.inl hx2)
            · exact Or.inl hx1
          have hd2y : y.node ≠ b ∨ s2.flip ≠ side.flip ∨ y.name ≠ m := by
            by_cases hx1 : y.node = b
            · by_cases hx2 : s2.flip = side.flip
              · by_cases hx3 : y.name = m
                · exact absurd ⟨hx1, hx2, hx3⟩ hp2
                · exact Or.inr (Or.inr hx3)
              · exact Or.inr (Or.inl hx2)
            · exact Or.inl hx1
          refine ⟨qls, ?_, hqm⟩
          rw [hVother y.node s2.flip y.name hd1y hd2y]
          exact hq

theorem connectFlow_preserves (side : FlowSide) (st : List Node) (a : Nat)
    (n : String) (b : Nat) (m : String) (hws : linkSym st) :
    linkSym (connectFlow side st a n b m).2 := by
  obtain ⟨hsf, hsp⟩ := hws
  rw [connectFlow]
  rcases hA : findNode st a with _ | self <;>
    rcases hB : findNode st b with _ | target <;>
    try exact ⟨hsf, hsp⟩
  dsimp only
  rcases hL : findFlowLink (self.flowLinks side) n with _ | myLink <;>
    rcases hT : findFlowLink (target.flowLinks side.flip) m with _ | targetLink <;>
    try exact ⟨hsf, hsp⟩
  dsimp only
  by_cases h1 : hasRef myLink.links b targetLink.name = true
  · rw [if_pos h1]
    exact ⟨hsf, hsp⟩
  · rw [if_neg h1]
    by_cases h2 : hasRef targetLink.links a myLink.name = true
    · rw [if_pos h2]
      exact ⟨hsf, hsp⟩
    · rw [if_neg h2]
      dsimp only
      have hnL : myLink.name = n := findFlowLink_name hL
      have hnT : targetLink.name = m := findFlowLink_name hT
      have hva : flowRefs st a side n = some myLink.links := by
        rw [flowRefs, hA]
        dsimp only
        rw [hL]
      have hvb : flowRefs st b side.flip m = some targetLink.links := by
        rw [flowRefs, hB]
        dsimp only
        rw [hT]
      have h1' : (⟨b, m⟩ : LinkRef) ∉ myLink.links := by
        rw [← hnT]
        exact hasRef_false_not_mem (Bool.eq_false_iff.mpr h1)
      have h2' : (⟨a, n⟩ : LinkRef) ∉ targetLink.links := by
        rw [← hnL]
        exact hasRef_false_not_mem (Bool.eq_false_iff.mpr h2)
      rw [hnT, hnL]
      constructor
      · exact pairAdd_symFlow hsf a side n m b hva hvb h1' h2'
      · refine symPropViews_congr ?_ hsp
        intro c s2 n2
        rw [propRefs_flowEdit _ b side.flip m
          (fun l => { l with links := l.links ++ [⟨a, n⟩] }) c s2 n2,
          propRefs_flowEdit st a side n
          (fun l => { l with links := l.links ++ [⟨b, m⟩] }) c s2 n2]

theorem pairAdd_symProp {st : List Node} (hsp : symPropViews st) (a : Nat)
    (side : PropSide) (n m : String) (b : Nat)
    {mls tls : List LinkRef}
    (hva : propRefs st a side n = some mls)
    (hvb : propRefs st b side.flip m = some tls)
    (h1 : (⟨b, m⟩ : LinkRef) ∉ mls) (h2 : (⟨a, n⟩ : LinkRef) ∉ tls) :
    symPropViews (updateNode (updateNode st a
      (fun nd => { nd with properties := modifyNodeProp nd.properties n (fun p => p.setPropLinks side (p.propLinks side ++ [⟨b, m⟩])) })) b
      (fun nd => { nd with properties := modifyNodeProp nd.properties m (fun p => p.setPropLinks side.flip (p.propLinks side.flip ++ [⟨a, n⟩])) })) := by
  have hndm : mls.Nodup := (hsp a side n mls hva).1
  have hndt : tls.Nodup := (hsp b side.flip m tls hvb).1
  have hE1self : propRefs (updateNode st a
      (fun nd => { nd with properties := modifyNodeProp nd.properties n (fun p => p.setPropLinks side (p.propLinks side ++ [⟨b, m⟩])) })) a side n =
      some (mls ++ [⟨b, m⟩]) := by
    rw [propRefs_propEdit_self st a side n
      (fun p => p.setPropLinks side (p.propLinks side ++ [(⟨b, m⟩ : LinkRef)]))
      (fun ls => ls ++ [(⟨b, m⟩ : LinkRef)]) (fun p => setPropLinks_name p side _)
      (fun p => propLinks_set_same p side _), hva, Option.map_some']
  have hE1other : ∀ (c : Nat) (s2 : PropSide) (nm2 : String),
      c ≠ a ∨ s2 ≠ side ∨ nm2 ≠ n →
      propRefs (updateNode st a
        (fun nd => { nd with properties := modifyNodeProp nd.properties n (fun p => p.setPropLinks side (p.propLinks side ++ [⟨b, m⟩])) })) c s2 nm2 =
      propRefs st c s2 nm2 := by
    intro c s2 nm2 hkey
    rw [propRefs_propEdit_other st a side n
      (fun p => p.setPropLinks side (p.propLinks side ++ [(⟨b, m⟩ : LinkRef)]))
      (fun p => setPropLinks_name p side _) (fun p => propLinks_set_flip p side _)
      c s2 nm2 hkey]
  have hV1 : propRefs (updateNode (updateNode st a
      (fun nd => { nd with properties := modifyNodeProp nd.properties n (fun p => p.setPropLinks side (p.propLinks side ++ [⟨b, m⟩])) })) b
      (fun nd => { nd with properties := modifyNodeProp nd.properties m (fun p => p.setPropLinks side.flip (p.propLinks side.flip ++ [⟨a, n⟩])) })) a side n =
      some (mls ++ [⟨b, m⟩]) := by
    rw [propRefs_propEdit_other _ b side.flip m
      (fun p => p.setPropLinks side.flip (p.propLinks side.flip ++ [(⟨a, n⟩ : LinkRef)]))
      (fun p => setPropLinks_name p side.flip _)
      (fun p => propLinks_set_flip p side.flip _) a side n
      (Or.inr (Or.inl (fun hc => propFlip_ne side hc.symm)))]
    exact hE1self
  have hV2 : propRefs (updateNode (updateNode st a
      (fun nd => { nd with properties := modifyNodeProp nd.properties n (fun p => p.setPropLinks side (p.propLinks side ++ [⟨b, m⟩])) })) b
      (fun nd => { nd with properties := modifyNodeProp nd.properties m (fun p => p.setPropLinks side.flip (p.propLinks side.flip ++ [⟨a, n⟩])) })) b side.flip m =
      some (tls ++ [⟨a, n⟩]) := by
    rw [propRefs_propEdit_self _ b side.flip m
      (fun p => p.setPropLinks side.flip (p.propLinks side.flip ++ [(⟨a, n⟩ : LinkRef)]))
      (fun ls => ls ++ [(⟨a, n⟩ : LinkRef)]) (fun p => setPropLinks_name p side.flip _)
      (fun p => propLinks_set_same p side.flip _),
      hE1other b side.flip m (Or.inr (Or.inl (propFlip_ne side))), hvb,
      Option.map_some']
  have hVother : ∀ (c : Nat) (s2 : PropSide) (nm2 : String),
      (c ≠ a ∨ s2 ≠ side ∨ nm2 ≠ n) → (c ≠ b ∨ s2 ≠ side.flip ∨ nm2 ≠ m) →
      propRefs (updateNode (updateNode st a
        (fun nd => { nd with properties := modifyNodeProp nd.properties n (fun p => p.setPropLinks side (p.propLinks side ++ [⟨b, m⟩])) })) b
        (fun nd => { nd with properties := modifyNodeProp nd.properties m (fun p => p.setPropLinks side.flip (p.propLinks side.flip ++ [⟨a, n⟩])) })) c s2 nm2 =
      propRefs st c s2 nm2 := by
    intro c s2 nm2 hk1 hk2
    rw [propRefs_propEdit_other _ b side.flip m
      (fun p => p.setPropLinks side.flip (p.propLinks side.flip ++ [(⟨a, n⟩ : LinkRef)]))
      (fun p => setPropLinks_name p side.flip _)
      (fun p => propLinks_set_flip p side.flip _) c s2 nm2 hk2]
    exact hE1other c s2 nm2 hk1
  intro a2 s2 nm2 ls2 hv2
  by_cases hc1 : a2 = a ∧ s2 = side ∧ nm2 = n
  · obtain ⟨rfl, rfl, rfl⟩ := hc1
    rw [hV1] at hv2
    injection hv2 with hv2
    subst hv2
    refine ⟨nodup_append_singleton hndm h1, ?_⟩
    intro y hy
    rcases List.mem_append.mp hy with hy | hy
    · obtain ⟨qls, hq, hqm⟩ := (hsp a2 s2 nm2 mls hva).2 y hy
      by_cases hp2 : y.node = b ∧ y.name = m
      · obtain ⟨he1, he3⟩ := hp2
        have hqls : qls = tls := by
          rw [he1, he3, hvb] at hq
          injection hq with h
          exact h.symm
        rw [hqls] at hqm
        refine ⟨tls ++ [⟨a2, nm2⟩], by rw [he1, he3]; exact hV2,
          List.mem_append_left _ hqm⟩
      · have hd : y.node ≠ b ∨ s2.flip ≠ s2.flip ∨ y.name ≠ m := by
          by_cases hx1 : y.node = b
          · by_cases hx3 : y.name = m
            · exact absurd ⟨hx1, hx3⟩ hp2
            · exact Or.inr (Or.inr hx3)
          · exact Or.inl hx1
        refine ⟨qls, ?_, hqm⟩
        rw [hVother y.node s2.flip y.name (Or.inr (Or.inl (propFlip_ne s2))) hd]
        exact hq
    · have hyx2 : y = (⟨b, m⟩ : LinkRef) := List.mem_singleton.mp hy
      subst hyx2
      refine ⟨tls ++ [⟨a2, nm2⟩], hV2, List.mem_append_right _ ?_⟩
      exact List.mem_singleton.mpr rfl
  · by_cases hc2 : a2 = b ∧ s2 = side.flip ∧ nm2 = m
    · obtain ⟨rfl, rfl, rfl⟩ := hc2
      rw [hV2] at hv2
      injection hv2 with hv2
      subst hv2
      refine ⟨nodup_append_singleton hndt h2, ?_⟩
      intro y hy
      rcases List.mem_append.mp hy with hy | hy
      · obtain ⟨qls, hq, hqm⟩ := (hsp a2 side.flip nm2 tls hvb).2 y hy
        rw [propFlip_flip] at hq
        by_cases hp1 : y.node = a ∧ y.name = n
        · obtain ⟨he1, he3⟩ := hp1
          have hqls : qls = mls := by
            rw [he1, he3, hva] at hq
            injection hq with h
            exact h.symm
          rw [hqls] at hqm
          rw [propFlip_flip]
          refine ⟨mls ++ [⟨a2, nm2⟩], by rw [he1, he3]; exact hV1,
            List.mem_append_left _ hqm⟩
        · have hd : y.node ≠ a ∨ side ≠ side ∨ y.name ≠ n := by
            by_cases hx1 : y.node = a
            · by_cases hx3 : y.name = n
              · exact absurd ⟨hx1, hx3⟩ hp1
              · exact Or.inr (Or.inr hx3)
            · exact Or.inl hx1
          rw [propFlip_flip]
          refine ⟨qls, ?_, hqm⟩
          rw [hVother y.node side y.name hd
            (Or.inr (Or.inl (fun hc => propFlip_ne side hc.symm)))]
          exact hq
      · have hyx2 : y = (⟨a, n⟩ : LinkRef) := List.mem_singleton.mp hy
        subst hyx2
        rw [propFlip_flip]
        refine ⟨mls ++ [⟨a2, nm2⟩], hV1, List.mem_append_right _ ?_⟩
        exact List.mem_singleton.mpr rfl
    · have hd1 : a2 ≠ a ∨ s2 ≠ side ∨ nm2 ≠ n := by
        by_cases h1' : a2 = a
        · by_cases h2' : s2 = side
          · by_cases h3' : nm2 = n
            · exact absurd ⟨h1', h2', h3'⟩ hc1
            · exact Or.inr (Or.inr h3')
          · exact Or.inr (Or.inl h2')
        · exact Or.inl h1'
      have hd2 : a2 ≠ b ∨ s2 ≠ side.flip ∨ nm2 ≠ m := by
        by_cases h1' : a2 = b
        · by_cases h2' : s2 = side.flip
          · by_cases h3' : nm2 = m
            · exact absurd ⟨h1', h2', h3'⟩ hc2
            · exact Or.inr (Or.inr h3')
          · exact Or.inr (Or.inl h2')
        · exact Or.inl h1'
      rw [hVother a2 s2 nm2 hd1 hd2] at hv2
      obtain ⟨hnd2, hsym2⟩ := hsp a2 s2 nm2 ls2 hv2
      refine ⟨hnd2, ?_⟩
      intro y hy
      obtain ⟨qls, hq, hqm⟩ := hsym2 y hy
      by_cases hp1 : y.node = a ∧ s2.flip = side ∧ y.name = n
      · obtain ⟨he1, he2, he3⟩ := hp1
        have hqls : qls = mls := by
          rw [he1, he2, he3, hva] at hq
          injection hq with h
          exact h.symm
        rw [hqls] at hqm
        refine ⟨mls ++ [⟨b, m⟩], by rw [he1, he2, he3]; exact hV1,
          List.mem_append_left _ hqm⟩
      · by_cases hp2 : y.node = b ∧ s2.flip = side.flip ∧ y.name = m
        · obtain ⟨he1, he2, he3⟩ := hp2
          have hqls : qls = tls := by
            rw [he1, he2, he3, hvb] at hq
            injection hq with h
            exact h.symm
          rw [hqls] at hqm
          refine ⟨tls ++ [⟨a, n⟩], by rw [he1, he2, he3]; exact hV2,
            List.mem_append_left _ hqm⟩
        · have hd1y : y.node ≠ a ∨ s2.flip ≠ side ∨ y.name ≠ n := by
            by_cases hx1 : y.node = a
            · by_cases hx2 : s2.flip = side
              · by_cases hx3 : y.name = n
                · exact absurd ⟨hx1, hx2, hx3⟩ hp1
                · exact Or.inr (Or.inr hx3)
              · exact Or.inr (Or.inl hx2)
            · exact Or.inl hx1
          have hd2y : y.node ≠ b ∨ s2.flip ≠ side.flip ∨ y.name ≠ m := by
            by_cases hx1 : y.node = b
            · by_cases hx2 : s2.flip = side.flip
              · by_cases hx3 : y.name = m
                · exact absurd ⟨hx1, hx2, hx3⟩ hp2
                · exact Or.inr (Or.inr hx3)
              · exact Or.inr (Or.inl hx2)
            · exact Or.inl hx1
          refine ⟨qls, ?_, hqm⟩
          rw [hVother y.node s2.flip y.name hd1y hd2y]
          exact hq


theorem connectProp_preserves (side : PropSide) (st : List Node) (a : Nat)
    (n : String) (b : Nat) (m : String) (hws : linkSym st) :
    linkSym (connectProp side st a n b m).2 := by
  obtain ⟨hsf, hsp⟩ := hws
  rw [connectProp]
  rcases hA : findNode st a with _ | self <;>
    rcases hB : findNode st b with _ | target <;>
    try exact ⟨hsf, hsp⟩
  dsimp only
  rcases hL : findNodeProp self.properties n with _ | myProperty <;>
    rcases hT : findNodeProp target.properties m with _ | targetProperty <;>
    try exact ⟨hsf, hsp⟩
  dsimp only
  by_cases h1 : hasRef (myProperty.propLinks side) b targetProperty.name = true
  · rw [if_pos h1]
    exact ⟨hsf, hsp⟩
  · rw [if_neg h1]
    by_cases h2 : hasRef (targetProperty.propLinks side.flip) a
        myProperty.name = true
    · rw [if_pos h2]
      exact ⟨hsf, hsp⟩
    · rw [if_neg h2]
      dsimp only
      have hnL : myProperty.name = n := findNodeProp_name hL
      have hnT : targetProperty.name = m := findNodeProp_name hT
      have hva : propRefs st a side n = some (myProperty.propLinks side) := by
        rw [propRefs, hA]
        dsimp only
        rw [hL]
      have hvb : propRefs st b side.flip m =
          some (targetProperty.propLinks side.flip) := by
        rw [propRefs, hB]
        dsimp only
        rw [hT]
      have h1' : (⟨b, m⟩ : LinkRef) ∉ myProperty.propLinks side := by
        rw [← hnT]
        exact hasRef_false_not_mem (Bool.eq_false_iff.mpr h1)
      have h2' : (⟨a, n⟩ : LinkRef) ∉ targetProperty.propLinks side.flip := by
        rw [← hnL]
        exact hasRef_false_not_mem (Bool.eq_false_iff.mpr h2)
      rw [hnT, hnL]
      constructor
      · refine symFlowViews_congr ?_ hsf
        intro c s2 n2
        rw [flowRefs_propEdit _ b m
          (fun p => p.setPropLinks side.flip (p.propLinks side.flip ++ [(⟨a, n⟩ : LinkRef)]))
          c s2 n2,
          flowRefs_propEdit st a n
          (fun p => p.setPropLinks side (p.propLinks side ++ [(⟨b, m⟩ : LinkRef)]))
          c s2 n2]
      · exact pairAdd_symProp hsp a side n m b hva hvb h1' h2'

theorem fuel_bound (T : Nat) : 3 * T + 13 ≤ (T + 3) * (T + 3) * (T + 3) := by
  nlinarith

theorem disconnectEntry_preserves (st : List Node) (a : Nat) (n : String)
    (tN : Option Nat) (tL : Option String) (hws : linkSym st) :
    linkSym (disconnectEntry st a n tN tL).2 := by
  rw [disconnectEntry]
  refine disconnectFlowAux_preserves _ _ _ _ _ _ _ hws ?_
  intro ls hv
  have h1 := flow_view_len_le hv
  have h2 : 3 * totalRefs st + 13 ≤ disconnectFuel st := by
    rw [disconnectFuel]
    exact fuel_bound (totalRefs st)
  omega

theorem disconnectExit_preserves (st : List Node) (a : Nat) (n : String)
    (tN : Option Nat) (tL : Option String) (hws : linkSym st) :
    linkSym (disconnectExit st a n tN tL).2 := by
  rw [disconnectExit]
  refine disconnectFlowAux_preserves _ _ _ _ _ _ _ hws ?_
  intro ls hv
  have h1 := flow_view_len_le hv
  have h2 : 3 * totalRefs st + 13 ≤ disconnectFuel st := by
    rw [disconnectFuel]
    exact fuel_bound (totalRefs st)
  omega

theorem disconnectInput_preserves (st : List Node) (a : Nat) (n : String)
    (tN : Option Nat) (tL : Option String) (hws : linkSym st) :
    linkSym (disconnectInput st a n tN tL).2 := by
  rw [disconnectInput]
  refine disconnectPropAux_preserves _ _ _ _ _ _ _ hws ?_
  intro ls hv
  have h1 := prop_view_len_le hv
  have h2 : 3 * totalRefs st + 13 ≤ disconnectFuel st := by
    rw [disconnectFuel]
    exact fuel_bound (totalRefs st)
  omega

theorem disconnectOutput_preserves (st : List Node) (a : Nat) (n : String)
    (tN : Option Nat) (tL : Option String) (hws : linkSym st) :
    linkSym (disconnectOutput st a n tN tL).2 := by
  rw [disconnectOutput]
  refine disconnectPropAux_preserves _ _ _ _ _ _ _ hws ?_
  intro ls hv
  have h1 := prop_view_len_le hv
  have h2 : 3 * totalRefs st + 13 ≤ disconnectFuel st := by
    rw [disconnectFuel]
    exact fuel_bound (totalRefs st)
  omega

theorem applyOp_preserves (st : List Node) (op : GraphOp) (hws : linkSym st) :
    linkSym (applyOp st op) := by
  cases op with
  | connectEntry a n b m => exact connectFlow_preserves .entry st a n b m hws
  | connectExit a n b m => exact connectFlow_preserves .exit st a n b m hws
  | connectInput a n b m => exact connectProp_preserves .input st a n b m hws
  | connectOutput a n b m => exact connectProp_preserves .output st a n b m hws
  | disconnectEntry a n tN tL => exact disconnectEntry_preserves st a n tN tL hws
  | disconnectExit a n tN tL => exact disconnectExit_preserves st a n tN tL hws
  | disconnectInput a n tN tL => exact disconnectInput_preserves st a n tN tL hws
  | disconnectOutput a n tN tL => exact disconnectOutput_preserves st a n tN tL hws

theorem applyOps_preserves : ∀ (ops : List GraphOp) (st : List Node),
    linkSym st → linkSym (applyOps ops st)
  | [], st, h => h
  | op :: rest, st, h => applyOps_preserves rest _ (applyOp_preserves st op h)

theorem checkFlowSym_sound {st : List Node} (h : checkFlowSym st = true) :
    symFlowViews st := by
  intro a side nm ls hv
  obtain ⟨n, l, hn, hl, hls, hname⟩ := flowRefs_some_elim hv
  have hmemn : n ∈ st := findNode_mem hn
  have hid : n.id = a := findNode_id hn
  rw [checkFlowSym, List.all_eq_true] at h
  have h2 := h n hmemn
  rw [hid, hn] at h2
  dsimp only at h2
  rw [Bool.and_eq_true] at h2
  have h3 : checkFlowNode st a side (n.flowLinks side) = true := by
    cases side
    · exact h2.1
    · exact h2.2
  rw [checkFlowNode, List.all_eq_true] at h3
  have h4 := h3 l (findFlowLink_mem hl)
  rw [hname, hv] at h4
  dsimp only at h4
  rw [Bool.and_eq_true] at h4
  refine ⟨of_decide_eq_true h4.1, ?_⟩
  intro r hr
  have h5 := (List.all_eq_true.mp h4.2) r hr
  rcases hpv : flowRefs st r.node side.flip r.name with _ | pls
  · rw [hpv] at h5
    cases h5
  · rw [hpv] at h5
    dsimp only at h5
    exact ⟨pls, rfl, of_decide_eq_true h5⟩

theorem checkPropSym_sound {st : List Node} (h : checkPropSym st = true) :
    symPropViews st := by
  intro a side nm ls hv
  obtain ⟨n, p, hn, hp, hls, hname⟩ := propRefs_some_elim hv
  have hmemn : n ∈ st := findNode_mem hn
  have hid : n.id = a := findNode_id hn
  rw [checkPropSym, List.all_eq_true] at h
  have h2 := h n hmemn
  rw [hid, hn] at h2
  dsimp only at h2
  rw [Bool.and_eq_true] at h2
  have h3 : checkPropNode st a side n.properties = true := by
    cases side
    · exact h2.1
    · exact h2.2
  rw [checkPropNode, List.all_eq_true] at h3
  have h4 := h3 p (findNodeProp_mem hp)
  rw [hname, hv] at h4
  dsimp only at h4
  rw [Bool.and_eq_true] at h4
  refine ⟨of_decide_eq_true h4.1, ?_⟩
  intro r hr
  have h5 := (List.all_eq_true.mp h4.2) r hr
  rcases hpv : propRefs st r.node side.flip r.name with _ | pls
  · rw [hpv] at h5
    cases h5
  · rw [hpv] at h5
    dsimp only at h5
    exact ⟨pls, rfl, of_decide_eq_true h5⟩

/-- C3: link symmetry is an invariant of the connect/disconnect protocol. From
any store whose flow and property views pass the executable symmetry check,
after an arbitrary sequence of connectEntry/connectExit/connectInput/
connectOutput and disconnectEntry/disconnectExit/disconnectInput/
disconnectOutput calls (with arbitrary node and link-name filters on the
disconnects), whenever node a's side link named nm holds a reference
(r.node, r.name), the referenced node's opposite-side link named r.name holds
the matching back reference (a, nm); likewise for the property links. -/
theorem c3_link_symmetry (ops : List GraphOp) (st : List Node)
    (hsym : checkFlowSym st = true) (hpsym : checkPropSym st = true) :
    (∀ (a : Nat) (side : FlowSide) (nm : String) (ls : List LinkRef)
      (r : LinkRef),
      flowRefs (applyOps ops st) a side nm = some ls → r ∈ ls →
      ∃ pls, flowRefs (applyOps ops st) r.node side.flip r.name = some pls ∧
        (⟨a, nm⟩ : LinkRef) ∈ pls) ∧
    (∀ (a : Nat) (side : PropSide) (nm : String) (ls : List LinkRef)
      (r : LinkRef),
      propRefs (applyOps ops st) a side nm = some ls → r ∈ ls →
      ∃ pls, propRefs (applyOps ops st) r.node side.flip r.name = some pls ∧
        (⟨a, nm⟩ : LinkRef) ∈ pls) := by
  have hws := applyOps_preserves ops st
    ⟨checkFlowSym_sound hsym, checkPropSym_sound hpsym⟩
  constructor
  · intro a side nm ls r hv hr
    exact (hws.1 a side nm ls hv).2 r hr
  · intro a side nm ls r hv hr
    exact (hws.2 a side nm ls hv).2 r hr

/-- C3 witness: the symmetry theorem instantiated on the two-node store of the
restart example (storage node 2 wired to process node 1) and a sequence mixing
flow and property connects, full and filtered disconnects, a self-loop and a
duplicate-connect attempt. -/
theorem c3_witness :
    (checkFlowSym [exNodeStore, exNodeBIn] = true ∧
     checkPropSym [exNodeStore, exNodeBIn] = true) ∧
    ((∀ (a : Nat) (side : FlowSide) (nm : String) (ls : List LinkRef)
      (r : LinkRef),
      flowRefs (applyOps [GraphOp.connectEntry 1 "in" 1 "out",
        GraphOp.connectOutput 2 "value" 1 "q",
        GraphOp.disconnectInput 1 "q" none none,
        GraphOp.connectInput 1 "q" 2 "value",
        GraphOp.disconnectEntry 1 "in" (some 1) (some "out")]
        [exNodeStore, exNodeBIn]) a side nm = some ls → r ∈ ls →
      ∃ pls, flowRefs (applyOps [GraphOp.connectEntry 1 "in" 1 "out",
        GraphOp.connectOutput 2 "value" 1 "q",
        GraphOp.disconnectInput 1 "q" none none,
        GraphOp.connectInput 1 "q" 2 "value",
        GraphOp.disconnectEntry 1 "in" (some 1) (some "out")]
        [exNodeStore, exNodeBIn]) r.node side.flip r.name = some pls ∧
        (⟨a, nm⟩ : LinkRef) ∈ pls) ∧
    (∀ (a : Nat) (side : PropSide) (nm : String) (ls : List LinkRef)
      (r : LinkRef),
      propRefs (applyOps [GraphOp.connectEntry 1 "in" 1 "out",
        GraphOp.connectOutput 2 "value" 1 "q",
        GraphOp.disconnectInput 1 "q" none none,
        GraphOp.connectInput 1 "q" 2 "value",
        GraphOp.disconnectEntry 1 "in" (some 1) (some "out")]
        [exNodeStore, exNodeBIn]) a side nm = some ls → r ∈ ls →
      ∃ pls, propRefs (applyOps [GraphOp.connectEntry 1 "in" 1 "out",
        GraphOp.connectOutput 2 "value" 1 "q",
        GraphOp.disconnectInput 1 "q" none none,
        GraphOp.connectInput 1 "q" 2 "value",
        GraphOp.disconnectEntry 1 "in" (some 1) (some "out")]
        [exNodeStore, exNodeBIn]) r.node side.flip r.name = some pls ∧
        (⟨a, nm⟩ : LinkRef) ∈ pls)) :=
  ⟨⟨by decide, by decide⟩,
    c3_link_symmetry [GraphOp.connectEntry 1 "in" 1 "out",
      GraphOp.connectOutput 2 "value" 1 "q",
      GraphOp.disconnectInput 1 "q" none none,
      GraphOp.connectInput 1 "q" 2 "value",
      GraphOp.disconnectEntry 1 "in" (some 1) (some "out")]
      [exNodeStore, exNodeBIn] (by decide) (by decide)⟩

/-- C9 witness: the amended start theorem instantiated on the restart example
store (distinct ids 2 and 1, timer 42 below cursor 100). -/
theorem c9_witness :
    ((exPlayRestart.nodes.map Node.id).Nodup ∧
     ∀ t ∈ exPlayRestart.hostTimers, t < exPlayRestart.nextTimerId) ∧
    ((wcPlayStart exPlayRestart).scriptProperties =
      exPlayRestart.scriptProperties.map (fun p => { p with value := p.initialValue }) ∧
    goodNodes (wcPlayStart exPlayRestart) ∧
    (∀ tid ∈ exPlayRestart.hostTimers,
      (∃ n ∈ exPlayRestart.nodes, JSVal.num (Int.ofNat tid) ∈ n.threads) →
      tid ∉ (wcPlayStart exPlayRestart).hostTimers) ∧
    ∀ qc qp, wcPlayStart { exPlayRestart with queuedChain := qc, queuedProperties := qp } = wcPlayStart exPlayRestart) :=
  ⟨⟨by decide, by decide⟩,
    c9_start_resets_state exPlayRestart (by decide) (by decide)⟩

end WcPlay

